import Mathlib

/-!
# Landing-page script (`src/scripts.js`): a shallow embedding

The script is a set of DOM event handlers.  Each handler is embedded as a pure
function on the part of the page it reads and writes; DOM collections
(`querySelectorAll` results) are lists in document order, an element is named
by its position in its collection, and strings are `String`.

Definitions come first, theorems follow.
-/

namespace Scripts

/-! ## FAQ accordion (`setupFAQAccordion`, lines 17-57; Escape handler, lines 287-294) -/

/-- One FAQ entry: a `.faq-question` element together with the `.faq-answer`
element that is its `nextElementSibling` (and whose `previousElementSibling`
is that question).  Only the two properties the handlers touch are kept. -/
structure FaqItem where
  /-- Whether the question's `classList` holds `active`. -/
  questionActive : Bool
  /-- The value of `answer.style.display`. -/
  answerDisplay : String
deriving DecidableEq, Repr

/-- Lines 26-29 and 290-293: the `forEach` over all `.faq-answer` elements,
hiding each answer and removing `active` from its question. -/
def closeAllFaq (items : List FaqItem) : List FaqItem :=
  items.map fun _ => { questionActive := false, answerDisplay := "none" }

/-- Lines 21-44: the click listener of question `i`.  A position with no
question has no listener, so nothing happens there.  The delayed
`scrollIntoView` changes no property of the model and is left out. -/
def clickFaqQuestion (items : List FaqItem) (i : Nat) : List FaqItem :=
  match items[i]? with
  | none => items
  | some item =>
    let isOpen := item.answerDisplay == "block"
    let closed := closeAllFaq items
    if !isOpen then
      closed.set i { questionActive := true, answerDisplay := "block" }
    else
      closed

/-- The user events the accordion reacts to.  Enter and Space on a question
call `this.click()` (lines 47-52), so they are `click` events too. -/
inductive FaqEvent where
  | click (i : Nat)
  | escape
deriving DecidableEq, Repr

/-- One event applied to the accordion. -/
def faqStep (items : List FaqItem) : FaqEvent → List FaqItem
  | .click i => clickFaqQuestion items i
  | .escape => closeAllFaq items

/-- A sequence of events applied from left to right. -/
def faqRun (items : List FaqItem) (events : List FaqEvent) : List FaqItem :=
  events.foldl faqStep items

/-- The number of answers whose `style.display` is `block`. -/
def visibleAnswers (items : List FaqItem) : Nat :=
  items.countP fun item => item.answerDisplay == "block"

/-- An event is addressed to the page when a click names an existing question. -/
def FaqEvent.onPage (n : Nat) : FaqEvent → Bool
  | .click i => decide (i < n)
  | .escape => true

/-! ## Strings and numbers shared by the handlers -/

/-- `String.prototype.toLowerCase` on text whose cased letters are ASCII: the
letters `A` to `Z` are lowered and every other character is kept.  The script
applies it to the literals `S` and `L` (line 79) and to a size label whose
lower-cased form only enters the product id (line 614). -/
def toLowerCase (s : String) : String :=
  String.mk (s.data.map Char.toLower)

/-- `text.replace(/[^0-9]/g, '')`: the ASCII digits of a text, in order. -/
def stripNonDigits (s : String) : List Char :=
  s.data.filter fun c => decide ('0' ≤ c ∧ c ≤ '9')

/-- `parseInt` on a string of ASCII digits: `NaN` (here `none`) on the empty
string, otherwise the decimal number.  `parseInt` returns a double, which is
this number whenever it is below `2 ^ 53`; the theorems use it below that
bound only. -/
def parseIntDigits (digits : List Char) : Option Nat :=
  if digits.isEmpty then none
  else some (digits.foldl (fun acc c => 10 * acc + (c.toNat - '0'.toNat)) 0)

/-- `parseInt(text.replace(/[^0-9]/g, ''))` (lines 465 and 617). -/
def parsePrice (text : String) : Option Nat :=
  parseIntDigits (stripNonDigits text)

/-- The JavaScript `a || b` on strings: the empty string is falsy. -/
def strOr (a b : String) : String :=
  if a = "" then b else a

/-- The JavaScript `a || b` on a number that may be `NaN`: `NaN` and `0` are falsy. -/
def numOr (a : Option Nat) (b : Nat) : Nat :=
  match a with
  | none => b
  | some 0 => b
  | some n => n

/-- The JavaScript `x?.textContent || d` for an element that may be missing. -/
def textOr (x : Option String) (d : String) : String :=
  match x with
  | none => d
  | some t => strOr t d

/-- A value stored in the data object of a tracked event. -/
inductive JsValue where
  | str (s : String)
  | num (n : Nat)
deriving DecidableEq, Repr

/-- One call of `trackEvent(eventName, eventData)` (lines 317-320). -/
structure TrackedEvent where
  eventName : String
  eventData : List (String × JsValue)
deriving DecidableEq, Repr

/-- One call of `showNotification(message, type)` (lines 567-602); the toast's
slide-in and removal timers change nothing the model reads. -/
structure Notification where
  message : String
  kind : String
deriving DecidableEq, Repr

/-! ## Size selector, call-to-action buttons and cart
(`setupSizeSelector`, lines 60-100; click tracking, lines 323-347;
CTA click handler, lines 605-629; `addToCart`, lines 551-564) -/

/-- A `.size-option` element. -/
structure SizeOption where
  /-- The `textContent` of its first `strong` descendant, when there is one. -/
  strongText : Option String
  /-- The `textContent` of its first `.size-price` descendant, when there is one. -/
  sizePriceText : Option String
  /-- Whether its `classList` holds `active`. -/
  active : Bool
deriving DecidableEq, Repr

/-- A `.cta-button` element. -/
structure CtaButton where
  /-- Its own text, apart from loading spinners appended to it. -/
  label : String
  /-- The value assigned to `href`. -/
  href : String
  /-- The loading spinners currently appended to it (`showLoadingState`). -/
  loaders : List Nat
deriving DecidableEq, Repr

/-- The `textContent` getter of a CTA button: its text followed by the text of
each appended spinner. -/
def CtaButton.textContent (b : CtaButton) : String :=
  b.loaders.foldl (fun acc _ => acc ++ "⏳") b.label

/-- The object built at lines 613-618. -/
structure ProductData where
  id : String
  name : String
  size : String
  price : Option Nat
deriving DecidableEq, Repr

/-- A pending `setTimeout` of the CTA click handler (lines 624-627). -/
structure CartTimer where
  due : Nat
  loader : Nat
  productData : ProductData
deriving DecidableEq, Repr

/-- The part of the page the size selector and the cart read and write. -/
structure Page where
  sizeOptions : List SizeOption
  ctaButtons : List CtaButton
  /-- Every `showNotification` call so far, oldest first. -/
  notifications : List Notification
  /-- Every `trackEvent` call so far, oldest first. -/
  tracked : List TrackedEvent
  /-- Pending cart timers, in the order they were set. -/
  timers : List CartTimer
  /-- Milliseconds elapsed. -/
  now : Nat
  /-- The identity the next loading spinner gets. -/
  nextLoader : Nat
deriving DecidableEq, Repr

/-- Line 74: `isSmallSize ? 'S' : 'L'` with `isSmallSize = (index === 0)`. -/
def sizeOfIndex (index : Nat) : String :=
  if index = 0 then "S" else "L"

/-- Line 75: `isSmallSize ? '13,900원' : '18,500원'`. -/
def priceOfIndex (index : Nat) : String :=
  if index = 0 then "13,900원" else "18,500원"

/-- Line 78: the template literal assigned to `button.textContent`. -/
def ctaText (size price : String) : String :=
  "💛 " ++ size ++ "사이즈 주문하기 (" ++ price ++ ")"

/-- Line 79: the template literal assigned to `button.href`. -/
def ctaHref (size : String) : String :=
  "#order-" ++ toLowerCase size

/-- Lines 65-87: the click listener of size option `index`.  Assigning
`textContent` replaces a button's children, appended spinners included.  The
`scale(1.05)` pulse is cosmetic and left out. -/
def sizeOptionListener (p : Page) (index : Nat) : Page :=
  let cleared := p.sizeOptions.map fun opt => { opt with active := false }
  let options := cleared.modify (fun opt => { opt with active := true }) index
  let size := sizeOfIndex index
  let price := priceOfIndex index
  let buttons := p.ctaButtons.map fun _ =>
    { label := ctaText size price, href := ctaHref size, loaders := [] }
  { p with sizeOptions := options, ctaButtons := buttons }

/-- Lines 333-339: the document click listener, for a click whose target is
size option `index`. -/
def trackSizeSelection (p : Page) (opt : SizeOption) : Page :=
  let sizeText := textOr opt.strongText "unknown"
  { p with tracked := p.tracked ++
      [⟨"size_selection", [("size", .str sizeText), ("section", .str "product_options")]⟩] }

/-- A click on size option `index` itself (also what Enter and Space produce,
lines 90-95): the option's listener, then the document listener.  A position
with no option receives no click. -/
def clickSizeOption (p : Page) (index : Nat) : Page :=
  match p.sizeOptions[index]? with
  | none => p
  | some _ =>
    let p1 := sizeOptionListener p index
    match p1.sizeOptions[index]? with
    | none => p1
    | some opt => trackSizeSelection p1 opt

/-- Lines 389-406, `showLoadingState(element)` for CTA button `b`: a fresh
spinner is appended to the button and returned. -/
def showLoadingState (p : Page) (b : Nat) : Page × Nat :=
  let loader := p.nextLoader
  ({ p with
      ctaButtons := p.ctaButtons.modify (fun btn => { btn with loaders := btn.loaders ++ [loader] }) b,
      nextLoader := loader + 1 }, loader)

/-- Lines 408-412, `hideLoadingState(loader)`: the spinner is removed from its
parent when it still has one. -/
def hideLoadingState (p : Page) (loader : Nat) : Page :=
  { p with ctaButtons := p.ctaButtons.map fun btn =>
      { btn with loaders := btn.loaders.filter fun l => l != loader } }

/-- Lines 567-602, `showNotification(message, type)`. -/
def showNotification (p : Page) (message kind : String) : Page :=
  { p with notifications := p.notifications ++ [⟨message, kind⟩] }

/-- Lines 317-320, `trackEvent(eventName, eventData)`. -/
def trackEvent (p : Page) (eventName : String) (eventData : List (String × JsValue)) : Page :=
  { p with tracked := p.tracked ++ [⟨eventName, eventData⟩] }

/-- Lines 551-564, `addToCart(productData)`. -/
def addToCart (p : Page) (productData : ProductData) : Page :=
  let p1 := showNotification p "장바구니에 추가되었습니다! 🛒" "success"
  trackEvent p1 "add_to_cart"
    [("product_id", .str (strOr productData.id "smile-cooler-bag")),
     ("product_name", .str (strOr productData.name "Smile We Love 보냉백")),
     ("size", .str (strOr productData.size "S")),
     ("price", .num (numOr productData.price 13900))]

/-- Line 609, `document.querySelector('.size-option.active')`: the first
active size option in document order. -/
def activeSizeOption (p : Page) : Option SizeOption :=
  p.sizeOptions.find? fun opt => opt.active

/-- Lines 606-628: the click listener of CTA button `b`. -/
def ctaButtonListener (p : Page) (b : Nat) : Page :=
  let activeSize := activeSizeOption p
  let sizeText := textOr (activeSize.bind fun opt => opt.strongText) "S사이즈"
  let priceText := textOr (activeSize.bind fun opt => opt.sizePriceText) "13,900원"
  let productData : ProductData :=
    { id := "smile-cooler-" ++ toLowerCase sizeText,
      name := "Smile We Love 보냉백",
      size := sizeText,
      price := parsePrice priceText }
  let (p1, loader) := showLoadingState p b
  { p1 with timers := p1.timers ++ [⟨p1.now + 1000, loader, productData⟩] }

/-- Lines 326-331: the document click listener, for a click whose target is a
CTA button. -/
def trackCtaClick (p : Page) (btn : CtaButton) : Page :=
  trackEvent p "cta_click"
    [("button_text", .str btn.textContent), ("section", .str "main_cta")]

/-- A click on CTA button `b` itself: the button's listener, then the document
listener.  A position with no button receives no click. -/
def clickCtaButton (p : Page) (b : Nat) : Page :=
  match p.ctaButtons[b]? with
  | none => p
  | some _ =>
    let p1 := ctaButtonListener p b
    match p1.ctaButtons[b]? with
    | none => p1
    | some btn => trackCtaClick p1 btn

/-- The callback of one cart timer (lines 624-627). -/
def fireCartTimer (p : Page) (t : CartTimer) : Page :=
  addToCart (hideLoadingState p t.loader) t.productData

/-- The passage of `dt` milliseconds: every pending timer that has come due
fires.  All cart timers have the same delay, so the order in which they were
set is the order in which they come due. -/
def advance (p : Page) (dt : Nat) : Page :=
  let now := p.now + dt
  let due := p.timers.filter fun t => decide (t.due ≤ now)
  let pending := p.timers.filter fun t => !decide (t.due ≤ now)
  due.foldl fireCartTimer { p with timers := pending, now := now }

/-- A page with the two size options of the landing page and a third one. -/
def threeSizePage : Page :=
  Page.mk
    [⟨some "S사이즈", some "13,900원", true⟩,
     ⟨some "L사이즈", some "18,500원", false⟩,
     ⟨some "XL사이즈", some "25,000원", false⟩]
    [⟨"주문하기", "#order", []⟩] [] [] [] 0 0

/-! ## Wishlist (`toggleWishlist`, lines 632-652) -/

/-- `Array.prototype.indexOf` on an array of strings, searching from `k`. -/
def indexOfFrom : List String → String → Nat → Int
  | [], _, _ => -1
  | y :: ys, x, k => if y = x then (k : Int) else indexOfFrom ys x (k + 1)

/-- `wishlist.indexOf(productId)`: the first position holding the id, or `-1`. -/
def indexOf (wishlist : List String) (productId : String) : Int :=
  indexOfFrom wishlist productId 0

/-- The `wishlist` slot of `localStorage`: absent (`none`), or the JSON text of
an array of strings, kept here as the array it encodes (`JSON.parse` of
`JSON.stringify` of such an array is that array). -/
abbrev WishlistSlot := Option (List String)

/-- Line 633: `JSON.parse(localStorage.getItem('wishlist') || '[]')`. -/
def readWishlist (slot : WishlistSlot) : List String :=
  match slot with
  | none => []
  | some wishlist => wishlist

/-- What one call of `toggleWishlist` leaves behind. -/
structure ToggleResult where
  /-- The slot after `localStorage.setItem`. -/
  slot : WishlistSlot
  /-- The notification shown. -/
  shown : Notification
  /-- The event tracked. -/
  event : TrackedEvent
  /-- The value returned. -/
  returned : Bool
deriving DecidableEq, Repr

/-- Lines 632-652, `toggleWishlist(productId)`. -/
def toggleWishlist (slot : WishlistSlot) (productId : String) : ToggleResult :=
  let wishlist := readWishlist slot
  let index := indexOf wishlist productId
  let (wishlist1, shown) : List String × Notification :=
    if index > -1 then
      (wishlist.eraseIdx index.toNat, ⟨"위시리스트에서 제거되었습니다", "info"⟩)
    else
      (wishlist ++ [productId], ⟨"위시리스트에 추가되었습니다! 💝", "success"⟩)
  { slot := some wishlist1,
    shown := shown,
    event := ⟨"wishlist_toggle",
      [("product_id", .str productId),
       ("action", .str (if index > -1 then "remove" else "add"))]⟩,
    returned := decide (index = -1) }

/-! ## Scroll-depth tracking (lines 349-368) -/

/-- The state of the scroll-depth handler: the module variable
`maxScrollDepth` and the `depth` values of the `scroll_depth` events tracked. -/
structure ScrollState where
  maxScrollDepth : Int
  depths : List String
deriving DecidableEq, Repr

/-- Line 350: `let maxScrollDepth = 0`, nothing tracked yet. -/
def ScrollState.initial : ScrollState :=
  { maxScrollDepth := 0, depths := [] }

/-- Lines 354-367: the handler body for one reading `scrollDepth` (the rounded
percentage of line 352, a finite integer here). -/
def scrollDepthHandler (s : ScrollState) (scrollDepth : Int) : ScrollState :=
  if scrollDepth > s.maxScrollDepth then
    let m := scrollDepth
    if m ≥ 25 ∧ m < 50 then { maxScrollDepth := m, depths := s.depths ++ ["25%"] }
    else if m ≥ 50 ∧ m < 75 then { maxScrollDepth := m, depths := s.depths ++ ["50%"] }
    else if m ≥ 75 ∧ m < 90 then { maxScrollDepth := m, depths := s.depths ++ ["75%"] }
    else if m ≥ 90 then { maxScrollDepth := m, depths := s.depths ++ ["90%"] }
    else { maxScrollDepth := m, depths := s.depths }
  else s

/-- The handler run on a sequence of readings, from the state of a fresh page load. -/
def scrollDepthRun (readings : List Int) : ScrollState :=
  readings.foldl scrollDepthHandler ScrollState.initial

/-! ## Form validation (`validateForm`, lines 415-429) -/

/-- The code points `String.prototype.trim` removes: the ECMAScript
`WhiteSpace` and `LineTerminator` characters. -/
def isJsWhiteSpace (c : Char) : Bool :=
  let n := c.toNat
  n == 0x09 || n == 0x0A || n == 0x0B || n == 0x0C || n == 0x0D || n == 0x20 ||
  n == 0xA0 || n == 0x1680 || (0x2000 ≤ n && n ≤ 0x200A) || n == 0x2028 ||
  n == 0x2029 || n == 0x202F || n == 0x205F || n == 0x3000 || n == 0xFEFF

/-- `String.prototype.trim`: white space removed from both ends. -/
def trim (s : String) : String :=
  String.mk ((s.data.dropWhile isJsWhiteSpace).reverse.dropWhile isJsWhiteSpace).reverse

/-- `classList.add(token)`: the token is appended unless already present. -/
def classListAdd (classList : List String) (token : String) : List String :=
  if token ∈ classList then classList else classList ++ [token]

/-- `classList.remove(token)`. -/
def classListRemove (classList : List String) (token : String) : List String :=
  classList.filter fun t => t != token

/-- An element inside the form: whether it carries the `required` attribute,
its `value` when that is a string (every input, select and textarea; `none`
for an element without a string `value`, such as a `div`), and its
`classList`. -/
structure FormField where
  required : Bool
  value : Option String
  classList : List String
deriving DecidableEq, Repr

/-- How a call ends: it returns `isValid`, or `field.value.trim()` throws a
`TypeError`. -/
inductive Completion where
  | returned (isValid : Bool)
  | threwTypeError
deriving DecidableEq, Repr

/-- Lines 419-426: the `forEach` over the elements matched by `[required]`,
with the running value of `isValid`; elements without the attribute are not
visited.  On an element without a string `value` line 420 throws, and the
elements after it are left as they were. -/
def validateFields : List FormField → Bool → Completion × List FormField
  | [], isValid => (.returned isValid, [])
  | field :: rest, isValid =>
    if field.required then
      match field.value with
      | none => (.threwTypeError, field :: rest)
      | some value =>
        if trim value = "" then
          let r := validateFields rest false
          (r.1, { field with classList := classListAdd field.classList "error" } :: r.2)
        else
          let r := validateFields rest isValid
          (r.1, { field with classList := classListRemove field.classList "error" } :: r.2)
    else
      let r := validateFields rest isValid
      (r.1, field :: r.2)

/-- Lines 415-429, `validateForm(formElement)`: how the call ends and the
form's elements after it. -/
def validateForm (formElement : List FormField) : Completion × List FormField :=
  validateFields formElement true

/-- Every `[required]` element of the form has a string `value`. -/
def requiredAreControls (form : List FormField) : Bool :=
  form.all fun f => !f.required || f.value.isSome

/-- A form whose second required element is a `div` without a `value`, between
two blank required inputs. -/
def formWithRequiredDiv : List FormField :=
  [⟨true, some "", []⟩, ⟨true, none, []⟩, ⟨true, some " ", []⟩]

/-! ## Price counter (`animatePrice`, lines 457-487) -/

/-- The digit `d < 10` as a character. -/
def digitChar (d : Nat) : Char :=
  Char.ofNat ('0'.toNat + d)

/-- Thousands separators on a digit list given least significant digit first. -/
def groupThousands : List Char → List Char
  | a :: b :: c :: d :: rest => a :: b :: c :: ',' :: groupThousands (d :: rest)
  | digits => digits

/-- `n.toLocaleString('ko-KR')` for a non-negative integer: decimal digits in
groups of three separated by commas. -/
def toLocaleString (n : Nat) : String :=
  let digits := if n = 0 then ['0'] else (Nat.digits 10 n).map digitChar
  String.mk (groupThousands digits).reverse

/-- Round half to even: the integer nearest to `m`, the even one of the two
when `m` lies halfway. -/
def roundHalfEven (m : ℚ) : ℤ :=
  let f := Rat.floor m
  let r := m - f
  if r < 1 / 2 then f else if 1 / 2 < r then f + 1 else if f % 2 = 0 then f else f + 1

/-- The IEEE 754 double nearest to the real number `x` (round to nearest, ties
to even), which is what `+` and `/` on JavaScript numbers return for the exact
result `x`: 53 significant bits, the last of them worth `2 ^ (e - 52)` when
`2 ^ e ≤ |x| < 2 ^ (e + 1)`.  Overflow and subnormal numbers are left out;
the counter's values, between `1 / 64` and `2 ^ 54`, are far from both. -/
def roundDouble (x : ℚ) : ℚ :=
  if x = 0 then 0
  else
    let e := Int.log 2 |x|
    let ulp : ℚ := 2 ^ (e - 52)
    roundHalfEven (x / ulp) * ulp

/-- The variables closed over by one `setInterval` callback (lines 465-470).
JavaScript numbers are doubles, kept here as the rationals they denote. -/
structure PriceCounter where
  /-- `numericPrice`; `none` is `NaN`.  A whole number below `2 ^ 53` is a
  double, and `parseInt` returns it exactly. -/
  numericPrice : Option Nat
  /-- `currentPrice` (unused when `numericPrice` is `NaN`). -/
  currentPrice : ℚ
  /-- `increment = numericPrice / 50`, rounded as the division rounds it. -/
  increment : ℚ
  /-- Whether the interval has not been cleared. -/
  running : Bool
deriving DecidableEq, Repr

/-- A `.sale-price` element with its own observer (lines 460-486). -/
structure PriceElement where
  textContent : String
  /-- Whether the observer still observes the element. -/
  observed : Bool
  /-- The intervals started for the element, oldest first. -/
  counters : List PriceCounter
deriving DecidableEq, Repr

/-- Line 485: the element as `observer.observe(price)` leaves it. -/
def PriceElement.initial (text : String) : PriceElement :=
  { textContent := text, observed := true, counters := [] }

/-- Lines 464-470 and 480: the body run for one intersecting entry. -/
def startPriceCounter (e : PriceElement) : PriceElement :=
  let finalPrice := e.textContent
  let numericPrice := parsePrice finalPrice
  let increment : ℚ := match numericPrice with
    | none => 0
    | some n => roundDouble ((n : ℚ) / 50)
  { e with
    counters := e.counters ++
      [{ numericPrice := numericPrice, currentPrice := 0, increment := increment,
         running := true }],
    observed := false }

/-- Lines 461-483: the observer callback on a batch of entries for the element,
each given by its `isIntersecting`. -/
def priceObserverCallback (e : PriceElement) (entries : List Bool) : PriceElement :=
  entries.foldl (fun e isIntersecting => if isIntersecting then startPriceCounter e else e) e

/-- Lines 470-478: one run of an interval callback; the counter after it and
the text it writes.  `currentPrice += increment` is a double addition: the
exact sum, rounded.  With `NaN` every comparison is false and the text is
`NaN원`. -/
def priceCounterTick (c : PriceCounter) : PriceCounter × String :=
  match c.numericPrice with
  | none => (c, "NaN원")
  | some n =>
    let currentPrice := roundDouble (c.currentPrice + c.increment)
    let c1 : PriceCounter :=
      if currentPrice ≥ (n : ℚ) then { c with currentPrice := n, running := false }
      else { c with currentPrice := currentPrice }
    (c1, toLocaleString (Rat.floor c1.currentPrice).toNat ++ "원")

/-- The timer of interval `k` elapses: its callback runs if the interval exists
and has not been cleared. -/
def priceIntervalFire (e : PriceElement) (k : Nat) : PriceElement :=
  match e.counters[k]? with
  | none => e
  | some c =>
    if c.running then
      let r := priceCounterTick c
      { e with counters := e.counters.set k r.1, textContent := r.2 }
    else e

/-- What can happen to a price element: its observer's callback is invoked with
one entry, or the timer of interval `k` elapses. -/
inductive PriceEvent where
  | intersection (isIntersecting : Bool)
  | interval (k : Nat)
deriving DecidableEq, Repr

/-- One event applied to a price element. -/
def priceStep (e : PriceElement) : PriceEvent → PriceElement
  | .intersection isIntersecting => priceObserverCallback e [isIntersecting]
  | .interval k => priceIntervalFire e k

/-- A sequence of events applied from left to right. -/
def priceRun (e : PriceElement) (events : List PriceEvent) : PriceElement :=
  events.foldl priceStep e

/-- The browser's side of the contract: an observer reports entries only for an
element it observes. -/
def priceTraceOk : PriceElement → List PriceEvent → Bool
  | _, [] => true
  | e, .intersection b :: rest => e.observed && priceTraceOk (priceStep e (.intersection b)) rest
  | e, .interval k :: rest => priceTraceOk (priceStep e (.interval k)) rest

/-- The element after its first intersecting entry and `k` elapsed timers of
the interval then started. -/
def priceAfterTicks (text : String) (k : Nat) : PriceElement :=
  priceRun (PriceElement.initial text) (.intersection true :: List.replicate k (.interval 0))

/-- The value of `currentPrice` after `k` runs of `currentPrice += increment`
from 0 (lines 467 and 471), as long as the clamp of lines 472-475 has not been
taken. -/
def doubleSum (increment : ℚ) : Nat → ℚ
  | 0 => 0
  | k + 1 => roundDouble (doubleSum increment k + increment)

/-- A double other than zero, written out: a 53-bit significand `n` times a
power of two. -/
def IsDouble (d : ℚ) : Prop :=
  ∃ (n : ℕ) (k : ℤ), 2 ^ 52 ≤ n ∧ n < 2 ^ 53 ∧ d = (n : ℚ) * (2 : ℚ) ^ k

/-! ## Scroll reveal (`setupScrollAnimations`, lines 132-176) -/

/-- An element of the page, as the scroll-reveal code sees it. -/
structure AnimElement where
  classList : List String
  /-- The value of `style.opacity`. -/
  opacity : String
  /-- The value of `style.transform`. -/
  transform : String
  /-- Its position among the children of its parent (lines 149-150). -/
  siblingIndex : Nat
deriving DecidableEq, Repr

/-- Lines 168-170: the selector of the animation targets. -/
def isAnimationTarget (el : AnimElement) : Bool :=
  el.classList.contains "problem-card" || el.classList.contains "usp-card" ||
  el.classList.contains "feature-item" || el.classList.contains "review-card" ||
  el.classList.contains "community-item" || el.classList.contains "faq-item"

/-- Lines 144-147: the classes whose reveal is staggered. -/
def isGridItem (el : AnimElement) : Bool :=
  el.classList.contains "problem-card" || el.classList.contains "usp-card" ||
  el.classList.contains "review-card" || el.classList.contains "community-item"

/-- A pending `setTimeout` of lines 152-155. -/
structure RevealTimer where
  target : Nat
  delay : Nat
deriving DecidableEq, Repr

/-- The scroll-reveal controller: the page's elements (an element is named by
its position), the observer's observation targets, the pending staggered
timers, and a record, oldest first, of the targets for which the body of the
`isIntersecting` branch (lines 141-162) has run. -/
structure RevealState where
  elements : List AnimElement
  observed : List Nat
  timers : List RevealTimer
  revealed : List Nat
deriving DecidableEq, Repr

/-- Lines 168-175: every animation target gets the class `fade-in` and is
observed. -/
def setupScrollAnimations (page : List AnimElement) : RevealState :=
  { elements := page.map fun el =>
      if isAnimationTarget el then { el with classList := classListAdd el.classList "fade-in" }
      else el,
    observed := (List.range page.length).filter fun i =>
      match page[i]? with
      | some el => isAnimationTarget el
      | none => false,
    timers := [],
    revealed := [] }

/-- Lines 153-154 and 157-158: the two style assignments of a reveal. -/
def showElement (el : AnimElement) : AnimElement :=
  { el with opacity := "1", transform := "translateY(0)" }

/-- Lines 140-163: the callback's body for one entry, given by its target and
its `isIntersecting`. -/
def revealEntry (s : RevealState) (entry : Nat × Bool) : RevealState :=
  if entry.2 then
    match s.elements[entry.1]? with
    | none => s
    | some el =>
      let el1 := { el with classList := classListAdd el.classList "visible" }
      let s1 : RevealState :=
        if isGridItem el1 then
          { s with elements := s.elements.set entry.1 el1,
                   timers := s.timers ++ [⟨entry.1, el1.siblingIndex * 100⟩] }
        else
          { s with elements := s.elements.set entry.1 (showElement el1) }
      { s1 with observed := s1.observed.filter (fun t => t != entry.1),
                revealed := s1.revealed ++ [entry.1] }
  else s

/-- Lines 138-165: the observer callback on a batch of entries. -/
def revealCallback (s : RevealState) (entries : List (Nat × Bool)) : RevealState :=
  entries.foldl revealEntry s

/-- The pending timer at position `k` elapses (lines 152-155). -/
def revealTimerFire (s : RevealState) (k : Nat) : RevealState :=
  match s.timers[k]? with
  | none => s
  | some t =>
    { s with elements := s.elements.modify showElement t.target,
             timers := s.timers.eraseIdx k }

/-- The steps of the controller: the observer invokes the callback with a
batch of entries, or one of the pending timers elapses (any of them: every
order of the timers is covered). -/
inductive RevealEvent where
  | callback (entries : List (Nat × Bool))
  | timer (k : Nat)
deriving DecidableEq, Repr

/-- One step of the controller. -/
def revealStep (s : RevealState) : RevealEvent → RevealState
  | .callback entries => revealCallback s entries
  | .timer k => revealTimerFire s k

/-- A sequence of steps applied from left to right. -/
def revealRun (s : RevealState) (events : List RevealEvent) : RevealState :=
  events.foldl revealStep s

/-- The browser's side of the contract for one batch: every entry is for a
target observed when the callback is invoked, and no target has two entries. -/
def batchOk (observed : List Nat) (entries : List (Nat × Bool)) : Bool :=
  entries.all (fun entry => observed.contains entry.1) &&
  decide (entries.map Prod.fst).Nodup

/-- The browser's side of the contract along a sequence of steps. -/
def revealTraceOk : RevealState → List RevealEvent → Bool
  | _, [] => true
  | s, .callback entries :: rest =>
    batchOk s.observed entries && revealTraceOk (revealStep s (.callback entries)) rest
  | s, .timer k :: rest => revealTraceOk (revealStep s (.timer k)) rest

/-- What a later state keeps of an element: the class `visible` and the two
styles of a reveal, once there, are still there. -/
def keepsReveal (before after : AnimElement) : Prop :=
  ("visible" ∈ before.classList → "visible" ∈ after.classList) ∧
  (before.opacity = "1" → after.opacity = "1") ∧
  (before.transform = "translateY(0)" → after.transform = "translateY(0)")

/-- The invariant of the controller: no target is recorded twice, an observed
target is not recorded, and a recorded target carries the class `visible`. -/
def RevealInv (s : RevealState) : Prop :=
  (∀ t : Nat, s.revealed.count t ≤ 1) ∧
  (∀ t ∈ s.observed, t ∉ s.revealed) ∧
  (∀ t ∈ s.revealed, ∃ el, s.elements[t]? = some el ∧ "visible" ∈ el.classList)

/-- A small page: a staggered card, a plain target, and an element that is no target. -/
def revealPage : List AnimElement :=
  [⟨["usp-card"], "", "", 0⟩, ⟨["faq-item"], "", "", 1⟩, ⟨["hero"], "", "", 2⟩]

/-! ## Keyboard navigation (size option keydown, lines 90-95; document keydown, lines 287-314) -/

/-- What the keyboard handlers read and write: the page, the FAQ entries, and
the position of the size option that is `document.activeElement`, when the
focused element is a size option. -/
structure KeyState where
  page : Page
  faq : List FaqItem
  focused : Option Nat
deriving DecidableEq, Repr

/-- Lines 90-95: the keydown listener of size option `i`; Enter and Space
click the option. -/
def sizeOptionKeydown (s : KeyState) (i : Nat) (key : String) : KeyState :=
  if key = "Enter" ∨ key = " " then { s with page := clickSizeOption s.page i } else s

/-- Lines 304-308: the index that receives focus. -/
def nextFocusIndex (length currentIndex : Nat) (key : String) : Nat :=
  if key = "ArrowLeft" then
    if currentIndex > 0 then currentIndex - 1 else length - 1
  else
    if currentIndex < length - 1 then currentIndex + 1 else 0

/-- Lines 287-314: the document keydown listener.  `sizeOptions[nextIndex].focus()`
moves the focus when that option exists. -/
def documentKeydown (s : KeyState) (key : String) : KeyState :=
  let s1 : KeyState := if key = "Escape" then { s with faq := closeAllFaq s.faq } else s
  if key = "ArrowLeft" ∨ key = "ArrowRight" then
    match s1.focused with
    | none => s1
    | some currentIndex =>
      let nextIndex := nextFocusIndex s1.page.sizeOptions.length currentIndex key
      if nextIndex < s1.page.sizeOptions.length then { s1 with focused := some nextIndex }
      else s1
  else s1

/-- A key pressed while the focus is where `s.focused` says: the focused size
option's listener, if any, then the document listener. -/
def keydown (s : KeyState) (key : String) : KeyState :=
  match s.focused with
  | none => documentKeydown s key
  | some i => documentKeydown (sizeOptionKeydown s i key) key

/-! ## Testimonial rotation (`setupTestimonialRotation`, lines 655-678) -/

/-- The rotation's state: `style.display` of every `.review-card`, in document
order, and the closure variable `currentIndex`. -/
structure Rotator where
  displays : List String
  currentIndex : Nat
deriving DecidableEq, Repr

/-- Line 660: `visibleCards`. -/
def visibleCards : Nat := 3

/-- Lines 663-667: the `forEach` hiding every card whose index is at least
`visibleCards`; `index` is the index of the first card of the list. -/
def hideExtraCards : List String → Nat → List String
  | [], _ => []
  | display :: rest, index =>
    (if index ≥ visibleCards then "none" else display) :: hideExtraCards rest (index + 1)

/-- Lines 655-667: the set-up; with three cards or fewer nothing is started. -/
def setupTestimonialRotation (reviewCards : List String) : Option Rotator :=
  if reviewCards.length > 3 then
    some { displays := hideExtraCards reviewCards 0, currentIndex := 0 }
  else none

/-- Lines 670-676: one run of the interval callback. -/
def rotationTick (r : Rotator) : Rotator :=
  let hidden := r.displays.set r.currentIndex "none"
  let currentIndex := (r.currentIndex + 1) % r.displays.length
  let nextIndex := (currentIndex + visibleCards - 1) % r.displays.length
  { displays := hidden.set nextIndex "block", currentIndex := currentIndex }

/-- The interval callback run `k` times. -/
def rotationTicks : Nat → Rotator → Rotator
  | 0, r => r
  | k + 1, r => rotationTick (rotationTicks k r)

/-- A card is displayed unless its `style.display` is `none`. -/
def cardDisplayed (display : String) : Bool :=
  display != "none"

/-! ## Debounce (`debounce`, lines 251-261) -/

/-- A pending `setTimeout(later, wait)`: the id `setTimeout` returned, the time
at which it comes due, and the `args` its `later` closes over. -/
structure DebounceTimer (α : Type) where
  id : Nat
  due : Nat
  args : α
deriving DecidableEq, Repr

/-- The state around one function returned by `debounce(func, wait)`: `wait`,
the closure variable `timeout` (`none` while undefined), the pending timers,
the id the next `setTimeout` returns, the clock in milliseconds, and every
invocation of `func` so far with its time and arguments. -/
structure Debounced (α : Type) where
  wait : Nat
  timeout : Option Nat
  timers : List (DebounceTimer α)
  nextId : Nat
  now : Nat
  invoked : List (Nat × α)
deriving DecidableEq, Repr

/-- Lines 251-252, `debounce(func, wait)`: `timeout` is undefined and nothing
is pending. -/
def debounce {α : Type} (wait : Nat) : Debounced α :=
  { wait := wait, timeout := none, timers := [], nextId := 1, now := 0, invoked := [] }

/-- The call `clearTimeout(timeout)`: the pending timer with that id, if any, is
dropped. -/
def clearTimeout {α : Type} (s : Debounced α) : Debounced α :=
  match s.timeout with
  | none => s
  | some id => { s with timers := s.timers.filter fun t => t.id != id }

/-- Lines 253-260, `executedFunction(...args)`. -/
def executedFunction {α : Type} (s : Debounced α) (args : α) : Debounced α :=
  let s1 := clearTimeout s
  { s1 with
    timeout := some s1.nextId,
    timers := s1.timers ++ [⟨s1.nextId, s1.now + s1.wait, args⟩],
    nextId := s1.nextId + 1 }

/-- Lines 254-257, `later()` for the call made with `args`. -/
def later {α : Type} (s : Debounced α) (args : α) : Debounced α :=
  let s1 := clearTimeout s
  { s1 with invoked := s1.invoked ++ [(s1.now, args)] }

/-- The pending timer that fires next on the way to time `target`: the one
that comes due first, the earlier set one among equals. -/
def nextDue {α : Type} (timers : List (DebounceTimer α)) (target : Nat) :
    Option (DebounceTimer α) :=
  timers.foldl (fun best t =>
    if t.due ≤ target then
      match best with
      | none => some t
      | some b => if t.due < b.due then some t else some b
    else best) none

/-- The clock runs to `target`: timers fire when they come due, one at a time.
Each firing removes a pending timer, so `fuel` at least the number of pending
timers is enough. -/
def runDue {α : Type} : Nat → Debounced α → Nat → Debounced α
  | 0, s, target => { s with now := target }
  | fuel + 1, s, target =>
    match nextDue s.timers target with
    | none => { s with now := target }
    | some t =>
      runDue fuel
        (later { s with now := max s.now t.due,
                        timers := s.timers.filter fun u => u.id != t.id } t.args)
        target

/-- The passage of `dt` milliseconds. -/
def elapse {α : Type} (s : Debounced α) (dt : Nat) : Debounced α :=
  runDue s.timers.length s (s.now + dt)

/-- A sequence of calls, each given by the time since the previous event and
its arguments. -/
def runCalls {α : Type} (s : Debounced α) (calls : List (Nat × α)) : Debounced α :=
  calls.foldl (fun s call => executedFunction (elapse s call.1) call.2) s

/-- The state between two calls of a burst: exactly one timer is pending, it
is the one `timeout` names, it is due `wait` after the latest call, and it
carries that call's arguments. -/
def PendingCall {α : Type} (s : Debounced α) (args : α) : Prop :=
  ∃ id : Nat, s.timers = [⟨id, s.now + s.wait, args⟩] ∧ s.timeout = some id

/-! ## Theorems: FAQ accordion -/

theorem closeAllFaq_length (items : List FaqItem) :
    (closeAllFaq items).length = items.length := by
  simp [closeAllFaq]

theorem visibleAnswers_closeAllFaq (items : List FaqItem) :
    visibleAnswers (closeAllFaq items) = 0 := by
  simp [visibleAnswers, closeAllFaq, List.countP_eq_zero]

theorem clickFaqQuestion_length (items : List FaqItem) (i : Nat) :
    (clickFaqQuestion items i).length = items.length := by
  unfold clickFaqQuestion
  cases h : items[i]? with
  | none => rfl
  | some item =>
    simp only
    split <;> simp [closeAllFaq_length]

theorem faqStep_length (items : List FaqItem) (e : FaqEvent) :
    (faqStep items e).length = items.length := by
  cases e with
  | click i => exact clickFaqQuestion_length items i
  | escape => exact closeAllFaq_length items

theorem faqRun_length (events : List FaqEvent) (items : List FaqItem) :
    (faqRun items events).length = items.length := by
  induction events generalizing items with
  | nil => rfl
  | cons e es ih =>
    show (faqRun (faqStep items e) es).length = items.length
    rw [ih, faqStep_length]

/-- Replacing one entry of a list raises a count by at most one. -/
theorem countP_set_le {α : Type} (p : α → Bool) (l : List α) (i : Nat) (a : α) :
    (l.set i a).countP p ≤ l.countP p + 1 := by
  induction l generalizing i with
  | nil => simp
  | cons x xs ih =>
    cases i with
    | zero =>
      simp only [List.set_cons_zero, List.countP_cons]
      have : (if p a = true then 1 else 0) ≤ 1 := by split <;> omega
      omega
    | succ k =>
      simp only [List.set_cons_succ, List.countP_cons]
      have := ih k
      omega

theorem visibleAnswers_clickFaqQuestion (items : List FaqItem) (i : Nat)
    (hi : i < items.length) : visibleAnswers (clickFaqQuestion items i) ≤ 1 := by
  unfold clickFaqQuestion
  rw [List.getElem?_eq_getElem hi]
  simp only
  split
  · have h := countP_set_le (fun item : FaqItem => item.answerDisplay == "block")
      (closeAllFaq items) i { questionActive := true, answerDisplay := "block" }
    have h0 := visibleAnswers_closeAllFaq items
    unfold visibleAnswers at h0 ⊢
    omega
  · rw [visibleAnswers_closeAllFaq]
    exact Nat.zero_le 1

theorem visibleAnswers_faqStep (items : List FaqItem) (e : FaqEvent)
    (he : e.onPage items.length = true) : visibleAnswers (faqStep items e) ≤ 1 := by
  cases e with
  | click i =>
    exact visibleAnswers_clickFaqQuestion items i (by simpa [FaqEvent.onPage] using he)
  | escape =>
    show visibleAnswers (closeAllFaq items) ≤ 1
    rw [visibleAnswers_closeAllFaq]
    exact Nat.zero_le 1

theorem faqRun_append (items : List FaqItem) (es fs : List FaqEvent) :
    faqRun items (es ++ fs) = faqRun (faqRun items es) fs := by
  simp [faqRun, List.foldl_append]

/-- C1 (accordion invariant): for every list of FAQ items, whatever their
initial visibility, and every non-empty sequence of question clicks and Escape
presses addressed to questions of the page, at most one answer has
`display = "block"` after the sequence. -/
theorem accordion_at_most_one_visible (items : List FaqItem) (events : List FaqEvent)
    (hne : events ≠ [])
    (hpage : ∀ e ∈ events, e.onPage items.length = true) :
    visibleAnswers (faqRun items events) ≤ 1 := by
  obtain ⟨es, e, rfl⟩ : ∃ es e, events = es ++ [e] :=
    ⟨events.dropLast, events.getLast hne, (List.dropLast_append_getLast hne).symm⟩
  rw [faqRun_append]
  show visibleAnswers (faqStep (faqRun items es) e) ≤ 1
  apply visibleAnswers_faqStep
  rw [faqRun_length]
  exact hpage e (by simp)

/-- Witness for C1: three items, two of them open at the start, then a click
on the second question, Escape, and a click on the third question. -/
theorem accordion_at_most_one_visible_witness :
    visibleAnswers (faqRun
      [⟨true, "block"⟩, ⟨false, "block"⟩, ⟨false, ""⟩]
      [.click 1, .escape, .click 2]) ≤ 1 :=
  accordion_at_most_one_visible
    [⟨true, "block"⟩, ⟨false, "block"⟩, ⟨false, ""⟩]
    [.click 1, .escape, .click 2] (by decide) (by decide)

/-! ## Theorems: size selector, call-to-action buttons and cart -/

theorem clickSizeOption_sizeOptions (p : Page) (i : Nat) (hi : i < p.sizeOptions.length) :
    (clickSizeOption p i).sizeOptions =
      (p.sizeOptions.map fun opt => { opt with active := false }).modify
        (fun opt => { opt with active := true }) i := by
  unfold clickSizeOption
  rw [List.getElem?_eq_getElem hi]
  simp only
  split <;> rfl

theorem clickSizeOption_ctaButtons (p : Page) (i : Nat) (hi : i < p.sizeOptions.length) :
    (clickSizeOption p i).ctaButtons =
      p.ctaButtons.map fun _ =>
        { label := ctaText (sizeOfIndex i) (priceOfIndex i),
          href := ctaHref (sizeOfIndex i), loaders := [] } := by
  unfold clickSizeOption
  rw [List.getElem?_eq_getElem hi]
  simp only
  split <;> rfl

theorem clickSizeOption_active (p : Page) (i : Nat) (hi : i < p.sizeOptions.length)
    (j : Nat) (opt : SizeOption) (hj : (clickSizeOption p i).sizeOptions[j]? = some opt) :
    opt.active = decide (j = i) := by
  rw [clickSizeOption_sizeOptions p i hi, List.getElem?_modify, List.getElem?_map] at hj
  cases h : p.sizeOptions[j]? with
  | none => simp [h] at hj
  | some o =>
    simp only [h, Option.map_some', Option.map_eq_map, Option.some.injEq] at hj
    subst hj
    by_cases hij : i = j
    · simp [hij]
    · have : ¬ j = i := fun h => hij h.symm
      simp [hij, this]

theorem ctaText_ne_of_price (size : String) :
    "💛 L사이즈 주문하기 (18,500원)" ≠ ctaText size "25,000원" := by
  intro h
  have h2 := congrArg (fun s : String => s.data.reverse[4]?) h
  simp [ctaText, String.data_append] at h2

theorem activeSizeOption_clickSizeOption_one (p : Page) (opt : SizeOption)
    (hopt : p.sizeOptions[1]? = some opt) :
    activeSizeOption (clickSizeOption p 1) = some { opt with active := true } := by
  have hi : 1 < p.sizeOptions.length := by
    rcases Nat.lt_or_ge 1 p.sizeOptions.length with h | h
    · exact h
    · rw [List.getElem?_eq_none h] at hopt
      cases hopt
  unfold activeSizeOption
  rw [clickSizeOption_sizeOptions p 1 hi]
  match hl : p.sizeOptions, hopt with
  | a :: b :: rest, hopt =>
    simp only [List.getElem?_cons_succ, List.getElem?_cons_zero, Option.some.injEq] at hopt
    subst hopt
    simp [List.find?]

theorem clickSizeOption_timers (p : Page) (i : Nat) :
    (clickSizeOption p i).timers = p.timers ∧ (clickSizeOption p i).now = p.now ∧
    (clickSizeOption p i).notifications = p.notifications := by
  unfold clickSizeOption
  split
  · exact ⟨rfl, rfl, rfl⟩
  · simp only
    split <;> exact ⟨rfl, rfl, rfl⟩

theorem clickCtaButton_timers (p : Page) (b : Nat) (hb : b < p.ctaButtons.length) :
    (clickCtaButton p b).timers = p.timers ++
      [⟨p.now + 1000, p.nextLoader,
        { id := "smile-cooler-" ++ toLowerCase
            (textOr ((activeSizeOption p).bind fun opt => opt.strongText) "S사이즈"),
          name := "Smile We Love 보냉백",
          size := textOr ((activeSizeOption p).bind fun opt => opt.strongText) "S사이즈",
          price := parsePrice
            (textOr ((activeSizeOption p).bind fun opt => opt.sizePriceText) "13,900원") }⟩] ∧
    (clickCtaButton p b).now = p.now := by
  unfold clickCtaButton
  rw [List.getElem?_eq_getElem hb]
  simp only
  split <;> exact ⟨rfl, rfl⟩

theorem foldl_fireCartTimer_timers (ts : List CartTimer) (p : Page) :
    (ts.foldl fireCartTimer p).timers = p.timers ∧ (ts.foldl fireCartTimer p).now = p.now := by
  induction ts generalizing p with
  | nil => exact ⟨rfl, rfl⟩
  | cons t ts ih =>
    have h := ih (fireCartTimer p t)
    exact ⟨h.1, h.2⟩

theorem advance_last_timer (p : Page) (ts : List CartTimer) (t : CartTimer) (dt : Nat)
    (hts : p.timers = ts ++ [t]) (hdue : t.due ≤ p.now + dt) :
    ∃ q : Page, advance p dt = fireCartTimer q t := by
  unfold advance
  simp only [hts, List.filter_append]
  have : List.filter (fun t : CartTimer => decide (t.due ≤ p.now + dt)) [t] = [t] := by
    simp [List.filter, hdue]
  rw [this, List.foldl_append]
  exact ⟨_, rfl⟩

theorem advance_keeps_pending (p : Page) (t : CartTimer) (dt : Nat)
    (ht : t ∈ p.timers) (hdue : p.now + dt < t.due) :
    t ∈ (advance p dt).timers := by
  unfold advance
  simp only
  rw [(foldl_fireCartTimer_timers _ _).1]
  simp only [List.mem_filter]
  refine ⟨ht, ?_⟩
  simp
  omega

/-- C7 (end to end): on a page whose size option at index 1 has the price text
`18,500원`, clicking that option and then an existing CTA button leaves the
cart request pending for less than 1000 ms, and once 1000 ms have passed the
latest notification is a `success` one whose message starts with `장바구니`
and the latest tracked event is `add_to_cart` with the number 18500 in its
`price` field. -/
theorem cart_end_to_end (p : Page) (opt : SizeOption) (b : Nat)
    (hopt : p.sizeOptions[1]? = some opt) (hprice : opt.sizePriceText = some "18,500원")
    (hb : b < p.ctaButtons.length) :
    (∃ rest : String,
      (advance (clickCtaButton (clickSizeOption p 1) b) 1000).notifications.getLast? =
        some ⟨"장바구니" ++ rest, "success"⟩) ∧
    (∃ id name size : String,
      (advance (clickCtaButton (clickSizeOption p 1) b) 1000).tracked.getLast? =
        some ⟨"add_to_cart",
          [("product_id", .str id), ("product_name", .str name), ("size", .str size),
           ("price", .num 18500)]⟩) ∧
    (∀ dt : Nat, dt < 1000 →
      ∃ t ∈ (advance (clickCtaButton (clickSizeOption p 1) b) dt).timers,
        t.due = p.now + 1000 ∧ t.productData.price = some 18500) := by
  have hi : 1 < p.sizeOptions.length := by
    rcases Nat.lt_or_ge 1 p.sizeOptions.length with h | h
    · exact h
    · rw [List.getElem?_eq_none h] at hopt
      cases hopt
  have hb1 : b < (clickSizeOption p 1).ctaButtons.length := by
    rw [clickSizeOption_ctaButtons p 1 hi]
    simpa using hb
  have hpending : ∃ (ts : List CartTimer) (t : CartTimer),
      (clickCtaButton (clickSizeOption p 1) b).timers = ts ++ [t] ∧
      t.due = p.now + 1000 ∧ t.productData.price = some 18500 ∧
      (clickCtaButton (clickSizeOption p 1) b).now = p.now := by
    obtain ⟨htimers, hnow⟩ := clickCtaButton_timers (clickSizeOption p 1) b hb1
    refine ⟨_, _, htimers, ?_, ?_, ?_⟩
    · show (clickSizeOption p 1).now + 1000 = p.now + 1000
      rw [(clickSizeOption_timers p 1).2.1]
    · show parsePrice (textOr ((activeSizeOption (clickSizeOption p 1)).bind
        fun opt => opt.sizePriceText) "13,900원") = some 18500
      rw [activeSizeOption_clickSizeOption_one p opt hopt]
      show parsePrice (textOr opt.sizePriceText "13,900원") = some 18500
      rw [hprice]
      decide
    · rw [hnow, (clickSizeOption_timers p 1).2.1]
  obtain ⟨ts, t, htimers, hdue, hpr, hnow⟩ := hpending
  refine ⟨?_, ?_, ?_⟩
  · obtain ⟨q, hq⟩ := advance_last_timer _ ts t 1000 htimers (by rw [hnow, hdue])
    rw [hq]
    refine ⟨"에 추가되었습니다! 🛒", ?_⟩
    simp only [fireCartTimer, addToCart, showNotification, trackEvent,
      List.getLast?_append, List.getLast?_singleton, Option.or_some]
    decide
  · obtain ⟨q, hq⟩ := advance_last_timer _ ts t 1000 htimers (by rw [hnow, hdue])
    rw [hq]
    refine ⟨strOr t.productData.id "smile-cooler-bag",
      strOr t.productData.name "Smile We Love 보냉백", strOr t.productData.size "S", ?_⟩
    simp only [fireCartTimer, addToCart, showNotification, trackEvent,
      List.getLast?_append, List.getLast?_singleton, Option.or_some, hpr, numOr]
  · intro dt hdt
    exact ⟨t, advance_keeps_pending _ t dt (by rw [htimers]; simp) (by rw [hnow, hdue]; omega),
      hdue, hpr⟩

/-- C2, as stated, fails: on a page with a third size option priced `25,000원`,
clicking that option leaves a CTA button whose text is the template filled with
`18,500원`, and no size label makes it the template filled with the option's
own price. -/
theorem size_click_price_counterexample :
    ∃ b ∈ (clickSizeOption threeSizePage 2).ctaButtons,
      threeSizePage.sizeOptions[2]? = some ⟨some "XL사이즈", some "25,000원", false⟩ ∧
      b.textContent = "💛 L사이즈 주문하기 (18,500원)" ∧
      ¬ ∃ size : String, b.textContent = ctaText size "25,000원" := by
  refine ⟨⟨"💛 L사이즈 주문하기 (18,500원)", "#order-l", []⟩, by decide, by decide, by decide, ?_⟩
  rintro ⟨size, h⟩
  exact ctaText_ne_of_price size h

/-- C2 (amended): for every list of size options and every index `i` in it,
after a click on option `i` the options are as many as before, option `j` is
active exactly when `j = i`, and every CTA button shows the price fixed by the
index: `13,900원` for index 0 and `18,500원` for every other index.  That is the
clicked option's own price text whenever that text is the fixed one. -/
theorem size_click_active_and_price (p : Page) (i : Nat) (hi : i < p.sizeOptions.length) :
    (clickSizeOption p i).sizeOptions.length = p.sizeOptions.length ∧
    (∀ (j : Nat) (opt : SizeOption),
      (clickSizeOption p i).sizeOptions[j]? = some opt → (opt.active = true ↔ j = i)) ∧
    (clickSizeOption p i).ctaButtons.length = p.ctaButtons.length ∧
    (∀ b ∈ (clickSizeOption p i).ctaButtons,
      (i = 0 → ∃ size : String, b.textContent = ctaText size "13,900원") ∧
      (i ≠ 0 → ∃ size : String, b.textContent = ctaText size "18,500원") ∧
      (∀ (opt : SizeOption) (price : String),
        p.sizeOptions[i]? = some opt → opt.sizePriceText = some price →
        price = (if i = 0 then "13,900원" else "18,500원") →
        ∃ size : String, b.textContent = ctaText size price)) := by
  refine ⟨?_, ?_, ?_, ?_⟩
  · rw [clickSizeOption_sizeOptions p i hi]
    simp
  · intro j opt hj
    rw [clickSizeOption_active p i hi j opt hj]
    simp
  · rw [clickSizeOption_ctaButtons p i hi]
    simp
  · intro b hb
    rw [clickSizeOption_ctaButtons p i hi, List.mem_map] at hb
    obtain ⟨_, _, rfl⟩ := hb
    refine ⟨?_, ?_, ?_⟩
    · intro h0
      exact ⟨sizeOfIndex i, by simp [CtaButton.textContent, priceOfIndex, h0]⟩
    · intro h0
      exact ⟨sizeOfIndex i, by simp [CtaButton.textContent, priceOfIndex, h0]⟩
    · intro opt price _ _ hprice
      exact ⟨sizeOfIndex i, by simp [CtaButton.textContent, priceOfIndex, hprice]⟩

/-- Witness for C2 (amended): the second option of the three-option page. -/
theorem size_click_active_and_price_witness :
    (clickSizeOption threeSizePage 1).sizeOptions.length = threeSizePage.sizeOptions.length ∧
    (∀ (j : Nat) (opt : SizeOption),
      (clickSizeOption threeSizePage 1).sizeOptions[j]? = some opt →
        (opt.active = true ↔ j = 1)) ∧
    (clickSizeOption threeSizePage 1).ctaButtons.length = threeSizePage.ctaButtons.length ∧
    (∀ b ∈ (clickSizeOption threeSizePage 1).ctaButtons,
      (1 = 0 → ∃ size : String, b.textContent = ctaText size "13,900원") ∧
      (1 ≠ 0 → ∃ size : String, b.textContent = ctaText size "18,500원") ∧
      (∀ (opt : SizeOption) (price : String),
        threeSizePage.sizeOptions[1]? = some opt → opt.sizePriceText = some price →
        price = (if 1 = 0 then "13,900원" else "18,500원") →
        ∃ size : String, b.textContent = ctaText size price)) :=
  size_click_active_and_price threeSizePage 1 (by decide)

/-- C6, as stated, fails: after a click on option 0 the button label carries
the size label `S`, but the anchor is `#order-s`, not `#order-S`. -/
theorem size_click_href_counterexample :
    ∃ b ∈ (clickSizeOption threeSizePage 0).ctaButtons,
      b.textContent = "💛 " ++ "S" ++ "사이즈 주문하기 (" ++ "13,900원" ++ ")" ∧
      b.href = "#order-s" ∧ b.href ≠ "#order-" ++ "S" := by
  exact ⟨⟨"💛 S사이즈 주문하기 (13,900원)", "#order-s", []⟩, by decide, by decide, by decide,
    by decide⟩

/-- C6 (amended): for every index `i` of a size option, with `s` the label `S`
for index 0 and `L` otherwise and `p` the price `13,900원` for index 0 and
`18,500원` otherwise, a click on option `i` sets every CTA button's text to
`💛 ` + s + `사이즈 주문하기 (` + p + `)` and its href to `#order-` followed by
`s` in lower case (`#order-s`, `#order-l`). -/
theorem size_click_label_and_href (p : Page) (i : Nat) (hi : i < p.sizeOptions.length) :
    ∀ b ∈ (clickSizeOption p i).ctaButtons,
      (i = 0 → b.textContent = "💛 " ++ "S" ++ "사이즈 주문하기 (" ++ "13,900원" ++ ")" ∧
        b.href = "#order-s") ∧
      (i ≠ 0 → b.textContent = "💛 " ++ "L" ++ "사이즈 주문하기 (" ++ "18,500원" ++ ")" ∧
        b.href = "#order-l") := by
  intro b hb
  rw [clickSizeOption_ctaButtons p i hi, List.mem_map] at hb
  obtain ⟨_, _, rfl⟩ := hb
  constructor
  · intro h0
    subst h0
    exact ⟨by decide, by decide⟩
  · intro h0
    have hs : sizeOfIndex i = "L" := by simp [sizeOfIndex, h0]
    have hp : priceOfIndex i = "18,500원" := by simp [priceOfIndex, h0]
    rw [hs, hp]
    exact ⟨by decide, by decide⟩

/-- Witness for C6 (amended): the first option of the three-option page. -/
theorem size_click_label_and_href_witness :
    0 < threeSizePage.sizeOptions.length ∧
    ∀ b ∈ (clickSizeOption threeSizePage 0).ctaButtons,
      (0 = 0 → b.textContent = "💛 " ++ "S" ++ "사이즈 주문하기 (" ++ "13,900원" ++ ")" ∧
        b.href = "#order-s") ∧
      (0 ≠ 0 → b.textContent = "💛 " ++ "L" ++ "사이즈 주문하기 (" ++ "18,500원" ++ ")" ∧
        b.href = "#order-l") :=
  ⟨by decide, size_click_label_and_href threeSizePage 0 (by decide)⟩

/-- Witness for C7: the three-option page, its only CTA button. -/
theorem cart_end_to_end_witness :
    (∃ rest : String,
      (advance (clickCtaButton (clickSizeOption threeSizePage 1) 0) 1000).notifications.getLast? =
        some ⟨"장바구니" ++ rest, "success"⟩) ∧
    (∃ id name size : String,
      (advance (clickCtaButton (clickSizeOption threeSizePage 1) 0) 1000).tracked.getLast? =
        some ⟨"add_to_cart",
          [("product_id", .str id), ("product_name", .str name), ("size", .str size),
           ("price", .num 18500)]⟩) ∧
    (∀ dt : Nat, dt < 1000 →
      ∃ t ∈ (advance (clickCtaButton (clickSizeOption threeSizePage 1) 0) dt).timers,
        t.due = threeSizePage.now + 1000 ∧ t.productData.price = some 18500) :=
  cart_end_to_end threeSizePage ⟨some "L사이즈", some "18,500원", false⟩ 0
    (by decide) (by decide) (by decide)

/-! ## Theorems: wishlist -/

theorem indexOfFrom_eq (xs : List String) (x : String) (k : Nat) :
    indexOfFrom xs x k = if x ∈ xs then ((k + xs.indexOf x : Nat) : Int) else -1 := by
  induction xs generalizing k with
  | nil => simp [indexOfFrom]
  | cons y ys ih =>
    unfold indexOfFrom
    by_cases hyx : y = x
    · subst hyx
      simp [List.indexOf_cons]
    · have hxy : ¬ x = y := fun h => hyx h.symm
      have hbeq : (y == x) = false := by simpa using hyx
      rw [if_neg hyx, ih (k + 1)]
      simp only [List.mem_cons, hxy, false_or, List.indexOf_cons, hbeq, cond_false]
      split
      · congr 1
        omega
      · rfl

theorem toggleWishlist_present (slot : WishlistSlot) (productId : String)
    (h : productId ∈ readWishlist slot) :
    (toggleWishlist slot productId).slot = some ((readWishlist slot).erase productId) ∧
    (toggleWishlist slot productId).returned = false := by
  have hidx : indexOf (readWishlist slot) productId =
      (((readWishlist slot).indexOf productId : Nat) : Int) := by
    simp [indexOf, indexOfFrom_eq, h]
  unfold toggleWishlist
  simp only [hidx]
  have hpos : ((List.indexOf productId (readWishlist slot) : Nat) : Int) > -1 := by omega
  have hne : ¬ ((List.indexOf productId (readWishlist slot) : Nat) : Int) = -1 := by omega
  simp [hpos, hne, List.eraseIdx_indexOf_eq_erase]

theorem toggleWishlist_absent (slot : WishlistSlot) (productId : String)
    (h : productId ∉ readWishlist slot) :
    (toggleWishlist slot productId).slot = some (readWishlist slot ++ [productId]) ∧
    (toggleWishlist slot productId).returned = true := by
  have hidx : indexOf (readWishlist slot) productId = -1 := by
    simp [indexOf, indexOfFrom_eq, h]
  unfold toggleWishlist
  simp [hidx]

theorem toggleWishlist_nodup (slot : WishlistSlot) (productId : String)
    (hnd : (readWishlist slot).Nodup) :
    (readWishlist (toggleWishlist slot productId).slot).Nodup := by
  by_cases h : productId ∈ readWishlist slot
  · rw [(toggleWishlist_present slot productId h).1]
    exact hnd.erase productId
  · rw [(toggleWishlist_absent slot productId h).1]
    show (readWishlist slot ++ [productId]).Nodup
    rw [List.nodup_append]
    refine ⟨hnd, List.nodup_singleton productId, ?_⟩
    intro a ha hb
    rw [List.mem_singleton] at hb
    subst hb
    exact h ha

/-- Every wishlist built from an absent slot by `toggleWishlist` calls is free
of duplicates. -/
theorem toggleWishlist_reachable_nodup (ids : List String) :
    (readWishlist (ids.foldl (fun slot id => (toggleWishlist slot id).slot) none)).Nodup := by
  have key : ∀ (ids : List String) (slot : WishlistSlot), (readWishlist slot).Nodup →
      (readWishlist (ids.foldl (fun slot id => (toggleWishlist slot id).slot) slot)).Nodup := by
    intro ids
    induction ids with
    | nil => intro slot h; exact h
    | cons id rest ih =>
      intro slot h
      exact ih _ (toggleWishlist_nodup slot id h)
  exact key ids none List.nodup_nil

/-- C3, as stated, fails: with `a` already in the persisted wishlist `[a, b]`,
the first `toggleWishlist("a")` returns false, the second returns true, and the
persisted wishlist ends as `[b, a]`. -/
theorem toggle_twice_counterexample :
    (toggleWishlist (some ["a", "b"]) "a").returned = false ∧
    (toggleWishlist (toggleWishlist (some ["a", "b"]) "a").slot "a").returned = true ∧
    (toggleWishlist (toggleWishlist (some ["a", "b"]) "a").slot "a").slot = some ["b", "a"] ∧
    (toggleWishlist (toggleWishlist (some ["a", "b"]) "a").slot "a").slot ≠ some ["a", "b"] := by
  decide

/-- C3 (amended): for every persisted wishlist that does not contain the
product id, two calls of `toggleWishlist(id)` in a row return true and then
false, and the wishlist persisted afterwards is the one read before the calls
(an absent slot reads as the empty wishlist). -/
theorem toggle_twice_when_absent (slot : WishlistSlot) (productId : String)
    (h : productId ∉ readWishlist slot) :
    (toggleWishlist slot productId).returned = true ∧
    (toggleWishlist (toggleWishlist slot productId).slot productId).returned = false ∧
    (toggleWishlist (toggleWishlist slot productId).slot productId).slot =
      some (readWishlist slot) := by
  obtain ⟨h1, h2⟩ := toggleWishlist_absent slot productId h
  have hmem : productId ∈ readWishlist (toggleWishlist slot productId).slot := by
    rw [h1]
    show productId ∈ readWishlist slot ++ [productId]
    simp
  obtain ⟨h3, h4⟩ := toggleWishlist_present _ productId hmem
  refine ⟨h2, h4, ?_⟩
  rw [h3, h1]
  show some ((readWishlist slot ++ [productId]).erase productId) = some (readWishlist slot)
  rw [List.erase_append_right _ h]
  simp

/-- Witness for C3 (amended): the id `c` toggled twice on the wishlist `[a, b]`. -/
theorem toggle_twice_when_absent_witness :
    (toggleWishlist (some ["a", "b"]) "c").returned = true ∧
    (toggleWishlist (toggleWishlist (some ["a", "b"]) "c").slot "c").returned = false ∧
    (toggleWishlist (toggleWishlist (some ["a", "b"]) "c").slot "c").slot =
      some (readWishlist (some ["a", "b"])) :=
  toggle_twice_when_absent (some ["a", "b"]) "c" (by decide)

/-- C4: for every persisted wishlist (a set of ids, so a sequence without
duplicates) and every product id, `toggleWishlist(id)` returns true exactly
when the id is a member of the wishlist persisted by the call. -/
theorem toggle_returns_membership (slot : WishlistSlot) (productId : String)
    (hnd : (readWishlist slot).Nodup) :
    (toggleWishlist slot productId).returned = true ↔
      productId ∈ readWishlist (toggleWishlist slot productId).slot := by
  by_cases h : productId ∈ readWishlist slot
  · obtain ⟨h1, h2⟩ := toggleWishlist_present slot productId h
    rw [h1, h2]
    show false = true ↔ productId ∈ (readWishlist slot).erase productId
    rw [hnd.mem_erase_iff]
    simp
  · obtain ⟨h1, h2⟩ := toggleWishlist_absent slot productId h
    rw [h1, h2]
    show true = true ↔ productId ∈ readWishlist slot ++ [productId]
    simp

/-- Witness for C4: removing `a` from the wishlist `[a, b]`. -/
theorem toggle_returns_membership_witness :
    (toggleWishlist (some ["a", "b"]) "a").returned = true ↔
      "a" ∈ readWishlist (toggleWishlist (some ["a", "b"]) "a").slot :=
  toggle_returns_membership (some ["a", "b"]) "a" (by decide)

/-! ## Theorems: scroll-depth tracking -/

/-- C5, on the code: the readings 25 and then 26 from a fresh page load track
the `25%` milestone twice. -/
theorem scroll_depth_milestone_repeats :
    (scrollDepthRun [25, 26]).depths = ["25%", "25%"] ∧
    (scrollDepthRun [25, 26]).depths.count "25%" = 2 := by
  decide

/-! ## Theorems: form validation -/

theorem trim_eq_empty_iff (s : String) :
    trim s = "" ↔ ∀ c ∈ s.data, isJsWhiteSpace c = true := by
  unfold trim
  have hmk : ∀ l : List Char, String.mk l = "" ↔ l = [] := by
    intro l
    constructor
    · intro h
      have := congrArg String.data h
      simpa using this
    · rintro rfl
      rfl
  rw [hmk, List.reverse_eq_nil_iff, List.dropWhile_eq_nil_iff]
  constructor
  · intro h
    cases hd : s.data.dropWhile isJsWhiteSpace with
    | nil => exact List.dropWhile_eq_nil_iff.mp hd
    | cons x xs =>
      have hx : isJsWhiteSpace x = true := h x (by rw [hd]; simp)
      have hnx := List.head_dropWhile_not isJsWhiteSpace s.data (by rw [hd]; simp)
      simp only [hd, List.head_cons] at hnx
      rw [hx] at hnx
      cases hnx
  · intro h
    rw [List.dropWhile_eq_nil_iff.mpr h]
    simp

theorem mem_classListAdd (classList : List String) (token : String) :
    token ∈ classListAdd classList token := by
  unfold classListAdd
  split
  · assumption
  · simp

theorem not_mem_classListRemove (classList : List String) (token : String) :
    token ∉ classListRemove classList token := by
  simp [classListRemove]

/-- What `validateForm` does on a form whose required elements all have a
string value. -/
theorem validateFields_eq (fields : List FormField) (isValid : Bool)
    (hcontrols : requiredAreControls fields = true) :
    validateFields fields isValid =
      (.returned (isValid && fields.all (fun f => !f.required ||
          !decide (f.value.map trim = some ""))),
       fields.map fun f =>
         if f.required then
           if f.value.map trim = some "" then
             { f with classList := classListAdd f.classList "error" }
           else { f with classList := classListRemove f.classList "error" }
         else f) := by
  induction fields generalizing isValid with
  | nil => simp [validateFields]
  | cons f rest ih =>
    simp only [requiredAreControls, List.all_cons, Bool.and_eq_true] at hcontrols
    obtain ⟨hf, hrest⟩ := hcontrols
    have ih' := fun b => ih b hrest
    obtain ⟨required, value, classList⟩ := f
    unfold validateFields
    cases required with
    | false => simp [ih']
    | true =>
      cases value with
      | none => simp at hf
      | some v =>
        by_cases ht : trim v = ""
        · simp [ht, ih']
        · simp [ht, ih']

/-- C9, as stated, fails: on a form whose second `[required]` element has no
string `value`, the call throws a `TypeError`; the blank input before it has
been marked `error`, the blank input after it has not been visited. -/
theorem validateForm_throws_counterexample :
    validateForm formWithRequiredDiv =
      (.threwTypeError,
        [⟨true, some "", ["error"]⟩, ⟨true, none, []⟩, ⟨true, some " ", []⟩]) := by
  decide

/-- C9 (amended): for every form whose `[required]` elements all have a string
value, `validateForm` returns (it does not throw), and it returns true exactly
when every required element has a character that is not white space (its
trimmed value is not empty); the elements stay in place with their values;
after the call a required element has the class `error` exactly when its value
is all white space; an element that is not required is untouched. -/
theorem validateForm_spec (form : List FormField)
    (hcontrols : requiredAreControls form = true) :
    (∃ isValid : Bool, (validateForm form).1 = .returned isValid ∧
      (isValid = true ↔
        ∀ f ∈ form, f.required = true →
          ∃ v, f.value = some v ∧ ∃ c ∈ v.data, isJsWhiteSpace c = false)) ∧
    (validateForm form).2.length = form.length ∧
    (∀ (i : Nat) (f : FormField), form[i]? = some f →
      ∃ g : FormField, (validateForm form).2[i]? = some g ∧
        g.required = f.required ∧ g.value = f.value ∧
        (f.required = true →
          ("error" ∈ g.classList ↔
            ∃ v, f.value = some v ∧ ∀ c ∈ v.data, isJsWhiteSpace c = true)) ∧
        (f.required = false → g = f)) := by
  have hval : ∀ f ∈ form, f.required = true → ∃ v, f.value = some v := by
    intro f hf hr
    simp only [requiredAreControls, List.all_eq_true, Bool.or_eq_true, Bool.not_eq_true'] at hcontrols
    rcases hcontrols f hf with h | h
    · rw [hr] at h
      cases h
    · exact Option.isSome_iff_exists.mp h
  unfold validateForm
  rw [validateFields_eq form true hcontrols]
  refine ⟨⟨_, rfl, ?_⟩, ?_, ?_⟩
  · simp only [Bool.true_and, List.all_eq_true, Bool.or_eq_true, Bool.not_eq_true',
      decide_eq_false_iff_not]
    constructor
    · intro h f hf hr
      obtain ⟨v, hv⟩ := hval f hf hr
      rcases h f hf with h1 | h1
      · rw [hr] at h1
        cases h1
      · rw [hv] at h1
        simp only [Option.map_some', Option.some.injEq, trim_eq_empty_iff] at h1
        push_neg at h1
        obtain ⟨c, hc, hw⟩ := h1
        exact ⟨v, hv, c, hc, by simpa using hw⟩
    · intro h f hf
      cases hr : f.required with
      | false => exact Or.inl rfl
      | true =>
        right
        obtain ⟨v, hv, c, hc, hw⟩ := h f hf hr
        rw [hv]
        simp only [Option.map_some', Option.some.injEq, trim_eq_empty_iff]
        intro hall
        rw [hall c hc] at hw
        cases hw
  · simp
  · intro i f hf
    have hmem : f ∈ form := List.getElem?_mem hf
    simp only [List.getElem?_map, hf, Option.map_some', Option.some.injEq, exists_eq_left']
    by_cases hr : f.required = true
    · obtain ⟨v, hv⟩ := hval f hmem hr
      by_cases ht : trim v = ""
      · have hcond : f.value.map trim = some "" := by rw [hv]; simp [ht]
        rw [if_pos hr, if_pos hcond]
        refine ⟨hr.symm ▸ rfl, rfl, ?_, ?_⟩
        · intro _
          exact ⟨fun _ => ⟨v, hv, (trim_eq_empty_iff _).mp ht⟩, fun _ => mem_classListAdd _ _⟩
        · intro h
          rw [hr] at h
          cases h
      · have hcond : ¬ f.value.map trim = some "" := by rw [hv]; simp [ht]
        rw [if_pos hr, if_neg hcond]
        refine ⟨hr.symm ▸ rfl, rfl, ?_, ?_⟩
        · intro _
          constructor
          · intro h
            exact absurd h (not_mem_classListRemove _ _)
          · rintro ⟨w, hw, hall⟩
            rw [hv] at hw
            cases hw
            exact absurd ((trim_eq_empty_iff _).mpr hall) ht
        · intro h
          rw [hr] at h
          cases h
    · rw [if_neg hr]
      exact ⟨rfl, rfl, fun h => absurd h hr, fun _ => rfl⟩

/-- Witness for C9 (amended): a blank required input, a filled required input
that carried `error`, and an optional blank input. -/
theorem validateForm_spec_witness :
    requiredAreControls
      [⟨true, some "  ", []⟩, ⟨true, some " a ", ["error", "x"]⟩, ⟨false, some "", []⟩] = true ∧
    (∃ isValid : Bool,
      (validateForm
        [⟨true, some "  ", []⟩, ⟨true, some " a ", ["error", "x"]⟩, ⟨false, some "", []⟩]).1 =
          .returned isValid ∧
      (isValid = true ↔
        ∀ f ∈ [FormField.mk true (some "  ") [], ⟨true, some " a ", ["error", "x"]⟩,
            ⟨false, some "", []⟩],
          f.required = true →
          ∃ v, f.value = some v ∧ ∃ c ∈ v.data, isJsWhiteSpace c = false)) ∧
    (validateForm
      [⟨true, some "  ", []⟩, ⟨true, some " a ", ["error", "x"]⟩, ⟨false, some "", []⟩]).2 =
      [⟨true, some "  ", ["error"]⟩, ⟨true, some " a ", ["x"]⟩, ⟨false, some "", []⟩] :=
  ⟨by decide, (validateForm_spec
    [⟨true, some "  ", []⟩, ⟨true, some " a ", ["error", "x"]⟩, ⟨false, some "", []⟩]
    (by decide)).1, by decide⟩

/-! ## Theorems: price counter -/

theorem digitChar_toNat (d : Nat) (hd : d < 10) :
    (digitChar d).toNat - '0'.toNat = d ∧
      decide ('0' ≤ digitChar d ∧ digitChar d ≤ '9') = true := by
  have h : ∀ d : Fin 10, (digitChar d.val).toNat - '0'.toNat = d.val ∧
      decide ('0' ≤ digitChar d.val ∧ digitChar d.val ≤ '9') = true := by decide
  exact h ⟨d, hd⟩

theorem filter_groupThousands (p : Char → Bool) (hcomma : p ',' = false) (ds : List Char)
    (hds : ∀ c ∈ ds, p c = true) : (groupThousands ds).filter p = ds := by
  induction ds using groupThousands.induct with
  | case1 a b c d rest ih =>
    have ha := hds a (by simp)
    have hb := hds b (by simp)
    have hc := hds c (by simp)
    have hrest : ∀ x ∈ d :: rest, p x = true := fun x hx => hds x (by
      simp only [List.mem_cons] at hx ⊢
      tauto)
    unfold groupThousands
    simp only [List.filter_cons, ha, hb, hc, hcomma, if_true]
    rw [ih hrest]
    simp
  | case2 ds hne =>
    unfold groupThousands
    split
    · exact absurd rfl (hne _ _ _ _ _)
    · exact List.filter_eq_self.mpr hds

theorem foldr_digitChar (L : List Nat) (hL : ∀ d ∈ L, d < 10) :
    (L.map digitChar).foldr (fun c acc => 10 * acc + (c.toNat - '0'.toNat)) 0 =
      Nat.ofDigits 10 L := by
  induction L with
  | nil => rfl
  | cons d L ih =>
    have hd := (digitChar_toNat d (hL d (by simp))).1
    have ih' := ih fun x hx => hL x (by simp [hx])
    simp only [List.map_cons, List.foldr_cons, Nat.ofDigits_cons, ih', hd]
    omega

/-- The digits read back from a formatted price are the number formatted. -/
theorem parsePrice_toLocaleString (n : Nat) :
    parsePrice (toLocaleString n ++ "원") = some n := by
  have hstrip : ∀ ds : List Char, (∀ c ∈ ds, decide ('0' ≤ c ∧ c ≤ '9') = true) →
      stripNonDigits (String.mk (groupThousands ds).reverse ++ "원") = ds.reverse := by
    intro ds hds
    unfold stripNonDigits
    rw [String.data_append, List.filter_append, List.filter_reverse,
      filter_groupThousands _ (by decide) ds hds]
    have : List.filter (fun c => decide ('0' ≤ c ∧ c ≤ '9')) "원".data = [] := by decide
    rw [this, List.append_nil]
  unfold parsePrice toLocaleString
  by_cases hn : n = 0
  · subst hn
    decide
  · simp only [hn, if_false]
    rw [hstrip _ (by
      intro c hc
      rw [List.mem_map] at hc
      obtain ⟨d, hd, rfl⟩ := hc
      exact (digitChar_toNat d (Nat.digits_lt_base (by norm_num) hd)).2)]
    unfold parseIntDigits
    have hne : (Nat.digits 10 n) ≠ [] := by
      simpa [Nat.digits_ne_nil_iff_ne_zero] using hn
    have hempty : ((List.map digitChar (Nat.digits 10 n)).reverse).isEmpty = false := by
      cases h : Nat.digits 10 n with
      | nil => exact absurd h hne
      | cons a l => simp
    rw [hempty]
    simp only [Bool.false_eq_true, if_false, List.foldl_reverse]
    rw [foldr_digitChar _ (fun d hd => Nat.digits_lt_base (by norm_num) hd),
      Nat.ofDigits_digits]

theorem priceAfterTicks_succ (text : String) (k : Nat) :
    priceAfterTicks text (k + 1) = priceIntervalFire (priceAfterTicks text k) 0 := by
  unfold priceAfterTicks priceRun
  rw [List.replicate_succ', ← List.cons_append, List.foldl_append]
  rfl

theorem floor_natCast (N : Nat) : (Rat.floor (N : ℚ)).toNat = N := by
  have h2 : Rat.floor (N : ℚ) = ⌊(N : ℚ)⌋ := rfl
  rw [h2]
  simp

theorem priceIntervalFire_counters (e : PriceElement) (k : Nat) :
    (priceIntervalFire e k).counters.length = e.counters.length ∧
    (priceIntervalFire e k).observed = e.observed := by
  unfold priceIntervalFire
  split
  · exact ⟨rfl, rfl⟩
  · split
    · simp
    · exact ⟨rfl, rfl⟩

/-- While the observer reports only on an element it observes, at most one
interval is ever started, and none while the element is still observed. -/
theorem priceRun_counters (events : List PriceEvent) (e : PriceElement)
    (hlen : e.counters.length ≤ 1) (hobs : e.observed = true → e.counters = [])
    (hok : priceTraceOk e events = true) :
    (priceRun e events).counters.length ≤ 1 := by
  induction events generalizing e with
  | nil => exact hlen
  | cons ev rest ih =>
    cases ev with
    | intersection b =>
      simp only [priceTraceOk, Bool.and_eq_true] at hok
      obtain ⟨ho, hrest⟩ := hok
      refine ih (priceStep e (.intersection b)) ?_ ?_ hrest
      · cases b with
        | false => exact hlen
        | true =>
          show (e.counters ++ [_]).length ≤ 1
          rw [hobs ho]
          simp
      · cases b with
        | false => exact hobs
        | true =>
          intro h
          cases h
    | interval k =>
      simp only [priceTraceOk] at hok
      have h := priceIntervalFire_counters e k
      refine ih (priceStep e (.interval k)) ?_ ?_ hok
      · show (priceIntervalFire e k).counters.length ≤ 1
        rw [h.1]
        exact hlen
      · intro ho
        have ho' : e.observed = true := by
          rw [← h.2]
          exact ho
        have hnil := hobs ho'
        show (priceIntervalFire e k).counters = []
        apply List.eq_nil_of_length_eq_zero
        rw [h.1, hnil]
        rfl

/-! ## Theorems: double arithmetic -/

theorem roundHalfEven_bounds (m : ℚ) :
    Rat.floor m ≤ roundHalfEven m ∧ roundHalfEven m ≤ Rat.floor m + 1 ∧
    m - 1 / 2 ≤ (roundHalfEven m : ℚ) := by
  have hfl : ((Rat.floor m : ℤ) : ℚ) ≤ m := Int.floor_le m
  have hfl2 : m < ((Rat.floor m : ℤ) : ℚ) + 1 := Int.lt_floor_add_one m
  unfold roundHalfEven
  simp only
  split
  · rename_i h
    refine ⟨le_refl _, by omega, ?_⟩
    linarith
  · split
    · refine ⟨by omega, le_refl _, ?_⟩
      push_cast
      linarith
    · rename_i h1 h2
      split
      · refine ⟨le_refl _, by omega, ?_⟩
        have : m - (Rat.floor m : ℚ) = 1 / 2 := le_antisymm (not_lt.mp h2) (not_lt.mp h1)
        linarith
      · refine ⟨by omega, le_refl _, ?_⟩
        push_cast
        linarith

/-- A rational within half a unit of an integer rounds to it. -/
theorem roundHalfEven_eq_of_near (m : ℚ) (n : ℤ) (hlo : (n : ℚ) - 1 / 2 < m)
    (hhi : m < (n : ℚ) + 1 / 2) : roundHalfEven m = n := by
  have hfl : ((Rat.floor m : ℤ) : ℚ) ≤ m := Int.floor_le m
  have hfl2 : m < ((Rat.floor m : ℤ) : ℚ) + 1 := Int.lt_floor_add_one m
  have hcases : Rat.floor m = n ∨ Rat.floor m = n - 1 := by
    have h1 : ((Rat.floor m : ℤ) : ℚ) < (n : ℚ) + 1 := by linarith
    have h2 : (n : ℚ) - 2 < ((Rat.floor m : ℤ) : ℚ) := by linarith
    have h1' : Rat.floor m < n + 1 := by exact_mod_cast h1
    have h2' : n - 2 < Rat.floor m := by exact_mod_cast h2
    omega
  unfold roundHalfEven
  simp only
  rcases hcases with hc | hc
  · rw [hc]
    have : m - (n : ℚ) < 1 / 2 := by linarith
    rw [if_pos this]
  · rw [hc]
    have h1 : ¬ m - ((n - 1 : ℤ) : ℚ) < 1 / 2 := by
      push_cast
      linarith
    have h2 : 1 / 2 < m - ((n - 1 : ℤ) : ℚ) := by
      push_cast
      linarith
    rw [if_neg h1, if_pos h2]
    omega

/-- The pieces of a rounding: the binade of `x` and the rounded significand. -/
theorem roundDouble_pos (x : ℚ) (hx : 0 < x) :
    ∃ e : ℤ, (2 : ℚ) ^ e ≤ x ∧ x < (2 : ℚ) ^ (e + 1) ∧
      roundDouble x = (roundHalfEven (x / (2 : ℚ) ^ (e - 52)) : ℚ) * (2 : ℚ) ^ (e - 52) := by
  refine ⟨Int.log 2 x, ?_, ?_, ?_⟩
  · have := Int.zpow_log_le_self (b := 2) (r := x) (by norm_num) hx
    simpa using this
  · have := Int.lt_zpow_succ_log_self (b := 2) (by norm_num) x
    simpa using this
  · unfold roundDouble
    rw [if_neg (ne_of_gt hx), abs_of_pos hx]

/-- The binade of a positive rational is unique. -/
theorem binade_unique (x : ℚ) (a e : ℤ) (ha : (2 : ℚ) ^ a ≤ x) (ha' : x < (2 : ℚ) ^ (a + 1))
    (he : (2 : ℚ) ^ e ≤ x) (he' : x < (2 : ℚ) ^ (e + 1)) : a = e := by
  have h1 : (2 : ℚ) ^ a < (2 : ℚ) ^ (e + 1) := lt_of_le_of_lt ha he'
  have h2 : (2 : ℚ) ^ e < (2 : ℚ) ^ (a + 1) := lt_of_le_of_lt he ha'
  rw [zpow_lt_zpow_iff_right₀ (by norm_num)] at h1 h2
  omega

theorem le_ratFloor (z : ℤ) (m : ℚ) (h : (z : ℚ) ≤ m) : z ≤ Rat.floor m := by
  show z ≤ ⌊m⌋
  exact Int.le_floor.mpr h

theorem ratFloor_lt (z : ℤ) (m : ℚ) (h : m < (z : ℚ)) : Rat.floor m < z := by
  show ⌊m⌋ < z
  exact Int.floor_lt.mpr h

theorem zpow_sub_nat (e : ℤ) (j : ℕ) : (2 : ℚ) ^ (e - (j : ℤ)) = (2 : ℚ) ^ e / (2 : ℚ) ^ j := by
  rw [zpow_sub₀ (by norm_num : (2 : ℚ) ≠ 0), zpow_natCast]

/-- The significand before rounding lies in `[2 ^ 52, 2 ^ 53)`. -/
theorem significand_bounds (x : ℚ) (e : ℤ) (hlo : (2 : ℚ) ^ e ≤ x) (hhi : x < (2 : ℚ) ^ (e + 1)) :
    (2 : ℚ) ^ 52 ≤ x / (2 : ℚ) ^ (e - 52) ∧ x / (2 : ℚ) ^ (e - 52) < (2 : ℚ) ^ 53 := by
  have he : (0 : ℚ) < (2 : ℚ) ^ e := by positivity
  have hulp : (2 : ℚ) ^ (e - 52) = (2 : ℚ) ^ e / (2 : ℚ) ^ 52 := by
    have := zpow_sub_nat e 52
    simpa using this
  have hsucc : (2 : ℚ) ^ (e + 1) = (2 : ℚ) ^ e * 2 := by
    rw [zpow_add_one₀ (by norm_num : (2 : ℚ) ≠ 0)]
  rw [hsucc] at hhi
  rw [hulp]
  constructor
  · rw [le_div_iff₀ (by positivity)]
    calc (2 : ℚ) ^ 52 * ((2 : ℚ) ^ e / (2 : ℚ) ^ 52) = (2 : ℚ) ^ e := by field_simp
      _ ≤ x := hlo
  · rw [div_lt_iff₀ (by positivity)]
    calc x < (2 : ℚ) ^ e * 2 := hhi
      _ = (2 : ℚ) ^ 53 * ((2 : ℚ) ^ e / (2 : ℚ) ^ 52) := by
        field_simp
        ring

/-- Rounding loses at most the fraction `2 ^ (-53)` of a value. -/
theorem roundDouble_ge (x : ℚ) (hx : 0 ≤ x) : x * (1 - 1 / 2 ^ 53) ≤ roundDouble x := by
  rcases eq_or_lt_of_le hx with h0 | hpos
  · rw [← h0]
    simp [roundDouble]
  · obtain ⟨e, hlo, hhi, heq⟩ := roundDouble_pos x hpos
    have hulp : (2 : ℚ) ^ (e - 52) = (2 : ℚ) ^ e / (2 : ℚ) ^ 52 := by
      have := zpow_sub_nat e 52
      simpa using this
    have hupos : (0 : ℚ) < (2 : ℚ) ^ (e - 52) := by positivity
    have hr := (roundHalfEven_bounds (x / (2 : ℚ) ^ (e - 52))).2.2
    have h1 : (x / (2 : ℚ) ^ (e - 52) - 1 / 2) * (2 : ℚ) ^ (e - 52) ≤ roundDouble x := by
      rw [heq]
      exact mul_le_mul_of_nonneg_right hr (le_of_lt hupos)
    have h2 : (x / (2 : ℚ) ^ (e - 52) - 1 / 2) * (2 : ℚ) ^ (e - 52) =
        x - (2 : ℚ) ^ (e - 52) / 2 := by
      field_simp
      ring
    have h3 : (2 : ℚ) ^ (e - 52) ≤ x / 2 ^ 52 := by
      rw [hulp]
      exact div_le_div_of_nonneg_right hlo (by positivity)
    have h4 : x * (1 - 1 / 2 ^ 53) = x - x / 2 ^ 52 / 2 := by
      field_simp
      ring
    linarith

/-- A rounded value is at least the lower end of the binade it was rounded in. -/
theorem roundDouble_ge_binade (x : ℚ) (e : ℤ) (hlo : (2 : ℚ) ^ e ≤ x)
    (hhi : x < (2 : ℚ) ^ (e + 1)) : (2 : ℚ) ^ e ≤ roundDouble x := by
  have hpos : 0 < x := lt_of_lt_of_le (by positivity) hlo
  obtain ⟨e', hlo', hhi', heq⟩ := roundDouble_pos x hpos
  have hee : e = e' := binade_unique x e e' hlo hhi hlo' hhi'
  subst hee
  have hm := (significand_bounds x e hlo hhi).1
  have hfl : (2 : ℤ) ^ 52 ≤ Rat.floor (x / (2 : ℚ) ^ (e - 52)) :=
    le_ratFloor _ _ (by push_cast; exact hm)
  have hr : (2 : ℤ) ^ 52 ≤ roundHalfEven (x / (2 : ℚ) ^ (e - 52)) :=
    le_trans hfl (roundHalfEven_bounds _).1
  have hrq : (2 : ℚ) ^ 52 ≤ (roundHalfEven (x / (2 : ℚ) ^ (e - 52)) : ℚ) := by
    exact_mod_cast hr
  have hulp : (2 : ℚ) ^ (e - 52) = (2 : ℚ) ^ e / (2 : ℚ) ^ 52 := by
    have := zpow_sub_nat e 52
    simpa using this
  rw [heq]
  calc (2 : ℚ) ^ e = (2 : ℚ) ^ 52 * (2 : ℚ) ^ (e - 52) := by
        rw [hulp]
        field_simp
    _ ≤ _ := mul_le_mul_of_nonneg_right hrq (by positivity)

/-- The result of rounding a positive value is a double. -/
theorem roundDouble_isDouble (x : ℚ) (hx : 0 < x) : IsDouble (roundDouble x) := by
  obtain ⟨e, hlo, hhi, heq⟩ := roundDouble_pos x hx
  obtain ⟨hm1, hm2⟩ := significand_bounds x e hlo hhi
  have hfl1 : (2 : ℤ) ^ 52 ≤ Rat.floor (x / (2 : ℚ) ^ (e - 52)) :=
    le_ratFloor _ _ (by push_cast; exact hm1)
  have hfl2 : Rat.floor (x / (2 : ℚ) ^ (e - 52)) < (2 : ℤ) ^ 53 :=
    ratFloor_lt _ _ (by push_cast; exact hm2)
  obtain ⟨hb1, hb2, _⟩ := roundHalfEven_bounds (x / (2 : ℚ) ^ (e - 52))
  generalize roundHalfEven (x / (2 : ℚ) ^ (e - 52)) = r at heq hb1 hb2
  have hr1 : (2 : ℤ) ^ 52 ≤ r := le_trans hfl1 hb1
  have hr2 : r ≤ (2 : ℤ) ^ 53 := by omega
  rcases lt_or_eq_of_le hr2 with hlt | heq53
  · refine ⟨r.toNat, e - 52, ?_, ?_, ?_⟩
    · have : ((2 : ℕ) ^ 52 : ℤ) ≤ r := by exact_mod_cast hr1
      omega
    · have : r < ((2 : ℕ) ^ 53 : ℤ) := by exact_mod_cast hlt
      omega
    · rw [heq]
      congr 1
      have hnn : 0 ≤ r := le_trans (by positivity) hr1
      have : ((r.toNat : ℤ) : ℚ) = (r : ℚ) := by rw [Int.toNat_of_nonneg hnn]
      exact_mod_cast this.symm
  · refine ⟨2 ^ 52, e - 51, le_refl _, by norm_num, ?_⟩
    rw [heq, heq53]
    have h1 : (2 : ℚ) ^ (e - 51) = (2 : ℚ) ^ (e - 52) * 2 := by
      rw [← zpow_add_one₀ (by norm_num : (2 : ℚ) ≠ 0)]
      congr 1
      ring
    rw [h1]
    push_cast
    ring

/-- Rounding never goes below a double that the value has reached. -/
theorem roundDouble_ge_of_isDouble (d x : ℚ) (hd : IsDouble d) (hdx : d ≤ x) :
    d ≤ roundDouble x := by
  obtain ⟨n, k, hn1, hn2, rfl⟩ := hd
  have hkpos : (0 : ℚ) < (2 : ℚ) ^ k := by positivity
  have hn1q : (2 : ℚ) ^ 52 ≤ (n : ℚ) := by exact_mod_cast hn1
  have hn2q : (n : ℚ) < (2 : ℚ) ^ 53 := by exact_mod_cast hn2
  have hdpos : (0 : ℚ) < (n : ℚ) * (2 : ℚ) ^ k := by positivity
  have hxpos : 0 < x := lt_of_lt_of_le hdpos hdx
  obtain ⟨e, hlo, hhi, heq⟩ := roundDouble_pos x hxpos
  have hk52 : (2 : ℚ) ^ (k + 52) = (2 : ℚ) ^ 52 * (2 : ℚ) ^ k := by
    rw [zpow_add₀ (by norm_num : (2 : ℚ) ≠ 0)]
    norm_num
    ring
  have hk53 : (2 : ℚ) ^ (k + 53) = (2 : ℚ) ^ 53 * (2 : ℚ) ^ k := by
    rw [zpow_add₀ (by norm_num : (2 : ℚ) ≠ 0)]
    norm_num
    ring
  have hdlo : (2 : ℚ) ^ (k + 52) ≤ (n : ℚ) * (2 : ℚ) ^ k := by
    rw [hk52]
    exact mul_le_mul_of_nonneg_right hn1q (le_of_lt hkpos)
  have hdhi : (n : ℚ) * (2 : ℚ) ^ k < (2 : ℚ) ^ (k + 53) := by
    rw [hk53]
    exact mul_lt_mul_of_pos_right hn2q hkpos
  have hke : k + 52 ≤ e := by
    have : (2 : ℚ) ^ (k + 52) < (2 : ℚ) ^ (e + 1) :=
      lt_of_le_of_lt (le_trans hdlo hdx) hhi
    rw [zpow_lt_zpow_iff_right₀ (by norm_num)] at this
    omega
  rcases eq_or_lt_of_le hke with hsame | hbig
  · have hek : e - 52 = k := by omega
    rw [heq, hek]
    apply mul_le_mul_of_nonneg_right _ (le_of_lt hkpos)
    have hm : (n : ℚ) ≤ x / (2 : ℚ) ^ k := by
      rw [le_div_iff₀ hkpos]
      exact hdx
    have hfl : (n : ℤ) ≤ Rat.floor (x / (2 : ℚ) ^ k) :=
      le_ratFloor _ _ (by exact_mod_cast hm)
    have := le_trans hfl (roundHalfEven_bounds (x / (2 : ℚ) ^ k)).1
    exact_mod_cast this
  · have h1 : (2 : ℚ) ^ e ≤ roundDouble x := roundDouble_ge_binade x e hlo hhi
    have h2 : (2 : ℚ) ^ (k + 53) ≤ (2 : ℚ) ^ e := by
      rw [zpow_le_zpow_iff_right₀ (by norm_num)]
      omega
    linarith

/-- Rounding a value whose binade is known: scale, round to an integer, scale
back. -/
theorem roundDouble_of_scaled (x : ℚ) (p : ℕ) (hbin : (2 : ℚ) ^ 52 ≤ x * 2 ^ p)
    (hhi : x * 2 ^ p < (2 : ℚ) ^ 53) :
    roundDouble x = (roundHalfEven (x * 2 ^ p) : ℚ) / 2 ^ p := by
  have hp : (0 : ℚ) < 2 ^ p := by positivity
  have hxpos : 0 < x := by
    by_contra h
    have : x * 2 ^ p ≤ 0 := mul_nonpos_of_nonpos_of_nonneg (not_lt.mp h) (le_of_lt hp)
    have : (0 : ℚ) < 2 ^ 52 := by positivity
    linarith
  obtain ⟨e, hlo', hhi', heq⟩ := roundDouble_pos x hxpos
  have ha1 : (2 : ℚ) ^ ((52 : ℤ) - (p : ℤ)) ≤ x := by
    have h52 : (2 : ℚ) ^ (52 : ℤ) = 2 ^ 52 := by norm_num
    rw [zpow_sub_nat, h52, div_le_iff₀ hp]
    exact hbin
  have ha2 : x < (2 : ℚ) ^ ((52 : ℤ) - (p : ℤ) + 1) := by
    have : (52 : ℤ) - (p : ℤ) + 1 = (53 : ℤ) - (p : ℤ) := by ring
    have h53 : (2 : ℚ) ^ (53 : ℤ) = 2 ^ 53 := by norm_num
    rw [this, zpow_sub_nat, h53, lt_div_iff₀ hp]
    exact hhi
  have he : (52 : ℤ) - (p : ℤ) = e := binade_unique x _ e ha1 ha2 hlo' hhi'
  have hulp : (2 : ℚ) ^ (e - 52) = 1 / 2 ^ p := by
    have : e - 52 = -(p : ℤ) := by omega
    rw [this, zpow_neg, zpow_natCast]
    simp
  rw [heq, hulp]
  have hm : x / (1 / 2 ^ p) = x * 2 ^ p := by field_simp
  rw [hm]
  field_simp

/-- A value within half a unit in the last place of a 53-bit number over a
power of two rounds to it. -/
theorem roundDouble_eq_of_near (x : ℚ) (n p : ℕ) (hn : n < 2 ^ 53)
    (hbin : (2 : ℚ) ^ 52 ≤ x * 2 ^ p) (hlo : (n : ℚ) - 1 / 2 < x * 2 ^ p)
    (hhi : x * 2 ^ p < (n : ℚ) + 1 / 2) : roundDouble x = (n : ℚ) / 2 ^ p := by
  have hnq : (n : ℚ) + 1 ≤ 2 ^ 53 := by exact_mod_cast hn
  rw [roundDouble_of_scaled x p hbin (by linarith),
    roundHalfEven_eq_of_near (x * 2 ^ p) (n : ℤ) (by exact_mod_cast hlo)
      (by exact_mod_cast hhi)]
  push_cast
  rfl

/-- A value halfway between two neighbouring 53-bit numbers over a power of
two rounds to the even one. -/
theorem roundDouble_eq_of_tie (x : ℚ) (f p : ℕ) (hf : f + 1 < 2 ^ 53)
    (hbin : (2 : ℚ) ^ 52 ≤ x * 2 ^ p) (htie : x * 2 ^ p = (f : ℚ) + 1 / 2) :
    roundDouble x = ((if f % 2 = 0 then f else f + 1 : ℕ) : ℚ) / 2 ^ p := by
  have hfq : (f : ℚ) + 1 < 2 ^ 53 := by exact_mod_cast hf
  rw [roundDouble_of_scaled x p hbin (by linarith), htie]
  congr 1
  have hfloor : Rat.floor ((f : ℚ) + 1 / 2) = (f : ℤ) := by
    show ⌊(f : ℚ) + 1 / 2⌋ = (f : ℤ)
    rw [Int.floor_eq_iff]
    constructor
    · push_cast
      linarith
    · push_cast
      linarith
  unfold roundHalfEven
  simp only [hfloor]
  have h1 : ¬ ((f : ℚ) + 1 / 2 - ((f : ℤ) : ℚ) < 1 / 2) := by
    push_cast
    linarith
  have h2 : ¬ (1 / 2 < (f : ℚ) + 1 / 2 - ((f : ℤ) : ℚ)) := by
    push_cast
    linarith
  rw [if_neg h1, if_neg h2]
  by_cases hpar : f % 2 = 0
  · have : (f : ℤ) % 2 = 0 := by omega
    rw [if_pos this, if_pos hpar]
    push_cast
    rfl
  · have : ¬ (f : ℤ) % 2 = 0 := by omega
    rw [if_neg this, if_neg hpar]
    push_cast
    rfl

theorem roundDouble_zero : roundDouble 0 = 0 := by
  simp [roundDouble]

theorem roundDouble_nonneg (x : ℚ) (hx : 0 ≤ x) : 0 ≤ roundDouble x := by
  have h := roundDouble_ge x hx
  have hq : (0 : ℚ) ≤ 1 - 1 / 2 ^ 53 := by norm_num
  exact le_trans (mul_nonneg hx hq) h

theorem IsDouble.pos {d : ℚ} (hd : IsDouble d) : 0 < d := by
  obtain ⟨n, k, hn1, _, rfl⟩ := hd
  have : (0 : ℚ) < (n : ℚ) := by
    have : 0 < n := lt_of_lt_of_le (by positivity) hn1
    exact_mod_cast this
  positivity

theorem doubleSum_nonneg (inc : ℚ) (hinc : 0 ≤ inc) (k : Nat) : 0 ≤ doubleSum inc k := by
  induction k with
  | zero => exact le_refl _
  | succ k ih => exact roundDouble_nonneg _ (add_nonneg ih hinc)

theorem doubleSum_zero_or_isDouble (inc : ℚ) (hinc : 0 ≤ inc) (k : Nat) :
    doubleSum inc k = 0 ∨ IsDouble (doubleSum inc k) := by
  cases k with
  | zero => exact Or.inl rfl
  | succ k =>
    have hnn := add_nonneg (doubleSum_nonneg inc hinc k) hinc
    rcases eq_or_lt_of_le hnn with h0 | hpos
    · left
      show roundDouble (doubleSum inc k + inc) = 0
      rw [← h0, roundDouble_zero]
    · exact Or.inr (roundDouble_isDouble _ hpos)

/-- The running sum never decreases. -/
theorem doubleSum_le_succ (inc : ℚ) (hinc : 0 ≤ inc) (k : Nat) :
    doubleSum inc k ≤ doubleSum inc (k + 1) := by
  rcases doubleSum_zero_or_isDouble inc hinc k with h0 | hd
  · rw [h0]
    exact doubleSum_nonneg inc hinc (k + 1)
  · exact roundDouble_ge_of_isDouble _ _ hd (by linarith)

theorem doubleSum_mono (inc : ℚ) (hinc : 0 ≤ inc) {j k : Nat} (hjk : j ≤ k) :
    doubleSum inc j ≤ doubleSum inc k :=
  monotone_nat_of_le_succ (doubleSum_le_succ inc hinc) hjk

/-- After `k` additions the running sum has lost at most the fraction
`2 ^ (-53)` per addition. -/
theorem doubleSum_lower (inc : ℚ) (hinc : 0 ≤ inc) (k : Nat) :
    (k : ℚ) * inc * (1 - 1 / 2 ^ 53) ^ k ≤ doubleSum inc k := by
  induction k with
  | zero => simp [doubleSum]
  | succ k ih =>
    have hq0 : (0 : ℚ) ≤ 1 - 1 / 2 ^ 53 := by norm_num
    have hq1 : (1 - 1 / 2 ^ 53 : ℚ) ≤ 1 := by norm_num
    have hqk : (1 - 1 / 2 ^ 53 : ℚ) ^ k ≤ 1 := pow_le_one₀ hq0 hq1
    have hqk0 : (0 : ℚ) ≤ (1 - 1 / 2 ^ 53 : ℚ) ^ k := pow_nonneg hq0 k
    have hsum := add_nonneg (doubleSum_nonneg inc hinc k) hinc
    have hround : (doubleSum inc k + inc) * (1 - 1 / 2 ^ 53) ≤ doubleSum inc (k + 1) :=
      roundDouble_ge _ hsum
    have h1 : inc * (1 - 1 / 2 ^ 53) ^ k ≤ inc := by
      calc inc * (1 - 1 / 2 ^ 53) ^ k ≤ inc * 1 := mul_le_mul_of_nonneg_left hqk hinc
        _ = inc := mul_one inc
    have h2 : ((k : ℚ) * inc * (1 - 1 / 2 ^ 53) ^ k + inc * (1 - 1 / 2 ^ 53) ^ k) *
        (1 - 1 / 2 ^ 53) ≤ (doubleSum inc k + inc) * (1 - 1 / 2 ^ 53) :=
      mul_le_mul_of_nonneg_right (by linarith) hq0
    have h3 : ((k + 1 : ℕ) : ℚ) * inc * (1 - 1 / 2 ^ 53) ^ (k + 1) =
        ((k : ℚ) * inc * (1 - 1 / 2 ^ 53) ^ k + inc * (1 - 1 / 2 ^ 53) ^ k) *
          (1 - 1 / 2 ^ 53) := by
      push_cast
      ring
    rw [h3]
    exact le_trans h2 hround

/-- With the increment the script computes, 51 additions reach the target. -/
theorem doubleSum_reaches (N : Nat) :
    (N : ℚ) ≤ doubleSum (roundDouble ((N : ℚ) / 50)) 51 := by
  have hN : (0 : ℚ) ≤ (N : ℚ) / 50 := by positivity
  have hinc0 := roundDouble_nonneg _ hN
  have hinc := roundDouble_ge _ hN
  have hlow := doubleSum_lower (roundDouble ((N : ℚ) / 50)) hinc0 51
  have hq0 : (0 : ℚ) ≤ (1 - 1 / 2 ^ 53 : ℚ) ^ 51 := by positivity
  have h1 : (51 : ℚ) * ((N : ℚ) / 50 * (1 - 1 / 2 ^ 53)) * (1 - 1 / 2 ^ 53) ^ 51 ≤
      ((51 : ℕ) : ℚ) * roundDouble ((N : ℚ) / 50) * (1 - 1 / 2 ^ 53) ^ 51 := by
    push_cast
    exact mul_le_mul_of_nonneg_right (mul_le_mul_of_nonneg_left hinc (by norm_num)) hq0
  have hconst : (1 : ℚ) ≤ 51 / 50 * (1 - 1 / 2 ^ 53) ^ 52 := by norm_num
  have h2 : (N : ℚ) ≤ (51 : ℚ) * ((N : ℚ) / 50 * (1 - 1 / 2 ^ 53)) * (1 - 1 / 2 ^ 53) ^ 51 := by
    have hNN : (0 : ℚ) ≤ (N : ℚ) := by positivity
    calc (N : ℚ) = (N : ℚ) * 1 := (mul_one _).symm
      _ ≤ (N : ℚ) * (51 / 50 * (1 - 1 / 2 ^ 53) ^ 52) := mul_le_mul_of_nonneg_left hconst hNN
      _ = (51 : ℚ) * ((N : ℚ) / 50 * (1 - 1 / 2 ^ 53)) * (1 - 1 / 2 ^ 53) ^ 51 := by ring
  linarith

/-! ## Theorems: the price counter in double arithmetic -/

/-- One elapsed timer on an element whose only interval is running. -/
theorem priceIntervalFire_running (text : String) (N : Nat) (cur inc : ℚ) :
    priceIntervalFire
      { textContent := text, observed := false,
        counters := [{ numericPrice := some N, currentPrice := cur,
                       increment := inc, running := true }] } 0 =
      if (N : ℚ) ≤ roundDouble (cur + inc) then
        { textContent := toLocaleString N ++ "원", observed := false,
          counters := [{ numericPrice := some N, currentPrice := N,
                         increment := inc, running := false }] }
      else
        { textContent := toLocaleString (Rat.floor (roundDouble (cur + inc))).toNat ++ "원",
          observed := false,
          counters := [{ numericPrice := some N, currentPrice := roundDouble (cur + inc),
                         increment := inc, running := true }] } := by
  unfold priceIntervalFire priceCounterTick
  by_cases h : (N : ℚ) ≤ roundDouble (cur + inc)
  · simp [h, floor_natCast]
  · simp [h]

/-- An elapsed timer does nothing to an element whose only interval is cleared. -/
theorem priceIntervalFire_stopped (text : String) (N : Nat) (cur inc : ℚ) :
    priceIntervalFire
      { textContent := text, observed := false,
        counters := [{ numericPrice := some N, currentPrice := cur,
                       increment := inc, running := false }] } 0 =
      { textContent := text, observed := false,
        counters := [{ numericPrice := some N, currentPrice := cur,
                       increment := inc, running := false }] } := by
  simp [priceIntervalFire]

/-- The element after the first intersecting entry and `k` elapsed timers: the
interval runs, holding the running sum, until the sum reaches the target. -/
theorem priceAfterTicks_eq (text : String) (N : Nat) (hN : parsePrice text = some N) (k : Nat) :
    priceAfterTicks text k =
      { textContent :=
          if k = 0 then text
          else if doubleSum (roundDouble ((N : ℚ) / 50)) k < N then
            toLocaleString (Rat.floor (doubleSum (roundDouble ((N : ℚ) / 50)) k)).toNat ++ "원"
          else toLocaleString N ++ "원",
        observed := false,
        counters :=
          [{ numericPrice := some N,
             currentPrice :=
               if k = 0 ∨ doubleSum (roundDouble ((N : ℚ) / 50)) k < N then
                 doubleSum (roundDouble ((N : ℚ) / 50)) k
               else N,
             increment := roundDouble ((N : ℚ) / 50),
             running := decide (k = 0 ∨ doubleSum (roundDouble ((N : ℚ) / 50)) k < N) }] } := by
  have hinc : 0 ≤ roundDouble ((N : ℚ) / 50) := roundDouble_nonneg _ (by positivity)
  induction k with
  | zero =>
    simp [priceAfterTicks, priceRun, priceStep, priceObserverCallback, startPriceCounter,
      PriceElement.initial, hN, doubleSum]
  | succ k ih =>
    rw [priceAfterTicks_succ, ih]
    have hk1 : ¬ k + 1 = 0 := Nat.succ_ne_zero k
    have hstep : doubleSum (roundDouble ((N : ℚ) / 50)) (k + 1) =
        roundDouble (doubleSum (roundDouble ((N : ℚ) / 50)) k + roundDouble ((N : ℚ) / 50)) := rfl
    by_cases hrun : k = 0 ∨ doubleSum (roundDouble ((N : ℚ) / 50)) k < N
    · have hdec : decide (k = 0 ∨ doubleSum (roundDouble ((N : ℚ) / 50)) k < N) = true :=
        decide_eq_true hrun
      rw [hdec, if_pos hrun, priceIntervalFire_running, ← hstep, if_neg hk1]
      by_cases hstop : (N : ℚ) ≤ doubleSum (roundDouble ((N : ℚ) / 50)) (k + 1)
      · have hnlt : ¬ doubleSum (roundDouble ((N : ℚ) / 50)) (k + 1) < N := not_lt.mpr hstop
        have hnor : ¬ (k + 1 = 0 ∨ doubleSum (roundDouble ((N : ℚ) / 50)) (k + 1) < N) := by
          rintro (h | h)
          · exact hk1 h
          · exact hnlt h
        rw [if_pos hstop, if_neg hnlt, if_neg hnor, decide_eq_false hnor]
      · have hlt : doubleSum (roundDouble ((N : ℚ) / 50)) (k + 1) < N := not_le.mp hstop
        have hor : k + 1 = 0 ∨ doubleSum (roundDouble ((N : ℚ) / 50)) (k + 1) < N := Or.inr hlt
        rw [if_neg hstop, if_pos hlt, if_pos hor, decide_eq_true hor]
    · have hk0 : ¬ k = 0 := fun h => hrun (Or.inl h)
      have hge : ¬ doubleSum (roundDouble ((N : ℚ) / 50)) k < N := fun h => hrun (Or.inr h)
      have hge' : ¬ doubleSum (roundDouble ((N : ℚ) / 50)) (k + 1) < N := by
        have := doubleSum_le_succ (roundDouble ((N : ℚ) / 50)) hinc k
        intro h
        exact hge (lt_of_le_of_lt this h)
      have hnor : ¬ (k + 1 = 0 ∨ doubleSum (roundDouble ((N : ℚ) / 50)) (k + 1) < N) := by
        rintro (h | h)
        · exact hk1 h
        · exact hge' h
      rw [decide_eq_false hrun, if_neg hrun, priceIntervalFire_stopped, if_neg hk0, if_neg hge,
        if_neg hk1, if_neg hge', if_neg hnor, decide_eq_false hnor]

/-- The number a price element shows after `k ≥ 1` elapsed timers. -/
theorem priceAfterTicks_shown (text : String) (N : Nat) (hN : parsePrice text = some N)
    (k : Nat) (hk : k ≠ 0) :
    parsePrice (priceAfterTicks text k).textContent =
      some (if doubleSum (roundDouble ((N : ℚ) / 50)) k < N then
        (Rat.floor (doubleSum (roundDouble ((N : ℚ) / 50)) k)).toNat else N) := by
  rw [priceAfterTicks_eq text N hN k]
  show parsePrice (if k = 0 then text else _) = _
  rw [if_neg hk]
  split
  · rw [parsePrice_toLocaleString]
  · rw [parsePrice_toLocaleString]

theorem floor_toNat_mono (a b : ℚ) (hab : a ≤ b) :
    (Rat.floor a).toNat ≤ (Rat.floor b).toNat := by
  have h : Rat.floor a ≤ Rat.floor b := by
    show ⌊a⌋ ≤ ⌊b⌋
    exact Int.floor_le_floor hab
  omega

theorem floor_toNat_le (a : ℚ) (N : Nat) (h : a ≤ N) : (Rat.floor a).toNat ≤ N := by
  have h1 : Rat.floor a ≤ (N : ℤ) := by
    have h2 : ((Rat.floor a : ℤ) : ℚ) ≤ a := Int.floor_le a
    have h3 : ((Rat.floor a : ℤ) : ℚ) ≤ ((N : ℤ) : ℚ) := by
      push_cast
      linarith
    exact_mod_cast h3
  omega

theorem doubleSum_succ (inc : ℚ) (k : Nat) :
    doubleSum inc (k + 1) = roundDouble (doubleSum inc k + inc) := rfl

/-- The double nearest to `9990 / 50`. -/
theorem increment_9990 :
    roundDouble (((9990 : ℕ) : ℚ) / 50) = ((7029837543348634 : ℕ) : ℚ) / 2 ^ 45 :=
  roundDouble_eq_of_near _ 7029837543348634 45 (by norm_num) (by norm_num) (by norm_num) (by norm_num)

/-- Fifty double additions of that increment from 0, one by one: the sum
stays below the target 9990. -/
theorem doubleSum_9990 :
    doubleSum (((7029837543348634 : ℕ) : ℚ) / 2 ^ 45) 50 =
      ((5492060580741119 : ℕ) : ℚ) / 2 ^ 39 := by
  have h0 : doubleSum (((7029837543348634 : ℕ) : ℚ) / 2 ^ 45) 0 = 0 := rfl
  have h1 : doubleSum (((7029837543348634 : ℕ) : ℚ) / 2 ^ 45) 1 =
      ((7029837543348634 : ℕ) : ℚ) / 2 ^ 45 := by
    show doubleSum (((7029837543348634 : ℕ) : ℚ) / 2 ^ 45) (0 + 1) = _
    rw [doubleSum_succ, h0]
    exact roundDouble_eq_of_near _ 7029837543348634 45 (by norm_num) (by norm_num) (by norm_num)
      (by norm_num)
  have h2 : doubleSum (((7029837543348634 : ℕ) : ℚ) / 2 ^ 45) 2 =
      ((7029837543348634 : ℕ) : ℚ) / 2 ^ 44 := by
    show doubleSum (((7029837543348634 : ℕ) : ℚ) / 2 ^ 45) (1 + 1) = _
    rw [doubleSum_succ, h1]
    exact roundDouble_eq_of_near _ 7029837543348634 44 (by norm_num) (by norm_num) (by norm_num)
      (by norm_num)
  have h3 : doubleSum (((7029837543348634 : ℕ) : ℚ) / 2 ^ 45) 3 =
      ((5272378157511476 : ℕ) : ℚ) / 2 ^ 43 := by
    show doubleSum (((7029837543348634 : ℕ) : ℚ) / 2 ^ 45) (2 + 1) = _
    rw [doubleSum_succ, h2]
    rw [roundDouble_eq_of_tie _ 5272378157511475 43 (by norm_num) (by norm_num) (by norm_num)]
    norm_num
  have h4 : doubleSum (((7029837543348634 : ℕ) : ℚ) / 2 ^ 45) 4 =
      ((7029837543348634 : ℕ) : ℚ) / 2 ^ 43 := by
    show doubleSum (((7029837543348634 : ℕ) : ℚ) / 2 ^ 45) (3 + 1) = _
    rw [doubleSum_succ, h3]
    rw [roundDouble_eq_of_tie _ 7029837543348634 43 (by norm_num) (by norm_num) (by norm_num)]
    norm_num
  have h5 : doubleSum (((7029837543348634 : ℕ) : ℚ) / 2 ^ 45) 5 =
      ((8787296929185792 : ℕ) : ℚ) / 2 ^ 43 := by
    show doubleSum (((7029837543348634 : ℕ) : ℚ) / 2 ^ 45) (4 + 1) = _
    rw [doubleSum_succ, h4]
    rw [roundDouble_eq_of_tie _ 8787296929185792 43 (by norm_num) (by norm_num) (by norm_num)]
    norm_num
  have h6 : doubleSum (((7029837543348634 : ℕ) : ℚ) / 2 ^ 45) 6 =
      ((5272378157511475 : ℕ) : ℚ) / 2 ^ 42 := by
    show doubleSum (((7029837543348634 : ℕ) : ℚ) / 2 ^ 45) (5 + 1) = _
    rw [doubleSum_succ, h5]
    exact roundDouble_eq_of_near _ 5272378157511475 42 (by norm_num) (by norm_num) (by norm_num)
      (by norm_num)
  have h7 : doubleSum (((7029837543348634 : ℕ) : ℚ) / 2 ^ 45) 7 =
      ((6151107850430054 : ℕ) : ℚ) / 2 ^ 42 := by
    show doubleSum (((7029837543348634 : ℕ) : ℚ) / 2 ^ 45) (6 + 1) = _
    rw [doubleSum_succ, h6]
    exact roundDouble_eq_of_near _ 6151107850430054 42 (by norm_num) (by norm_num) (by norm_num)
      (by norm_num)
  have h8 : doubleSum (((7029837543348634 : ℕ) : ℚ) / 2 ^ 45) 8 =
      ((7029837543348633 : ℕ) : ℚ) / 2 ^ 42 := by
    show doubleSum (((7029837543348634 : ℕ) : ℚ) / 2 ^ 45) (7 + 1) = _
    rw [doubleSum_succ, h7]
    exact roundDouble_eq_of_near _ 7029837543348633 42 (by norm_num) (by norm_num) (by norm_num)
      (by norm_num)
  have h9 : doubleSum (((7029837543348634 : ℕ) : ℚ) / 2 ^ 45) 9 =
      ((7908567236267212 : ℕ) : ℚ) / 2 ^ 42 := by
    show doubleSum (((7029837543348634 : ℕ) : ℚ) / 2 ^ 45) (8 + 1) = _
    rw [doubleSum_succ, h8]
    exact roundDouble_eq_of_near _ 7908567236267212 42 (by norm_num) (by norm_num) (by norm_num)
      (by norm_num)
  have h10 : doubleSum (((7029837543348634 : ℕ) : ℚ) / 2 ^ 45) 10 =
      ((8787296929185791 : ℕ) : ℚ) / 2 ^ 42 := by
    show doubleSum (((7029837543348634 : ℕ) : ℚ) / 2 ^ 45) (9 + 1) = _
    rw [doubleSum_succ, h9]
    exact roundDouble_eq_of_near _ 8787296929185791 42 (by norm_num) (by norm_num) (by norm_num)
      (by norm_num)
  have h11 : doubleSum (((7029837543348634 : ℕ) : ℚ) / 2 ^ 45) 11 =
      ((4833013311052185 : ℕ) : ℚ) / 2 ^ 41 := by
    show doubleSum (((7029837543348634 : ℕ) : ℚ) / 2 ^ 45) (10 + 1) = _
    rw [doubleSum_succ, h10]
    exact roundDouble_eq_of_near _ 4833013311052185 41 (by norm_num) (by norm_num) (by norm_num)
      (by norm_num)
  have h12 : doubleSum (((7029837543348634 : ℕ) : ℚ) / 2 ^ 45) 12 =
      ((5272378157511475 : ℕ) : ℚ) / 2 ^ 41 := by
    show doubleSum (((7029837543348634 : ℕ) : ℚ) / 2 ^ 45) (11 + 1) = _
    rw [doubleSum_succ, h11]
    exact roundDouble_eq_of_near _ 5272378157511475 41 (by norm_num) (by norm_num) (by norm_num)
      (by norm_num)
  have h13 : doubleSum (((7029837543348634 : ℕ) : ℚ) / 2 ^ 45) 13 =
      ((5711743003970765 : ℕ) : ℚ) / 2 ^ 41 := by
    show doubleSum (((7029837543348634 : ℕ) : ℚ) / 2 ^ 45) (12 + 1) = _
    rw [doubleSum_succ, h12]
    exact roundDouble_eq_of_near _ 5711743003970765 41 (by norm_num) (by norm_num) (by norm_num)
      (by norm_num)
  have h14 : doubleSum (((7029837543348634 : ℕ) : ℚ) / 2 ^ 45) 14 =
      ((6151107850430055 : ℕ) : ℚ) / 2 ^ 41 := by
    show doubleSum (((7029837543348634 : ℕ) : ℚ) / 2 ^ 45) (13 + 1) = _
    rw [doubleSum_succ, h13]
    exact roundDouble_eq_of_near _ 6151107850430055 41 (by norm_num) (by norm_num) (by norm_num)
      (by norm_num)
  have h15 : doubleSum (((7029837543348634 : ℕ) : ℚ) / 2 ^ 45) 15 =
      ((6590472696889345 : ℕ) : ℚ) / 2 ^ 41 := by
    show doubleSum (((7029837543348634 : ℕ) : ℚ) / 2 ^ 45) (14 + 1) = _
    rw [doubleSum_succ, h14]
    exact roundDouble_eq_of_near _ 6590472696889345 41 (by norm_num) (by norm_num) (by norm_num)
      (by norm_num)
  have h16 : doubleSum (((7029837543348634 : ℕ) : ℚ) / 2 ^ 45) 16 =
      ((7029837543348635 : ℕ) : ℚ) / 2 ^ 41 := by
    show doubleSum (((7029837543348634 : ℕ) : ℚ) / 2 ^ 45) (15 + 1) = _
    rw [doubleSum_succ, h15]
    exact roundDouble_eq_of_near _ 7029837543348635 41 (by norm_num) (by norm_num) (by norm_num)
      (by norm_num)
  have h17 : doubleSum (((7029837543348634 : ℕ) : ℚ) / 2 ^ 45) 17 =
      ((7469202389807925 : ℕ) : ℚ) / 2 ^ 41 := by
    show doubleSum (((7029837543348634 : ℕ) : ℚ) / 2 ^ 45) (16 + 1) = _
    rw [doubleSum_succ, h16]
    exact roundDouble_eq_of_near _ 7469202389807925 41 (by norm_num) (by norm_num) (by norm_num)
      (by norm_num)
  have h18 : doubleSum (((7029837543348634 : ℕ) : ℚ) / 2 ^ 45) 18 =
      ((7908567236267215 : ℕ) : ℚ) / 2 ^ 41 := by
    show doubleSum (((7029837543348634 : ℕ) : ℚ) / 2 ^ 45) (17 + 1) = _
    rw [doubleSum_succ, h17]
    exact roundDouble_eq_of_near _ 7908567236267215 41 (by norm_num) (by norm_num) (by norm_num)
      (by norm_num)
  have h19 : doubleSum (((7029837543348634 : ℕ) : ℚ) / 2 ^ 45) 19 =
      ((8347932082726505 : ℕ) : ℚ) / 2 ^ 41 := by
    show doubleSum (((7029837543348634 : ℕ) : ℚ) / 2 ^ 45) (18 + 1) = _
    rw [doubleSum_succ, h18]
    exact roundDouble_eq_of_near _ 8347932082726505 41 (by norm_num) (by norm_num) (by norm_num)
      (by norm_num)
  have h20 : doubleSum (((7029837543348634 : ℕ) : ℚ) / 2 ^ 45) 20 =
      ((8787296929185795 : ℕ) : ℚ) / 2 ^ 41 := by
    show doubleSum (((7029837543348634 : ℕ) : ℚ) / 2 ^ 45) (19 + 1) = _
    rw [doubleSum_succ, h19]
    exact roundDouble_eq_of_near _ 8787296929185795 41 (by norm_num) (by norm_num) (by norm_num)
      (by norm_num)
  have h21 : doubleSum (((7029837543348634 : ℕ) : ℚ) / 2 ^ 45) 21 =
      ((4613330887822542 : ℕ) : ℚ) / 2 ^ 40 := by
    show doubleSum (((7029837543348634 : ℕ) : ℚ) / 2 ^ 45) (20 + 1) = _
    rw [doubleSum_succ, h20]
    exact roundDouble_eq_of_near _ 4613330887822542 40 (by norm_num) (by norm_num) (by norm_num)
      (by norm_num)
  have h22 : doubleSum (((7029837543348634 : ℕ) : ℚ) / 2 ^ 45) 22 =
      ((4833013311052187 : ℕ) : ℚ) / 2 ^ 40 := by
    show doubleSum (((7029837543348634 : ℕ) : ℚ) / 2 ^ 45) (21 + 1) = _
    rw [doubleSum_succ, h21]
    exact roundDouble_eq_of_near _ 4833013311052187 40 (by norm_num) (by norm_num) (by norm_num)
      (by norm_num)
  have h23 : doubleSum (((7029837543348634 : ℕ) : ℚ) / 2 ^ 45) 23 =
      ((5052695734281832 : ℕ) : ℚ) / 2 ^ 40 := by
    show doubleSum (((7029837543348634 : ℕ) : ℚ) / 2 ^ 45) (22 + 1) = _
    rw [doubleSum_succ, h22]
    exact roundDouble_eq_of_near _ 5052695734281832 40 (by norm_num) (by norm_num) (by norm_num)
      (by norm_num)
  have h24 : doubleSum (((7029837543348634 : ℕ) : ℚ) / 2 ^ 45) 24 =
      ((5272378157511477 : ℕ) : ℚ) / 2 ^ 40 := by
    show doubleSum (((7029837543348634 : ℕ) : ℚ) / 2 ^ 45) (23 + 1) = _
    rw [doubleSum_succ, h23]
    exact roundDouble_eq_of_near _ 5272378157511477 40 (by norm_num) (by norm_num) (by norm_num)
      (by norm_num)
  have h25 : doubleSum (((7029837543348634 : ℕ) : ℚ) / 2 ^ 45) 25 =
      ((5492060580741122 : ℕ) : ℚ) / 2 ^ 40 := by
    show doubleSum (((7029837543348634 : ℕ) : ℚ) / 2 ^ 45) (24 + 1) = _
    rw [doubleSum_succ, h24]
    exact roundDouble_eq_of_near _ 5492060580741122 40 (by norm_num) (by norm_num) (by norm_num)
      (by norm_num)
  have h26 : doubleSum (((7029837543348634 : ℕ) : ℚ) / 2 ^ 45) 26 =
      ((5711743003970767 : ℕ) : ℚ) / 2 ^ 40 := by
    show doubleSum (((7029837543348634 : ℕ) : ℚ) / 2 ^ 45) (25 + 1) = _
    rw [doubleSum_succ, h25]
    exact roundDouble_eq_of_near _ 5711743003970767 40 (by norm_num) (by norm_num) (by norm_num)
      (by norm_num)
  have h27 : doubleSum (((7029837543348634 : ℕ) : ℚ) / 2 ^ 45) 27 =
      ((5931425427200412 : ℕ) : ℚ) / 2 ^ 40 := by
    show doubleSum (((7029837543348634 : ℕ) : ℚ) / 2 ^ 45) (26 + 1) = _
    rw [doubleSum_succ, h26]
    exact roundDouble_eq_of_near _ 5931425427200412 40 (by norm_num) (by norm_num) (by norm_num)
      (by norm_num)
  have h28 : doubleSum (((7029837543348634 : ℕ) : ℚ) / 2 ^ 45) 28 =
      ((6151107850430057 : ℕ) : ℚ) / 2 ^ 40 := by
    show doubleSum (((7029837543348634 : ℕ) : ℚ) / 2 ^ 45) (27 + 1) = _
    rw [doubleSum_succ, h27]
    exact roundDouble_eq_of_near _ 6151107850430057 40 (by norm_num) (by norm_num) (by norm_num)
      (by norm_num)
  have h29 : doubleSum (((7029837543348634 : ℕ) : ℚ) / 2 ^ 45) 29 =
      ((6370790273659702 : ℕ) : ℚ) / 2 ^ 40 := by
    show doubleSum (((7029837543348634 : ℕ) : ℚ) / 2 ^ 45) (28 + 1) = _
    rw [doubleSum_succ, h28]
    exact roundDouble_eq_of_near _ 6370790273659702 40 (by norm_num) (by norm_num) (by norm_num)
      (by norm_num)
  have h30 : doubleSum (((7029837543348634 : ℕ) : ℚ) / 2 ^ 45) 30 =
      ((6590472696889347 : ℕ) : ℚ) / 2 ^ 40 := by
    show doubleSum (((7029837543348634 : ℕ) : ℚ) / 2 ^ 45) (29 + 1) = _
    rw [doubleSum_succ, h29]
    exact roundDouble_eq_of_near _ 6590472696889347 40 (by norm_num) (by norm_num) (by norm_num)
      (by norm_num)
  have h31 : doubleSum (((7029837543348634 : ℕ) : ℚ) / 2 ^ 45) 31 =
      ((6810155120118992 : ℕ) : ℚ) / 2 ^ 40 := by
    show doubleSum (((7029837543348634 : ℕ) : ℚ) / 2 ^ 45) (30 + 1) = _
    rw [doubleSum_succ, h30]
    exact roundDouble_eq_of_near _ 6810155120118992 40 (by norm_num) (by norm_num) (by norm_num)
      (by norm_num)
  have h32 : doubleSum (((7029837543348634 : ℕ) : ℚ) / 2 ^ 45) 32 =
      ((7029837543348637 : ℕ) : ℚ) / 2 ^ 40 := by
    show doubleSum (((7029837543348634 : ℕ) : ℚ) / 2 ^ 45) (31 + 1) = _
    rw [doubleSum_succ, h31]
    exact roundDouble_eq_of_near _ 7029837543348637 40 (by norm_num) (by norm_num) (by norm_num)
      (by norm_num)
  have h33 : doubleSum (((7029837543348634 : ℕ) : ℚ) / 2 ^ 45) 33 =
      ((7249519966578282 : ℕ) : ℚ) / 2 ^ 40 := by
    show doubleSum (((7029837543348634 : ℕ) : ℚ) / 2 ^ 45) (32 + 1) = _
    rw [doubleSum_succ, h32]
    exact roundDouble_eq_of_near _ 7249519966578282 40 (by norm_num) (by norm_num) (by norm_num)
      (by norm_num)
  have h34 : doubleSum (((7029837543348634 : ℕ) : ℚ) / 2 ^ 45) 34 =
      ((7469202389807927 : ℕ) : ℚ) / 2 ^ 40 := by
    show doubleSum (((7029837543348634 : ℕ) : ℚ) / 2 ^ 45) (33 + 1) = _
    rw [doubleSum_succ, h33]
    exact roundDouble_eq_of_near _ 7469202389807927 40 (by norm_num) (by norm_num) (by norm_num)
      (by norm_num)
  have h35 : doubleSum (((7029837543348634 : ℕ) : ℚ) / 2 ^ 45) 35 =
      ((7688884813037572 : ℕ) : ℚ) / 2 ^ 40 := by
    show doubleSum (((7029837543348634 : ℕ) : ℚ) / 2 ^ 45) (34 + 1) = _
    rw [doubleSum_succ, h34]
    exact roundDouble_eq_of_near _ 7688884813037572 40 (by norm_num) (by norm_num) (by norm_num)
      (by norm_num)
  have h36 : doubleSum (((7029837543348634 : ℕ) : ℚ) / 2 ^ 45) 36 =
      ((7908567236267217 : ℕ) : ℚ) / 2 ^ 40 := by
    show doubleSum (((7029837543348634 : ℕ) : ℚ) / 2 ^ 45) (35 + 1) = _
    rw [doubleSum_succ, h35]
    exact roundDouble_eq_of_near _ 7908567236267217 40 (by norm_num) (by norm_num) (by norm_num)
      (by norm_num)
  have h37 : doubleSum (((7029837543348634 : ℕ) : ℚ) / 2 ^ 45) 37 =
      ((8128249659496862 : ℕ) : ℚ) / 2 ^ 40 := by
    show doubleSum (((7029837543348634 : ℕ) : ℚ) / 2 ^ 45) (36 + 1) = _
    rw [doubleSum_succ, h36]
    exact roundDouble_eq_of_near _ 8128249659496862 40 (by norm_num) (by norm_num) (by norm_num)
      (by norm_num)
  have h38 : doubleSum (((7029837543348634 : ℕ) : ℚ) / 2 ^ 45) 38 =
      ((8347932082726507 : ℕ) : ℚ) / 2 ^ 40 := by
    show doubleSum (((7029837543348634 : ℕ) : ℚ) / 2 ^ 45) (37 + 1) = _
    rw [doubleSum_succ, h37]
    exact roundDouble_eq_of_near _ 8347932082726507 40 (by norm_num) (by norm_num) (by norm_num)
      (by norm_num)
  have h39 : doubleSum (((7029837543348634 : ℕ) : ℚ) / 2 ^ 45) 39 =
      ((8567614505956152 : ℕ) : ℚ) / 2 ^ 40 := by
    show doubleSum (((7029837543348634 : ℕ) : ℚ) / 2 ^ 45) (38 + 1) = _
    rw [doubleSum_succ, h38]
    exact roundDouble_eq_of_near _ 8567614505956152 40 (by norm_num) (by norm_num) (by norm_num)
      (by norm_num)
  have h40 : doubleSum (((7029837543348634 : ℕ) : ℚ) / 2 ^ 45) 40 =
      ((8787296929185797 : ℕ) : ℚ) / 2 ^ 40 := by
    show doubleSum (((7029837543348634 : ℕ) : ℚ) / 2 ^ 45) (39 + 1) = _
    rw [doubleSum_succ, h39]
    exact roundDouble_eq_of_near _ 8787296929185797 40 (by norm_num) (by norm_num) (by norm_num)
      (by norm_num)
  have h41 : doubleSum (((7029837543348634 : ℕ) : ℚ) / 2 ^ 45) 41 =
      ((9006979352415442 : ℕ) : ℚ) / 2 ^ 40 := by
    show doubleSum (((7029837543348634 : ℕ) : ℚ) / 2 ^ 45) (40 + 1) = _
    rw [doubleSum_succ, h40]
    exact roundDouble_eq_of_near _ 9006979352415442 40 (by norm_num) (by norm_num) (by norm_num)
      (by norm_num)
  have h42 : doubleSum (((7029837543348634 : ℕ) : ℚ) / 2 ^ 45) 42 =
      ((4613330887822543 : ℕ) : ℚ) / 2 ^ 39 := by
    show doubleSum (((7029837543348634 : ℕ) : ℚ) / 2 ^ 45) (41 + 1) = _
    rw [doubleSum_succ, h41]
    exact roundDouble_eq_of_near _ 4613330887822543 39 (by norm_num) (by norm_num) (by norm_num)
      (by norm_num)
  have h43 : doubleSum (((7029837543348634 : ℕ) : ℚ) / 2 ^ 45) 43 =
      ((4723172099437365 : ℕ) : ℚ) / 2 ^ 39 := by
    show doubleSum (((7029837543348634 : ℕ) : ℚ) / 2 ^ 45) (42 + 1) = _
    rw [doubleSum_succ, h42]
    exact roundDouble_eq_of_near _ 4723172099437365 39 (by norm_num) (by norm_num) (by norm_num)
      (by norm_num)
  have h44 : doubleSum (((7029837543348634 : ℕ) : ℚ) / 2 ^ 45) 44 =
      ((4833013311052187 : ℕ) : ℚ) / 2 ^ 39 := by
    show doubleSum (((7029837543348634 : ℕ) : ℚ) / 2 ^ 45) (43 + 1) = _
    rw [doubleSum_succ, h43]
    exact roundDouble_eq_of_near _ 4833013311052187 39 (by norm_num) (by norm_num) (by norm_num)
      (by norm_num)
  have h45 : doubleSum (((7029837543348634 : ℕ) : ℚ) / 2 ^ 45) 45 =
      ((4942854522667009 : ℕ) : ℚ) / 2 ^ 39 := by
    show doubleSum (((7029837543348634 : ℕ) : ℚ) / 2 ^ 45) (44 + 1) = _
    rw [doubleSum_succ, h44]
    exact roundDouble_eq_of_near _ 4942854522667009 39 (by norm_num) (by norm_num) (by norm_num)
      (by norm_num)
  have h46 : doubleSum (((7029837543348634 : ℕ) : ℚ) / 2 ^ 45) 46 =
      ((5052695734281831 : ℕ) : ℚ) / 2 ^ 39 := by
    show doubleSum (((7029837543348634 : ℕ) : ℚ) / 2 ^ 45) (45 + 1) = _
    rw [doubleSum_succ, h45]
    exact roundDouble_eq_of_near _ 5052695734281831 39 (by norm_num) (by norm_num) (by norm_num)
      (by norm_num)
  have h47 : doubleSum (((7029837543348634 : ℕ) : ℚ) / 2 ^ 45) 47 =
      ((5162536945896653 : ℕ) : ℚ) / 2 ^ 39 := by
    show doubleSum (((7029837543348634 : ℕ) : ℚ) / 2 ^ 45) (46 + 1) = _
    rw [doubleSum_succ, h46]
    exact roundDouble_eq_of_near _ 5162536945896653 39 (by norm_num) (by norm_num) (by norm_num)
      (by norm_num)
  have h48 : doubleSum (((7029837543348634 : ℕ) : ℚ) / 2 ^ 45) 48 =
      ((5272378157511475 : ℕ) : ℚ) / 2 ^ 39 := by
    show doubleSum (((7029837543348634 : ℕ) : ℚ) / 2 ^ 45) (47 + 1) = _
    rw [doubleSum_succ, h47]
    exact roundDouble_eq_of_near _ 5272378157511475 39 (by norm_num) (by norm_num) (by norm_num)
      (by norm_num)
  have h49 : doubleSum (((7029837543348634 : ℕ) : ℚ) / 2 ^ 45) 49 =
      ((5382219369126297 : ℕ) : ℚ) / 2 ^ 39 := by
    show doubleSum (((7029837543348634 : ℕ) : ℚ) / 2 ^ 45) (48 + 1) = _
    rw [doubleSum_succ, h48]
    exact roundDouble_eq_of_near _ 5382219369126297 39 (by norm_num) (by norm_num) (by norm_num)
      (by norm_num)
  have h50 : doubleSum (((7029837543348634 : ℕ) : ℚ) / 2 ^ 45) 50 =
      ((5492060580741119 : ℕ) : ℚ) / 2 ^ 39 := by
    show doubleSum (((7029837543348634 : ℕ) : ℚ) / 2 ^ 45) (49 + 1) = _
    rw [doubleSum_succ, h49]
    exact roundDouble_eq_of_near _ 5492060580741119 39 (by norm_num) (by norm_num) (by norm_num)
      (by norm_num)
  exact h50

/-- A whole number below `2 ^ 53` is a double. -/
theorem roundDouble_natCast (N : Nat) (hN : N < 2 ^ 53) : roundDouble (N : ℚ) = N := by
  rcases Nat.eq_zero_or_pos N with h0 | hpos
  · subst h0
    simpa using roundDouble_zero
  · have hlo : 2 ^ Nat.log 2 N ≤ N := Nat.pow_log_le_self 2 (by omega)
    have hhi : N < 2 ^ (Nat.log 2 N + 1) := Nat.lt_pow_succ_log_self (by norm_num) N
    have hl : Nat.log 2 N ≤ 52 := by
      have : 2 ^ Nat.log 2 N < 2 ^ 53 := lt_of_le_of_lt hlo hN
      have := (Nat.pow_lt_pow_iff_right (by norm_num : 1 < 2)).mp this
      omega
    have hsplit : 2 ^ 52 = 2 ^ Nat.log 2 N * 2 ^ (52 - Nat.log 2 N) := by
      rw [← pow_add]
      congr 1
      omega
    have hsplit' : 2 ^ 53 = 2 ^ (Nat.log 2 N + 1) * 2 ^ (52 - Nat.log 2 N) := by
      rw [← pow_add]
      congr 1
      omega
    have hpp : 0 < 2 ^ (52 - Nat.log 2 N) := by positivity
    have h1 : 2 ^ 52 ≤ N * 2 ^ (52 - Nat.log 2 N) := by
      rw [hsplit]
      exact Nat.mul_le_mul_right _ hlo
    have h2 : N * 2 ^ (52 - Nat.log 2 N) < 2 ^ 53 := by
      rw [hsplit']
      exact Nat.mul_lt_mul_of_pos_right hhi hpp
    have h1q : (2 : ℚ) ^ 52 ≤ (N : ℚ) * 2 ^ (52 - Nat.log 2 N) := by exact_mod_cast h1
    rw [roundDouble_eq_of_near (N : ℚ) (N * 2 ^ (52 - Nat.log 2 N)) (52 - Nat.log 2 N) h2 h1q
      (by push_cast; linarith) (by push_cast; linarith)]
    push_cast
    field_simp

theorem floor_9990 :
    (Rat.floor (((5492060580741119 : ℕ) : ℚ) / 2 ^ 39)).toNat = 9989 := by
  have h : Rat.floor (((5492060580741119 : ℕ) : ℚ) / 2 ^ 39) = 9989 := by
    show ⌊((5492060580741119 : ℕ) : ℚ) / 2 ^ 39⌋ = 9989
    rw [Int.floor_eq_iff]
    constructor <;> norm_num
  rw [h]
  rfl

/-- C10, as stated, fails: for the price text `9,990원` the counter, after the
50 ticks in which exact arithmetic would reach 9990, is still running on a
value below 9990 that is not `50 * (9990 / 50)`, and the element shows 9,989. -/
theorem price_counter_counterexample :
    parsePrice "9,990원" = some 9990 ∧
    ∃ c : PriceCounter, (priceAfterTicks "9,990원" 50).counters = [c] ∧
      c.running = true ∧ c.currentPrice < 9990 ∧
      c.currentPrice ≠ 50 * ((9990 : ℚ) / 50) ∧
      parsePrice (priceAfterTicks "9,990원" 50).textContent = some 9989 := by
  have hN : parsePrice "9,990원" = some 9990 := by decide
  have hlt : doubleSum (roundDouble (((9990 : ℕ) : ℚ) / 50)) 50 < ((9990 : ℕ) : ℚ) := by
    rw [increment_9990, doubleSum_9990]
    norm_num
  refine ⟨hN, ?_⟩
  have hshown := priceAfterTicks_shown "9,990원" 9990 hN 50 (by norm_num)
  rw [if_pos hlt, increment_9990, doubleSum_9990, floor_9990] at hshown
  have hstate := priceAfterTicks_eq "9,990원" 9990 hN 50
  have hor : (50 = 0) ∨ doubleSum (roundDouble (((9990 : ℕ) : ℚ) / 50)) 50 < ((9990 : ℕ) : ℚ) :=
    Or.inr hlt
  refine ⟨_, congrArg PriceElement.counters hstate, decide_eq_true hor, ?_, ?_, hshown⟩
  · show (if _ then _ else _) < _
    rw [if_pos hor]
    exact_mod_cast hlt
  · show (if _ then _ else _) ≠ _
    rw [if_pos hor, increment_9990, doubleSum_9990]
    norm_num

/-- C10 (amended): for every price text whose digits form a number `N` below
`2 ^ 53`, in double arithmetic: (1) `N` is a double; after every number `k` of
elapsed timers the element has one counter, with target `N` and with the
double nearest to `N / 50` as increment, which while running holds the sum of
`k` double additions of the increment from 0, and once cleared holds `N`;
(2) each displayed text is a formatted number followed by `원`, the number it
shows is at most the number shown one tick later, and no number shown exceeds
`N`; (3) by some tick `k ≤ 51` the number shown is `N` and the interval is
cleared, and so it stays; (4) over every sequence of observer callbacks and
timer events in which the observer reports only while it observes the
element, at most one interval is ever started. -/
theorem price_counter_spec (text : String) (N : Nat) (hN : parsePrice text = some N)
    (hbound : N < 2 ^ 53) (events : List PriceEvent)
    (hok : priceTraceOk (PriceElement.initial text) events = true) :
    (roundDouble (N : ℚ) = N ∧
      ∀ k : Nat, ∃ c : PriceCounter,
        (priceAfterTicks text k).counters = [c] ∧ c.numericPrice = some N ∧
        c.increment = roundDouble ((N : ℚ) / 50) ∧
        (k = 0 → c.running = true) ∧
        (c.running = true → c.currentPrice = doubleSum (roundDouble ((N : ℚ) / 50)) k) ∧
        (c.running = false → c.currentPrice = N)) ∧
    (∀ k : Nat, 1 ≤ k → ∃ d d' : Nat,
      (priceAfterTicks text k).textContent = toLocaleString d ++ "원" ∧
      parsePrice (priceAfterTicks text k).textContent = some d ∧
      parsePrice (priceAfterTicks text (k + 1)).textContent = some d' ∧
      d ≤ d' ∧ d' ≤ N) ∧
    (∃ k : Nat, 1 ≤ k ∧ k ≤ 51 ∧ ∀ j : Nat, k ≤ j →
      parsePrice (priceAfterTicks text j).textContent = some N ∧
      ∀ c ∈ (priceAfterTicks text j).counters, c.running = false) ∧
    (priceRun (PriceElement.initial text) events).counters.length ≤ 1 := by
  have hinc : 0 ≤ roundDouble ((N : ℚ) / 50) := roundDouble_nonneg _ (by positivity)
  refine ⟨⟨roundDouble_natCast N hbound, ?_⟩, ?_, ?_, ?_⟩
  · intro k
    rw [priceAfterTicks_eq text N hN k]
    refine ⟨_, rfl, rfl, rfl, ?_, ?_, ?_⟩
    · intro hk
      exact decide_eq_true (Or.inl hk)
    · intro hrun
      have hor := of_decide_eq_true hrun
      show (if _ then _ else _) = _
      rw [if_pos hor]
    · intro hrun
      have hnor := of_decide_eq_false hrun
      show (if _ then _ else _) = _
      rw [if_neg hnor]
  · intro k hk
    have hk0 : k ≠ 0 := by omega
    have h1 := priceAfterTicks_shown text N hN k hk0
    have h2 := priceAfterTicks_shown text N hN (k + 1) (Nat.succ_ne_zero k)
    have hmono := doubleSum_le_succ (roundDouble ((N : ℚ) / 50)) hinc k
    refine ⟨_, _, ?_, h1, h2, ?_, ?_⟩
    · rw [priceAfterTicks_eq text N hN k]
      show (if k = 0 then text else _) = _
      rw [if_neg hk0]
      split <;> rfl
    · by_cases hlt' : doubleSum (roundDouble ((N : ℚ) / 50)) (k + 1) < N
      · have hlt : doubleSum (roundDouble ((N : ℚ) / 50)) k < N := lt_of_le_of_lt hmono hlt'
        rw [if_pos hlt, if_pos hlt']
        exact floor_toNat_mono _ _ hmono
      · rw [if_neg hlt']
        split
        · rename_i hlt
          exact floor_toNat_le _ N (le_of_lt hlt)
        · exact le_refl N
    · split
      · rename_i hlt'
        exact floor_toNat_le _ N (le_of_lt hlt')
      · exact le_refl N
  · refine ⟨51, by norm_num, le_refl 51, ?_⟩
    intro j hj
    have hj0 : j ≠ 0 := by omega
    have hreach : ¬ doubleSum (roundDouble ((N : ℚ) / 50)) j < N := by
      have h51 := doubleSum_reaches N
      have := doubleSum_mono (roundDouble ((N : ℚ) / 50)) hinc hj
      exact not_lt.mpr (le_trans h51 this)
    constructor
    · rw [priceAfterTicks_shown text N hN j hj0, if_neg hreach]
    · rw [priceAfterTicks_eq text N hN j]
      intro c hc
      simp only [List.mem_singleton] at hc
      subst hc
      apply decide_eq_false
      rintro (h | h)
      · exact hj0 h
      · exact hreach h
  · exact priceRun_counters events _ (by simp [PriceElement.initial])
      (fun _ => rfl) hok

/-- Witness for C10 (amended): the price text `13,900원`; the element is
reported out of view, then in view, and two timers of its interval elapse. -/
theorem price_counter_spec_witness :
    (parsePrice "13,900원" = some 13900 ∧ 13900 < 2 ^ 53) ∧
    (roundDouble ((13900 : ℕ) : ℚ) = (13900 : ℕ) ∧
      ∀ k : Nat, ∃ c : PriceCounter,
        (priceAfterTicks "13,900원" k).counters = [c] ∧ c.numericPrice = some 13900 ∧
        c.increment = roundDouble (((13900 : ℕ) : ℚ) / 50) ∧
        (k = 0 → c.running = true) ∧
        (c.running = true →
          c.currentPrice = doubleSum (roundDouble (((13900 : ℕ) : ℚ) / 50)) k) ∧
        (c.running = false → c.currentPrice = (13900 : ℕ))) ∧
    (∀ k : Nat, 1 ≤ k → ∃ d d' : Nat,
      (priceAfterTicks "13,900원" k).textContent = toLocaleString d ++ "원" ∧
      parsePrice (priceAfterTicks "13,900원" k).textContent = some d ∧
      parsePrice (priceAfterTicks "13,900원" (k + 1)).textContent = some d' ∧
      d ≤ d' ∧ d' ≤ 13900) ∧
    (∃ k : Nat, 1 ≤ k ∧ k ≤ 51 ∧ ∀ j : Nat, k ≤ j →
      parsePrice (priceAfterTicks "13,900원" j).textContent = some 13900 ∧
      ∀ c ∈ (priceAfterTicks "13,900원" j).counters, c.running = false) ∧
    (priceRun (PriceElement.initial "13,900원")
      [.intersection false, .intersection true, .interval 0, .interval 0]).counters.length ≤ 1 :=
  ⟨⟨by decide, by norm_num⟩,
    price_counter_spec "13,900원" 13900 (by decide) (by norm_num)
      [.intersection false, .intersection true, .interval 0, .interval 0] (by decide)⟩

/-! ## Theorems: scroll reveal -/

theorem keepsReveal_refl (el : AnimElement) : keepsReveal el el :=
  ⟨id, id, id⟩

theorem keepsReveal_trans {a b c : AnimElement} (h1 : keepsReveal a b) (h2 : keepsReveal b c) :
    keepsReveal a c :=
  ⟨fun h => h2.1 (h1.1 h), fun h => h2.2.1 (h1.2.1 h), fun h => h2.2.2 (h1.2.2 h)⟩

theorem mem_classListAdd_of_mem (classList : List String) (token t : String)
    (h : t ∈ classList) : t ∈ classListAdd classList token := by
  unfold classListAdd
  split
  · exact h
  · simp [h]

theorem keepsReveal_showElement (el : AnimElement) : keepsReveal el (showElement el) :=
  ⟨id, fun _ => rfl, fun _ => rfl⟩

/-- No step body takes `visible` or the reveal styles away from any element. -/
theorem revealEntry_keeps (s : RevealState) (entry : Nat × Bool) (t : Nat) (el : AnimElement)
    (h : s.elements[t]? = some el) :
    ∃ el', (revealEntry s entry).elements[t]? = some el' ∧ keepsReveal el el' := by
  unfold revealEntry
  split
  · split
    · exact ⟨el, h, keepsReveal_refl el⟩
    · rename_i target hget
      have hlt : t < s.elements.length := by
        rcases Nat.lt_or_ge t s.elements.length with hl | hl
        · exact hl
        · rw [List.getElem?_eq_none hl] at h
          cases h
      have hadd : keepsReveal target
          { target with classList := classListAdd target.classList "visible" } :=
        ⟨fun hv => mem_classListAdd_of_mem _ _ _ hv, id, id⟩
      by_cases hte : entry.1 = t
      · subst hte
        rw [h] at hget
        cases hget
        simp only
        split
        · exact ⟨_, by simp [List.getElem?_set, hlt], hadd⟩
        · exact ⟨_, by simp [List.getElem?_set, hlt],
            keepsReveal_trans hadd (keepsReveal_showElement _)⟩
      · simp only
        split
        · exact ⟨el, by simp [List.getElem?_set, hte, h], keepsReveal_refl el⟩
        · exact ⟨el, by simp [List.getElem?_set, hte, h], keepsReveal_refl el⟩
  · exact ⟨el, h, keepsReveal_refl el⟩

theorem revealCallback_keeps (entries : List (Nat × Bool)) (s : RevealState) (t : Nat)
    (el : AnimElement) (h : s.elements[t]? = some el) :
    ∃ el', (revealCallback s entries).elements[t]? = some el' ∧ keepsReveal el el' := by
  induction entries generalizing s el with
  | nil => exact ⟨el, h, keepsReveal_refl el⟩
  | cons entry rest ih =>
    obtain ⟨el1, h1, k1⟩ := revealEntry_keeps s entry t el h
    obtain ⟨el2, h2, k2⟩ := ih (revealEntry s entry) el1 h1
    exact ⟨el2, h2, keepsReveal_trans k1 k2⟩

theorem revealTimerFire_keeps (s : RevealState) (k : Nat) (t : Nat) (el : AnimElement)
    (h : s.elements[t]? = some el) :
    ∃ el', (revealTimerFire s k).elements[t]? = some el' ∧ keepsReveal el el' := by
  unfold revealTimerFire
  split
  · exact ⟨el, h, keepsReveal_refl el⟩
  · rename_i timer _
    simp only [List.getElem?_modify, h, Option.map_some', Option.map_eq_map]
    by_cases hte : timer.target = t
    · exact ⟨showElement el, by simp [hte], keepsReveal_showElement el⟩
    · exact ⟨el, by simp [hte], keepsReveal_refl el⟩

theorem revealStep_keeps (s : RevealState) (ev : RevealEvent) (t : Nat) (el : AnimElement)
    (h : s.elements[t]? = some el) :
    ∃ el', (revealStep s ev).elements[t]? = some el' ∧ keepsReveal el el' := by
  cases ev with
  | callback entries => exact revealCallback_keeps entries s t el h
  | timer k => exact revealTimerFire_keeps s k t el h

theorem revealRun_keeps (events : List RevealEvent) (s : RevealState) (t : Nat)
    (el : AnimElement) (h : s.elements[t]? = some el) :
    ∃ el', (revealRun s events).elements[t]? = some el' ∧ keepsReveal el el' := by
  induction events generalizing s el with
  | nil => exact ⟨el, h, keepsReveal_refl el⟩
  | cons ev rest ih =>
    obtain ⟨el1, h1, k1⟩ := revealStep_keeps s ev t el h
    obtain ⟨el2, h2, k2⟩ := ih (revealStep s ev) el1 h1
    exact ⟨el2, h2, keepsReveal_trans k1 k2⟩

theorem revealRun_append (s : RevealState) (es fs : List RevealEvent) :
    revealRun s (es ++ fs) = revealRun (revealRun s es) fs := by
  simp [revealRun, List.foldl_append]

theorem revealEntry_skip (s : RevealState) (entry : Nat × Bool)
    (h : entry.2 = false ∨ s.elements[entry.1]? = none) : revealEntry s entry = s := by
  unfold revealEntry
  rcases h with h | h
  · simp [h]
  · split
    · rw [h]
    · rfl

theorem revealEntry_fields (s : RevealState) (entry : Nat × Bool) (el : AnimElement)
    (hb : entry.2 = true) (h : s.elements[entry.1]? = some el) :
    (revealEntry s entry).revealed = s.revealed ++ [entry.1] ∧
    (revealEntry s entry).observed = s.observed.filter (fun t => t != entry.1) ∧
    ∃ el', (revealEntry s entry).elements[entry.1]? = some el' ∧ "visible" ∈ el'.classList := by
  have hlt : entry.1 < s.elements.length := by
    rcases Nat.lt_or_ge entry.1 s.elements.length with hl | hl
    · exact hl
    · rw [List.getElem?_eq_none hl] at h
      cases h
  unfold revealEntry
  rw [if_pos hb, h]
  simp only
  split
  · exact ⟨rfl, rfl, { el with classList := classListAdd el.classList "visible" },
      by simp [List.getElem?_set, hlt], mem_classListAdd _ _⟩
  · exact ⟨rfl, rfl, showElement { el with classList := classListAdd el.classList "visible" },
      by simp [List.getElem?_set, hlt], mem_classListAdd _ _⟩

/-- One entry for an observed target keeps the invariant, and leaves every
other target observed. -/
theorem revealEntry_inv (s : RevealState) (entry : Nat × Bool) (hinv : RevealInv s)
    (hobs : entry.1 ∈ s.observed) :
    RevealInv (revealEntry s entry) ∧
    (∀ u : Nat, u ≠ entry.1 → u ∈ s.observed → u ∈ (revealEntry s entry).observed) := by
  by_cases hskip : entry.2 = false ∨ s.elements[entry.1]? = none
  · rw [revealEntry_skip s entry hskip]
    exact ⟨hinv, fun _ _ h => h⟩
  · push_neg at hskip
    obtain ⟨hb, hsome⟩ := hskip
    have hb' : entry.2 = true := by simpa using hb
    obtain ⟨el, hel⟩ := Option.ne_none_iff_exists'.mp hsome
    obtain ⟨hrev, hob, el', hel', hvis⟩ := revealEntry_fields s entry el hb' hel
    obtain ⟨hcount, hfresh, hclass⟩ := hinv
    have hnot : entry.1 ∉ s.revealed := hfresh _ hobs
    refine ⟨⟨?_, ?_, ?_⟩, ?_⟩
    · intro t
      rw [hrev, List.count_append]
      by_cases ht : t = entry.1
      · subst ht
        rw [List.count_eq_zero_of_not_mem hnot]
        simp
      · have : List.count t [entry.1] = 0 := by
          rw [List.count_eq_zero]
          simpa using ht
        rw [this]
        exact hcount t
    · intro t ht
      rw [hob, List.mem_filter] at ht
      rw [hrev, List.mem_append, List.mem_singleton]
      rintro (h | h)
      · exact hfresh t ht.1 h
      · simp [h] at ht
    · intro t ht
      rw [hrev, List.mem_append, List.mem_singleton] at ht
      rcases ht with h | h
      · obtain ⟨e0, he0, hv0⟩ := hclass t h
        obtain ⟨e1, he1, hk⟩ := revealEntry_keeps s entry t e0 he0
        exact ⟨e1, he1, hk.1 hv0⟩
      · subst h
        exact ⟨el', hel', hvis⟩
    · intro u hu hmem
      rw [hob, List.mem_filter]
      exact ⟨hmem, by simpa using hu⟩

theorem revealCallback_inv (entries : List (Nat × Bool)) (s : RevealState)
    (hinv : RevealInv s) (hobs : ∀ entry ∈ entries, entry.1 ∈ s.observed)
    (hnodup : (entries.map Prod.fst).Nodup) : RevealInv (revealCallback s entries) := by
  induction entries generalizing s with
  | nil => exact hinv
  | cons entry rest ih =>
    obtain ⟨hinv1, hkeep⟩ := revealEntry_inv s entry hinv (hobs entry (by simp))
    rw [List.map_cons, List.nodup_cons] at hnodup
    refine ih (revealEntry s entry) hinv1 ?_ hnodup.2
    intro e he
    refine hkeep e.1 ?_ (hobs e (by simp [he]))
    intro heq
    exact hnodup.1 (by rw [← heq]; exact List.mem_map_of_mem Prod.fst he)

theorem revealTimerFire_inv (s : RevealState) (k : Nat) (hinv : RevealInv s) :
    RevealInv (revealTimerFire s k) := by
  obtain ⟨hcount, hfresh, hclass⟩ := hinv
  have hrev : (revealTimerFire s k).revealed = s.revealed ∧
      (revealTimerFire s k).observed = s.observed := by
    unfold revealTimerFire
    split <;> exact ⟨rfl, rfl⟩
  refine ⟨?_, ?_, ?_⟩
  · rw [hrev.1]
    exact hcount
  · rw [hrev.1, hrev.2]
    exact hfresh
  · rw [hrev.1]
    intro t ht
    obtain ⟨e0, he0, hv0⟩ := hclass t ht
    obtain ⟨e1, he1, hk⟩ := revealTimerFire_keeps s k t e0 he0
    exact ⟨e1, he1, hk.1 hv0⟩

theorem revealRun_inv (events : List RevealEvent) (s : RevealState) (hinv : RevealInv s)
    (hok : revealTraceOk s events = true) : RevealInv (revealRun s events) := by
  induction events generalizing s with
  | nil => exact hinv
  | cons ev rest ih =>
    cases ev with
    | callback entries =>
      simp only [revealTraceOk, batchOk, Bool.and_eq_true, List.all_eq_true,
        decide_eq_true_eq] at hok
      obtain ⟨⟨hall, hnodup⟩, hrest⟩ := hok
      refine ih (revealStep s (.callback entries)) ?_ hrest
      exact revealCallback_inv entries s hinv
        (fun e he => by simpa using hall e he) hnodup
    | timer k =>
      simp only [revealTraceOk] at hok
      exact ih (revealStep s (.timer k)) (revealTimerFire_inv s k hinv) hok

/-- C8 (scroll reveal): on every page, over every sequence of observer
callbacks and timer events in which each batch holds at most one entry per
target and only entries for targets observed when it is delivered,
(1) the reveal body runs at most once for each target; (2) a target it has run
for is no longer observed and carries the class `visible`; (3) whatever `visible`
class, opacity `1` and transform `translateY(0)` an element has at some point of
the sequence, it still has at the end. -/
theorem reveal_once_and_kept (page : List AnimElement) (events : List RevealEvent)
    (hok : revealTraceOk (setupScrollAnimations page) events = true) :
    (∀ t : Nat, (revealRun (setupScrollAnimations page) events).revealed.count t ≤ 1) ∧
    (∀ t ∈ (revealRun (setupScrollAnimations page) events).revealed,
      t ∉ (revealRun (setupScrollAnimations page) events).observed ∧
      ∃ el, (revealRun (setupScrollAnimations page) events).elements[t]? = some el ∧
        "visible" ∈ el.classList) ∧
    (∀ (es fs : List RevealEvent), events = es ++ fs →
      ∀ (t : Nat) (el : AnimElement),
        (revealRun (setupScrollAnimations page) es).elements[t]? = some el →
        ∃ el', (revealRun (setupScrollAnimations page) events).elements[t]? = some el' ∧
          keepsReveal el el') := by
  have hinit : RevealInv (setupScrollAnimations page) :=
    ⟨fun t => by simp [setupScrollAnimations], fun t _ h => by
      simp [setupScrollAnimations] at h, fun t h => by simp [setupScrollAnimations] at h⟩
  obtain ⟨hcount, hfresh, hclass⟩ := revealRun_inv events _ hinit hok
  refine ⟨hcount, ?_, ?_⟩
  · intro t ht
    exact ⟨fun hobs => hfresh t hobs ht, hclass t ht⟩
  · intro es fs hsplit t el hel
    rw [hsplit, revealRun_append]
    exact revealRun_keeps fs _ t el hel

/-- Witness for C8: the card and the plain target of the small page are
revealed in two batches, then the card's staggered timer elapses. -/
theorem reveal_once_and_kept_witness :
    (∀ t : Nat, (revealRun (setupScrollAnimations revealPage)
      [.callback [(0, false), (1, true)], .callback [(0, true)], .timer 0]).revealed.count t ≤ 1) ∧
    (∀ t ∈ (revealRun (setupScrollAnimations revealPage)
        [.callback [(0, false), (1, true)], .callback [(0, true)], .timer 0]).revealed,
      t ∉ (revealRun (setupScrollAnimations revealPage)
        [.callback [(0, false), (1, true)], .callback [(0, true)], .timer 0]).observed ∧
      ∃ el, (revealRun (setupScrollAnimations revealPage)
        [.callback [(0, false), (1, true)], .callback [(0, true)], .timer 0]).elements[t]? =
          some el ∧ "visible" ∈ el.classList) ∧
    (∀ (es fs : List RevealEvent),
      [RevealEvent.callback [(0, false), (1, true)], .callback [(0, true)], .timer 0] = es ++ fs →
      ∀ (t : Nat) (el : AnimElement),
        (revealRun (setupScrollAnimations revealPage) es).elements[t]? = some el →
        ∃ el', (revealRun (setupScrollAnimations revealPage)
          [.callback [(0, false), (1, true)], .callback [(0, true)], .timer 0]).elements[t]? =
            some el' ∧ keepsReveal el el') :=
  reveal_once_and_kept revealPage
    [.callback [(0, false), (1, true)], .callback [(0, true)], .timer 0] (by decide)

/-! ## Theorems: FAQ click -/

/-- C12: for every FAQ state and every question `q` of the page, a click on
`q` leaves the entries in place and toggles its answer: if the answer was not
shown (`display` other than `block`), afterwards it is `block`, its question
is `active`, and every other answer is `none`; if it was shown, afterwards
every answer, its own included, is `none`. -/
theorem faq_click_toggles (items : List FaqItem) (q : Nat) (item : FaqItem)
    (hq : items[q]? = some item) :
    (clickFaqQuestion items q).length = items.length ∧
    (item.answerDisplay ≠ "block" →
      (clickFaqQuestion items q)[q]? = some ⟨true, "block"⟩ ∧
      ∀ (j : Nat) (other : FaqItem), j ≠ q → (clickFaqQuestion items q)[j]? = some other →
        other = ⟨false, "none"⟩) ∧
    (item.answerDisplay = "block" →
      ∀ (j : Nat) (other : FaqItem), (clickFaqQuestion items q)[j]? = some other →
        other = ⟨false, "none"⟩) := by
  have hlt : q < items.length := by
    rcases Nat.lt_or_ge q items.length with h | h
    · exact h
    · rw [List.getElem?_eq_none h] at hq
      cases hq
  have hclosed : ∀ (j : Nat) (other : FaqItem), (closeAllFaq items)[j]? = some other →
      other = ⟨false, "none"⟩ := by
    intro j other h
    unfold closeAllFaq at h
    rw [List.getElem?_map] at h
    cases hj : items[j]? with
    | none => simp [hj] at h
    | some x =>
      simp only [hj, Option.map_some', Option.some.injEq] at h
      exact h.symm
  refine ⟨clickFaqQuestion_length items q, ?_, ?_⟩
  · intro hhidden
    have hopen : (item.answerDisplay == "block") = false := by simpa using hhidden
    have hclick : clickFaqQuestion items q = (closeAllFaq items).set q ⟨true, "block"⟩ := by
      unfold clickFaqQuestion
      rw [hq]
      simp [hopen]
    rw [hclick]
    constructor
    · simp [List.getElem?_set, closeAllFaq_length, hlt]
    · intro j other hj h
      rw [List.getElem?_set_ne (Ne.symm hj)] at h
      exact hclosed j other h
  · intro hshown
    have hopen : (item.answerDisplay == "block") = true := by simpa using hshown
    have hclick : clickFaqQuestion items q = closeAllFaq items := by
      unfold clickFaqQuestion
      rw [hq]
      simp [hopen]
    rw [hclick]
    exact hclosed

/-- Witness for C12: the second of three entries, closed at first. -/
theorem faq_click_toggles_witness :
    [FaqItem.mk true "block", ⟨false, ""⟩, ⟨false, "none"⟩][1]? = some ⟨false, ""⟩ ∧
    (clickFaqQuestion [⟨true, "block"⟩, ⟨false, ""⟩, ⟨false, "none"⟩] 1).length = 3 ∧
    ((FaqItem.mk false "").answerDisplay ≠ "block" →
      (clickFaqQuestion [⟨true, "block"⟩, ⟨false, ""⟩, ⟨false, "none"⟩] 1)[1]? =
        some ⟨true, "block"⟩ ∧
      ∀ (j : Nat) (other : FaqItem), j ≠ 1 →
        (clickFaqQuestion [⟨true, "block"⟩, ⟨false, ""⟩, ⟨false, "none"⟩] 1)[j]? = some other →
        other = ⟨false, "none"⟩) ∧
    ((FaqItem.mk false "").answerDisplay = "block" →
      ∀ (j : Nat) (other : FaqItem),
        (clickFaqQuestion [⟨true, "block"⟩, ⟨false, ""⟩, ⟨false, "none"⟩] 1)[j]? = some other →
        other = ⟨false, "none"⟩) :=
  ⟨by decide, faq_click_toggles [⟨true, "block"⟩, ⟨false, ""⟩, ⟨false, "none"⟩] 1 ⟨false, ""⟩
    (by decide)⟩

/-! ## Theorems: keyboard navigation -/

theorem keydown_arrow (s : KeyState) (i : Nat) (key : String)
    (hf : s.focused = some i) (hi : i < s.page.sizeOptions.length)
    (hkey : key = "ArrowLeft" ∨ key = "ArrowRight") :
    keydown s key =
      { s with focused := some (nextFocusIndex s.page.sizeOptions.length i key) } := by
  have hnext : nextFocusIndex s.page.sizeOptions.length i key < s.page.sizeOptions.length := by
    unfold nextFocusIndex
    split <;> split <;> omega
  have hne : ¬ (key = "Enter" ∨ key = " ") := by
    rcases hkey with h | h <;> subst h <;> decide
  have hesc : ¬ key = "Escape" := by
    rcases hkey with h | h <;> subst h <;> decide
  unfold keydown
  rw [hf]
  simp only [sizeOptionKeydown, if_neg hne, documentKeydown, if_neg hesc, if_pos hkey, hf,
    if_pos hnext]

/-- C11: for every non-empty list of `n` size options and every focused option
at index `i`, ArrowRight moves the focus to index `(i + 1) mod n` and
ArrowLeft to index `(i - 1) mod n`, both of them indices of the list, and
neither key changes the page: the same option, if any, is active afterwards. -/
theorem arrow_keys_move_focus (s : KeyState) (i : Nat)
    (hf : s.focused = some i) (hi : i < s.page.sizeOptions.length) :
    (keydown s "ArrowRight").focused = some ((i + 1) % s.page.sizeOptions.length) ∧
    (∃ j : Nat, (keydown s "ArrowLeft").focused = some j ∧ j < s.page.sizeOptions.length ∧
      (j : Int) = ((i : Int) - 1) % (s.page.sizeOptions.length : Int)) ∧
    (i + 1) % s.page.sizeOptions.length < s.page.sizeOptions.length ∧
    (keydown s "ArrowRight").page = s.page ∧ (keydown s "ArrowLeft").page = s.page ∧
    (keydown s "ArrowRight").faq = s.faq ∧ (keydown s "ArrowLeft").faq = s.faq := by
  rw [keydown_arrow s i "ArrowRight" hf hi (Or.inr rfl),
    keydown_arrow s i "ArrowLeft" hf hi (Or.inl rfl)]
  have hright : nextFocusIndex s.page.sizeOptions.length i "ArrowRight" =
      (i + 1) % s.page.sizeOptions.length := by
    unfold nextFocusIndex
    rw [if_neg (by decide)]
    split
    · rw [Nat.mod_eq_of_lt (by omega)]
    · have : i + 1 = s.page.sizeOptions.length := by omega
      rw [this, Nat.mod_self]
  refine ⟨by rw [hright], ?_, Nat.mod_lt _ (by omega), rfl, rfl, rfl, rfl⟩
  refine ⟨nextFocusIndex s.page.sizeOptions.length i "ArrowLeft", rfl, ?_, ?_⟩
  · unfold nextFocusIndex
    split <;> split <;> omega
  · unfold nextFocusIndex
    rw [if_pos rfl]
    split
    · rw [Int.emod_eq_of_lt (by omega) (by omega)]
      omega
    · have hi0 : i = 0 := by omega
      subst hi0
      have hn : (0 : Int) < (s.page.sizeOptions.length : Int) := by omega
      rw [show ((0 : Nat) : Int) - 1 = -1 from rfl,
        Int.emod_eq_add_self_emod, Int.emod_eq_of_lt (by omega) (by omega)]
      omega

/-- Witness for C11: the focus on the last of the three options. -/
theorem arrow_keys_move_focus_witness :
    (KeyState.mk threeSizePage [] (some 2)).focused = some 2 ∧
    ((keydown ⟨threeSizePage, [], some 2⟩ "ArrowRight").focused =
        some ((2 + 1) % threeSizePage.sizeOptions.length) ∧
      (∃ j : Nat, (keydown ⟨threeSizePage, [], some 2⟩ "ArrowLeft").focused = some j ∧
        j < threeSizePage.sizeOptions.length ∧
        (j : Int) = (((2 : Nat) : Int) - 1) % (threeSizePage.sizeOptions.length : Int)) ∧
      (2 + 1) % threeSizePage.sizeOptions.length < threeSizePage.sizeOptions.length ∧
      (keydown ⟨threeSizePage, [], some 2⟩ "ArrowRight").page = threeSizePage ∧
      (keydown ⟨threeSizePage, [], some 2⟩ "ArrowLeft").page = threeSizePage ∧
      (keydown ⟨threeSizePage, [], some 2⟩ "ArrowRight").faq = [] ∧
      (keydown ⟨threeSizePage, [], some 2⟩ "ArrowLeft").faq = []) :=
  ⟨rfl, arrow_keys_move_focus ⟨threeSizePage, [], some 2⟩ 2 rfl (by decide)⟩

/-! ## Theorems: testimonial rotation -/

/-- Replacing the entry at a position of the list changes a count by what the
old and the new entry contribute. -/
theorem countP_set_add {α : Type} (p : α → Bool) (l : List α) (i : Nat) (a x : α)
    (h : l[i]? = some x) :
    (l.set i a).countP p + (if p x then 1 else 0) = l.countP p + (if p a then 1 else 0) := by
  induction l generalizing i with
  | nil => simp at h
  | cons y ys ih =>
    cases i with
    | zero =>
      simp only [List.getElem?_cons_zero, Option.some.injEq] at h
      subst h
      simp only [List.set_cons_zero, List.countP_cons]
      omega
    | succ k =>
      simp only [List.getElem?_cons_succ] at h
      have := ih k h
      simp only [List.set_cons_succ, List.countP_cons]
      omega

/-- A remainder after at most one wrap-around. -/
theorem mod_wrap (a n : Nat) (ha : a < 2 * n) :
    (a < n ∧ a % n = a) ∨ (n ≤ a ∧ a % n = a - n) := by
  rcases Nat.lt_or_ge a n with h | h
  · exact Or.inl ⟨h, Nat.mod_eq_of_lt h⟩
  · right
    refine ⟨h, ?_⟩
    rw [Nat.mod_eq_sub_mod h, Nat.mod_eq_of_lt (by omega)]

theorem hideExtraCards_getElem? (cards : List String) (index j : Nat) :
    (hideExtraCards cards index)[j]? =
      cards[j]?.map fun d => if index + j ≥ visibleCards then "none" else d := by
  induction cards generalizing index j with
  | nil => simp [hideExtraCards]
  | cons d rest ih =>
    cases j with
    | zero => simp [hideExtraCards]
    | succ k =>
      simp only [hideExtraCards, List.getElem?_cons_succ, ih]
      have : index + 1 + k = index + (k + 1) := by omega
      rw [this]

theorem hideExtraCards_length (cards : List String) (index : Nat) :
    (hideExtraCards cards index).length = cards.length := by
  induction cards generalizing index with
  | nil => rfl
  | cons d rest ih => simp [hideExtraCards, ih]

theorem hideExtraCards_count_zero (cards : List String) (index : Nat)
    (h : visibleCards ≤ index) : (hideExtraCards cards index).countP cardDisplayed = 0 := by
  induction cards generalizing index with
  | nil => rfl
  | cons d rest ih =>
    have h1 : visibleCards ≤ index + 1 := by omega
    have hd : cardDisplayed "none" = false := by decide
    simp only [hideExtraCards, ge_iff_le, h, if_true, List.countP_cons, ih (index + 1) h1, hd]
    simp

/-- One tick keeps the rotation's invariant and advances `currentIndex`. -/
theorem rotationTick_inv (r : Rotator) (hn : 3 < r.displays.length)
    (hc : r.currentIndex < r.displays.length)
    (hshown : ∀ (j : Nat) (d : String), r.displays[j]? = some d →
      (cardDisplayed d = true ↔
        j = r.currentIndex ∨ j = (r.currentIndex + 1) % r.displays.length ∨
        j = (r.currentIndex + 2) % r.displays.length))
    (hcount : r.displays.countP cardDisplayed = 3) :
    (rotationTick r).displays.length = r.displays.length ∧
    (rotationTick r).currentIndex = (r.currentIndex + 1) % r.displays.length ∧
    (∀ (j : Nat) (d : String), (rotationTick r).displays[j]? = some d →
      (cardDisplayed d = true ↔
        j = (rotationTick r).currentIndex ∨
        j = ((rotationTick r).currentIndex + 1) % r.displays.length ∨
        j = ((rotationTick r).currentIndex + 2) % r.displays.length)) ∧
    (rotationTick r).displays.countP cardDisplayed = 3 := by
  obtain ⟨displays, c⟩ := r
  simp only at hn hc hshown hcount
  have hnext : ((c + 1) % displays.length + visibleCards - 1) % displays.length =
      (c + 3) % displays.length := by
    have : (c + 1) % displays.length + visibleCards - 1 = (c + 1) % displays.length + 2 := rfl
    rw [this, Nat.mod_add_mod]
  have h11 : ((c + 1) % displays.length + 1) % displays.length = (c + 2) % displays.length := by
    rw [Nat.mod_add_mod]
  have h12 : ((c + 1) % displays.length + 2) % displays.length = (c + 3) % displays.length := by
    rw [Nat.mod_add_mod]
  have w1 := mod_wrap (c + 1) displays.length (by omega)
  have w2 := mod_wrap (c + 2) displays.length (by omega)
  have w3 := mod_wrap (c + 3) displays.length (by omega)
  have hblock : cardDisplayed "block" = true := by decide
  have hnone : cardDisplayed "none" = false := by decide
  obtain ⟨dc, hdc⟩ : ∃ dc, displays[c]? = some dc :=
    ⟨displays[c], List.getElem?_eq_getElem hc⟩
  have hlt3 : (c + 3) % displays.length < displays.length := Nat.mod_lt _ (by omega)
  obtain ⟨dn, hdn⟩ : ∃ dn, displays[(c + 3) % displays.length]? = some dn :=
    ⟨displays[(c + 3) % displays.length], List.getElem?_eq_getElem hlt3⟩
  have hne : ¬ c = (c + 3) % displays.length := by omega
  unfold rotationTick
  simp only [hnext, h11, h12]
  refine ⟨by simp, trivial, ?_, ?_⟩
  · intro j d hj
    rw [List.getElem?_set, List.getElem?_set] at hj
    by_cases hjn : (c + 3) % displays.length = j
    · rw [if_pos hjn] at hj
      simp only [List.length_set, hlt3, if_true, Option.some.injEq] at hj
      subst hj
      rw [hblock]
      simp [hjn]
    · rw [if_neg hjn] at hj
      by_cases hjc : c = j
      · rw [if_pos hjc, if_pos hc] at hj
        simp only [Option.some.injEq] at hj
        subst hj
        rw [hnone]
        simp only [Bool.false_eq_true, false_iff]
        omega
      · rw [if_neg hjc] at hj
        rw [hshown j d hj]
        omega
  · have hcdisp : cardDisplayed dc = true := (hshown c dc hdc).mpr (Or.inl rfl)
    have hndisp : cardDisplayed dn = false := by
      have := hshown _ dn hdn
      cases hv : cardDisplayed dn with
      | false => rfl
      | true =>
        have := this.mp hv
        omega
    have h1 := countP_set_add cardDisplayed displays c "none" dc hdc
    have hdn' : (displays.set c "none")[(c + 3) % displays.length]? = some dn := by
      rw [List.getElem?_set, if_neg hne]
      exact hdn
    have h2 := countP_set_add cardDisplayed (displays.set c "none")
      ((c + 3) % displays.length) "block" dn hdn'
    rw [hcdisp, hnone] at h1
    rw [hndisp, hblock] at h2
    simp only [if_true, Bool.false_eq_true, if_false] at h1 h2
    omega

/-- The set-up establishes the invariant: the first three cards are displayed
when they were, every other card is hidden. -/
theorem setup_inv (cards : List String) (hn : 3 < cards.length)
    (hfirst : (cards.take 3).all cardDisplayed = true) :
    (hideExtraCards cards 0).length = cards.length ∧
    (∀ (j : Nat) (d : String), (hideExtraCards cards 0)[j]? = some d →
      (cardDisplayed d = true ↔ j = 0 ∨ j = (0 + 1) % cards.length ∨
        j = (0 + 2) % cards.length)) ∧
    (hideExtraCards cards 0).countP cardDisplayed = 3 := by
  match cards, hn, hfirst with
  | a :: b :: c :: e :: rest, hn, hfirst =>
    simp only [List.take, List.all_cons, List.all_nil, Bool.and_true, Bool.and_eq_true] at hfirst
    obtain ⟨ha, hb, hc⟩ := hfirst
    have h1 : (0 + 1) % (a :: b :: c :: e :: rest).length = 1 :=
      Nat.mod_eq_of_lt (by simp)
    have h2 : (0 + 2) % (a :: b :: c :: e :: rest).length = 2 :=
      Nat.mod_eq_of_lt (by simp)
    have hnone : cardDisplayed "none" = false := by decide
    refine ⟨hideExtraCards_length _ _, ?_, ?_⟩
    · intro j d hj
      rw [h1, h2]
      rw [hideExtraCards_getElem?] at hj
      match j, hj with
      | 0, hj =>
        simp [visibleCards] at hj
        subst hj
        simp [ha]
      | 1, hj =>
        simp [visibleCards] at hj
        subst hj
        simp [hb]
      | 2, hj =>
        simp [visibleCards] at hj
        subst hj
        simp [hc]
      | k + 3, hj =>
        cases hk : (a :: b :: c :: e :: rest)[k + 3]? with
        | none => simp [hk] at hj
        | some x =>
          simp only [hk, Option.map_some', Option.some.injEq, visibleCards] at hj
          rw [if_pos (by omega)] at hj
          subst hj
          rw [hnone]
          simp
    · have hz := hideExtraCards_count_zero (e :: rest) 3 (le_refl 3)
      simp only [hideExtraCards, visibleCards, List.countP_cons] at hz ⊢
      simp only [ge_iff_le, Nat.reduceLeDiff, if_false, ha, hb, hc, if_true, zero_add,
        Nat.reduceAdd, le_refl] at hz ⊢
      omega

/-- C14 (testimonial rotation): for every list of more than three review
cards whose first three are displayed when the script starts, the rotation is
set up, and after the set-up and after every number `k` of ticks the cards are
as many as before, `currentIndex` is `k mod n` (so each tick advances it by 1
modulo `n`), a card is displayed exactly when its index is `currentIndex`,
`currentIndex + 1` or `currentIndex + 2` modulo `n`, and exactly 3 cards are
displayed. -/
theorem testimonial_rotation (cards : List String) (hn : 3 < cards.length)
    (hfirst : (cards.take 3).all cardDisplayed = true) (k : Nat) :
    ∃ r0 : Rotator, setupTestimonialRotation cards = some r0 ∧
      (rotationTicks k r0).displays.length = cards.length ∧
      (rotationTicks k r0).currentIndex = k % cards.length ∧
      (rotationTicks (k + 1) r0).currentIndex =
        ((rotationTicks k r0).currentIndex + 1) % cards.length ∧
      (∀ (j : Nat) (d : String), (rotationTicks k r0).displays[j]? = some d →
        (cardDisplayed d = true ↔
          j = (rotationTicks k r0).currentIndex ∨
          j = ((rotationTicks k r0).currentIndex + 1) % cards.length ∨
          j = ((rotationTicks k r0).currentIndex + 2) % cards.length)) ∧
      (rotationTicks k r0).displays.countP cardDisplayed = 3 := by
  refine ⟨{ displays := hideExtraCards cards 0, currentIndex := 0 }, ?_, ?_⟩
  · unfold setupTestimonialRotation
    rw [if_pos hn]
  · have key : ∀ k : Nat,
        (rotationTicks k ⟨hideExtraCards cards 0, 0⟩).displays.length = cards.length ∧
        (rotationTicks k ⟨hideExtraCards cards 0, 0⟩).currentIndex = k % cards.length ∧
        (∀ (j : Nat) (d : String),
          (rotationTicks k ⟨hideExtraCards cards 0, 0⟩).displays[j]? = some d →
          (cardDisplayed d = true ↔
            j = (rotationTicks k ⟨hideExtraCards cards 0, 0⟩).currentIndex ∨
            j = ((rotationTicks k ⟨hideExtraCards cards 0, 0⟩).currentIndex + 1) %
              cards.length ∨
            j = ((rotationTicks k ⟨hideExtraCards cards 0, 0⟩).currentIndex + 2) %
              cards.length)) ∧
        (rotationTicks k ⟨hideExtraCards cards 0, 0⟩).displays.countP cardDisplayed = 3 := by
      intro k
      induction k with
      | zero =>
        obtain ⟨hlen, hshown, hcount⟩ := setup_inv cards hn hfirst
        exact ⟨hlen, (Nat.zero_mod _).symm, hshown, hcount⟩
      | succ k ih =>
        obtain ⟨hlen, hcur, hshown, hcount⟩ := ih
        have hc : (rotationTicks k ⟨hideExtraCards cards 0, 0⟩).currentIndex <
            (rotationTicks k ⟨hideExtraCards cards 0, 0⟩).displays.length := by
          rw [hcur, hlen]
          exact Nat.mod_lt _ (by omega)
        have step := rotationTick_inv (rotationTicks k ⟨hideExtraCards cards 0, 0⟩)
          (by rw [hlen]; exact hn) hc (by rw [hlen]; exact hshown) hcount
        rw [hlen] at step
        obtain ⟨s1, s2, s3, s4⟩ := step
        refine ⟨s1, ?_, s3, s4⟩
        show (rotationTick (rotationTicks k ⟨hideExtraCards cards 0, 0⟩)).currentIndex = _
        rw [s2, hcur, Nat.mod_add_mod]
    obtain ⟨h1, h2, h3, h4⟩ := key k
    refine ⟨h1, h2, ?_, h3, h4⟩
    rw [(key (k + 1)).2.1, h2, Nat.mod_add_mod]

/-- Witness for C14: five cards, seven ticks. -/
theorem testimonial_rotation_witness :
    3 < ["", "", "", "", ""].length ∧
    ∃ r0 : Rotator, setupTestimonialRotation ["", "", "", "", ""] = some r0 ∧
      (rotationTicks 7 r0).displays.length = ["", "", "", "", ""].length ∧
      (rotationTicks 7 r0).currentIndex = 7 % ["", "", "", "", ""].length ∧
      (rotationTicks (7 + 1) r0).currentIndex =
        ((rotationTicks 7 r0).currentIndex + 1) % ["", "", "", "", ""].length ∧
      (∀ (j : Nat) (d : String), (rotationTicks 7 r0).displays[j]? = some d →
        (cardDisplayed d = true ↔
          j = (rotationTicks 7 r0).currentIndex ∨
          j = ((rotationTicks 7 r0).currentIndex + 1) % ["", "", "", "", ""].length ∨
          j = ((rotationTicks 7 r0).currentIndex + 2) % ["", "", "", "", ""].length)) ∧
      (rotationTicks 7 r0).displays.countP cardDisplayed = 3 :=
  ⟨by decide, testimonial_rotation ["", "", "", "", ""] (by decide) (by decide) 7⟩

/-! ## Theorems: debounce -/

theorem nextDue_foldl {α : Type} (timers : List (DebounceTimer α)) (target : Nat)
    (best : Option (DebounceTimer α)) (hbest : ∀ b, best = some b → b.due ≤ target) :
    (timers.foldl (fun best t =>
      if t.due ≤ target then
        match best with
        | none => some t
        | some b => if t.due < b.due then some t else some b
      else best) best = none → best = none ∧ ∀ t ∈ timers, target < t.due) ∧
    (∀ r, timers.foldl (fun best t =>
      if t.due ≤ target then
        match best with
        | none => some t
        | some b => if t.due < b.due then some t else some b
      else best) best = some r → (best = some r ∨ r ∈ timers) ∧ r.due ≤ target) := by
  induction timers generalizing best with
  | nil =>
    refine ⟨fun h => ⟨h, by simp⟩, fun r h => ⟨Or.inl h, hbest r h⟩⟩
  | cons t ts ih =>
    simp only [List.foldl_cons]
    by_cases hdue : t.due ≤ target
    · simp only [if_pos hdue]
      cases best with
      | none =>
        obtain ⟨h1, h2⟩ := ih (some t) (by
          intro b hb
          cases hb
          exact hdue)
        refine ⟨fun h => ?_, fun r h => ?_⟩
        · exact absurd (h1 h).1 (by simp)
        · obtain ⟨h3, h4⟩ := h2 r h
          refine ⟨Or.inr ?_, h4⟩
          rcases h3 with h3 | h3
          · cases h3
            simp
          · simp [h3]
      | some b =>
        have hb := hbest b rfl
        by_cases hlt : t.due < b.due
        · simp only [if_pos hlt]
          obtain ⟨h1, h2⟩ := ih (some t) (by
            intro x hx
            cases hx
            exact hdue)
          refine ⟨fun h => ?_, fun r h => ?_⟩
          · exact absurd (h1 h).1 (by simp)
          · obtain ⟨h3, h4⟩ := h2 r h
            refine ⟨Or.inr ?_, h4⟩
            rcases h3 with h3 | h3
            · cases h3
              simp
            · simp [h3]
        · simp only [if_neg hlt]
          obtain ⟨h1, h2⟩ := ih (some b) hbest
          refine ⟨fun h => ?_, fun r h => ?_⟩
          · exact absurd (h1 h).1 (by simp)
          · obtain ⟨h3, h4⟩ := h2 r h
            refine ⟨?_, h4⟩
            rcases h3 with h3 | h3
            · exact Or.inl h3
            · exact Or.inr (by simp [h3])
    · simp only [if_neg hdue]
      obtain ⟨h1, h2⟩ := ih best hbest
      refine ⟨fun h => ?_, fun r h => ?_⟩
      · obtain ⟨h3, h4⟩ := h1 h
        refine ⟨h3, ?_⟩
        intro x hx
        rcases List.mem_cons.mp hx with hx | hx
        · subst hx
          omega
        · exact h4 x hx
      · obtain ⟨h3, h4⟩ := h2 r h
        refine ⟨?_, h4⟩
        rcases h3 with h3 | h3
        · exact Or.inl h3
        · exact Or.inr (by simp [h3])

theorem clearTimeout_timers {α : Type} (s : Debounced α) :
    (clearTimeout s).timers.length ≤ s.timers.length ∧
    (∀ t ∈ (clearTimeout s).timers, t ∈ s.timers) ∧ (clearTimeout s).now = s.now := by
  unfold clearTimeout
  split
  · exact ⟨le_refl _, fun _ h => h, rfl⟩
  · exact ⟨List.length_filter_le _ _, fun t h => (List.mem_filter.mp h).1, rfl⟩

/-- The fuel `elapse` gives is enough: when the clock has run to `target`, no
timer that was due by then is still pending. -/
theorem runDue_settled {α : Type} (fuel : Nat) (s : Debounced α) (target : Nat)
    (hfuel : s.timers.length ≤ fuel) :
    (runDue fuel s target).now = target ∧
    ∀ t ∈ (runDue fuel s target).timers, target < t.due := by
  induction fuel generalizing s with
  | zero =>
    have hnil : s.timers = [] := List.eq_nil_of_length_eq_zero (by omega)
    refine ⟨rfl, ?_⟩
    intro t ht
    have : t ∈ s.timers := ht
    rw [hnil] at this
    cases this
  | succ fuel ih =>
    unfold runDue
    have hfold := nextDue_foldl s.timers target none (by
      intro b hb
      cases hb)
    cases hnext : nextDue s.timers target with
    | none =>
      refine ⟨rfl, ?_⟩
      intro t ht
      exact (hfold.1 hnext).2 t ht
    | some t =>
      simp only
      have hmem : t ∈ s.timers := by
        rcases (hfold.2 t hnext).1 with h | h
        · cases h
        · exact h
      apply ih
      have h1 := (clearTimeout_timers
        ({ s with now := max s.now t.due,
                  timers := s.timers.filter fun u => u.id != t.id } : Debounced α)).1
      have h2 : (s.timers.filter fun u => u.id != t.id).length < s.timers.length := by
        apply List.length_filter_lt_length_iff_exists.mpr
        exact ⟨t, hmem, by simp⟩
      exact Nat.le_of_lt_succ (Nat.lt_of_lt_of_le (Nat.lt_of_le_of_lt h1 h2) hfuel)

theorem elapse_settled {α : Type} (s : Debounced α) (dt : Nat) :
    (elapse s dt).now = s.now + dt ∧ ∀ t ∈ (elapse s dt).timers, s.now + dt < t.due :=
  runDue_settled s.timers.length s (s.now + dt) (le_refl _)

theorem nextDue_single {α : Type} (t : DebounceTimer α) (target : Nat) :
    nextDue [t] target = if t.due ≤ target then some t else none := by
  simp [nextDue]

/-- With nothing pending, time just passes. -/
theorem elapse_idle {α : Type} (s : Debounced α) (dt : Nat) (h : s.timers = []) :
    elapse s dt = { s with now := s.now + dt } := by
  obtain ⟨wait, timeout, timers, nextId, now, invoked⟩ := s
  simp only at h
  subst h
  rfl

/-- Before the pending timer is due, time just passes. -/
theorem elapse_before_due {α : Type} (s : Debounced α) (t : DebounceTimer α) (dt : Nat)
    (h : s.timers = [t]) (hdue : s.now + dt < t.due) :
    elapse s dt = { s with now := s.now + dt } := by
  obtain ⟨wait, timeout, timers, nextId, now, invoked⟩ := s
  simp only at h hdue
  subst h
  show runDue 1 _ (now + dt) = _
  unfold runDue
  simp only [nextDue_single, if_neg (Nat.not_le.mpr hdue)]

/-- Once the pending timer is due it fires, at its due time, and `func` is
invoked with its arguments. -/
theorem elapse_past_due {α : Type} (s : Debounced α) (t : DebounceTimer α) (dt : Nat)
    (h : s.timers = [t]) (htimeout : s.timeout = some t.id)
    (hnow : s.now ≤ t.due) (hdue : t.due ≤ s.now + dt) :
    elapse s dt =
      { s with now := s.now + dt, timers := [], invoked := s.invoked ++ [(t.due, t.args)] } := by
  obtain ⟨wait, timeout, timers, nextId, now, invoked⟩ := s
  simp only at h htimeout hnow hdue
  subst h htimeout
  show runDue 1 _ (now + dt) = _
  unfold runDue
  simp only [nextDue_single, if_pos hdue, runDue, later, clearTimeout, List.filter_cons,
    bne_self_eq_false, Bool.false_eq_true, if_false, List.filter_nil, Nat.max_eq_right hnow]

/-- A call made while nothing is pending leaves its own timer pending. -/
theorem executedFunction_idle {α : Type} (s : Debounced α) (args : α) (h : s.timers = []) :
    PendingCall (executedFunction s args) args ∧
    (executedFunction s args).invoked = s.invoked ∧
    (executedFunction s args).wait = s.wait ∧ (executedFunction s args).now = s.now := by
  obtain ⟨wait, timeout, timers, nextId, now, invoked⟩ := s
  simp only at h
  subst h
  cases timeout with
  | none => exact ⟨⟨nextId, rfl, rfl⟩, rfl, rfl, rfl⟩
  | some id => exact ⟨⟨nextId, rfl, rfl⟩, rfl, rfl, rfl⟩

/-- A call made while the previous call's timer is pending replaces it. -/
theorem executedFunction_pending {α : Type} (s : Debounced α) (prev args : α)
    (h : PendingCall s prev) :
    PendingCall (executedFunction s args) args ∧
    (executedFunction s args).invoked = s.invoked ∧
    (executedFunction s args).wait = s.wait ∧ (executedFunction s args).now = s.now := by
  obtain ⟨id, htimers, htimeout⟩ := h
  obtain ⟨wait, timeout, timers, nextId, now, invoked⟩ := s
  simp only at htimers htimeout
  subst htimers htimeout
  refine ⟨⟨nextId, ?_, rfl⟩, rfl, rfl, rfl⟩
  simp [executedFunction, clearTimeout]

/-- The calls of a burst after the first: each arrives before the pending
timer is due and replaces it. -/
theorem runCalls_pending {α : Type} (rest : List (Nat × α)) (s : Debounced α)
    (first : Nat × α) (h : PendingCall s first.2) (hgaps : ∀ c ∈ rest, c.1 < s.wait) :
    PendingCall (runCalls s rest) ((first :: rest).getLast (List.cons_ne_nil _ _)).2 ∧
    (runCalls s rest).invoked = s.invoked ∧ (runCalls s rest).wait = s.wait := by
  induction rest generalizing s first with
  | nil => exact ⟨h, rfl, rfl⟩
  | cons c cs ih =>
    obtain ⟨id, htimers, htimeout⟩ := h
    have hgap : c.1 < s.wait := hgaps c (by simp)
    have helapse : elapse s c.1 = { s with now := s.now + c.1 } :=
      elapse_before_due s _ c.1 htimers (by
        show s.now + c.1 < s.now + s.wait
        omega)
    have hstep : PendingCall (executedFunction (elapse s c.1) c.2) c.2 ∧
        (executedFunction (elapse s c.1) c.2).invoked = s.invoked ∧
        (executedFunction (elapse s c.1) c.2).wait = s.wait := by
      rw [helapse]
      obtain ⟨wait, timeout, timers, nextId, now, invoked⟩ := s
      simp only at htimers htimeout
      subst htimers htimeout
      refine ⟨⟨nextId, ?_, rfl⟩, rfl, rfl⟩
      simp [executedFunction, clearTimeout]
    obtain ⟨hp, hinv, hwait⟩ := hstep
    have := ih (executedFunction (elapse s c.1) c.2) c hp (by
      intro d hd
      rw [hwait]
      exact hgaps d (by simp [hd]))
    obtain ⟨h1, h2, h3⟩ := this
    refine ⟨?_, ?_, ?_⟩
    · have hlast : (first :: c :: cs).getLast (List.cons_ne_nil _ _) =
          (c :: cs).getLast (List.cons_ne_nil _ _) := List.getLast_cons (List.cons_ne_nil _ _)
      rw [hlast]
      exact h1
    · show (runCalls (executedFunction (elapse s c.1) c.2) cs).invoked = _
      rw [h2, hinv]
    · show (runCalls (executedFunction (elapse s c.1) c.2) cs).wait = _
      rw [h3, hwait]

/-- C13 (debounce): for every wait `w`, every state of a debounced function in
which no timer is pending, and every burst of calls in which each call after
the first arrives less than `w` after the previous one, `func` is not invoked
during the burst nor in the `w` milliseconds after its last call, and once `w`
milliseconds have passed since the last call it has been invoked exactly
once more, at `w` after the last call, with the arguments of the last call. -/
theorem debounce_single_trailing_call {α : Type} (s : Debounced α) (calls : List (Nat × α))
    (hidle : s.timers = []) (hne : calls ≠ [])
    (hgaps : ∀ c ∈ calls.tail, c.1 < s.wait) :
    (runCalls s calls).invoked = s.invoked ∧
    (∀ dt : Nat, dt < s.wait → (elapse (runCalls s calls) dt).invoked = s.invoked) ∧
    (∀ dt : Nat, s.wait ≤ dt →
      (elapse (runCalls s calls) dt).invoked =
        s.invoked ++ [((runCalls s calls).now + s.wait, (calls.getLast hne).2)]) := by
  match calls, hne, hgaps with
  | first :: rest, hne, hgaps =>
    have hidle' : (elapse s first.1).timers = [] := by
      rw [elapse_idle s first.1 hidle]
      exact hidle
    obtain ⟨hp, hinv, hwait, _⟩ := executedFunction_idle (elapse s first.1) first.2 hidle'
    have hinv0 : (elapse s first.1).invoked = s.invoked := by
      rw [elapse_idle s first.1 hidle]
    have hwait0 : (elapse s first.1).wait = s.wait := by
      rw [elapse_idle s first.1 hidle]
    obtain ⟨hpend, hinvoked, hw⟩ :=
      runCalls_pending rest (executedFunction (elapse s first.1) first.2) first hp (by
        intro c hc
        rw [hwait, hwait0]
        exact hgaps c hc)
    have hrun : runCalls s (first :: rest) =
        runCalls (executedFunction (elapse s first.1) first.2) rest := rfl
    rw [hrun]
    rw [hwait, hwait0] at hw
    rw [hinv, hinv0] at hinvoked
    obtain ⟨id, htimers, htimeout⟩ := hpend
    refine ⟨hinvoked, ?_, ?_⟩
    · intro dt hdt
      rw [elapse_before_due _ _ dt htimers (by
        show _ + dt < _ + _
        rw [hw]
        omega)]
      exact hinvoked
    · intro dt hdt
      rw [elapse_past_due _ _ dt htimers htimeout (by
        show _ ≤ _ + _
        omega) (by
        show _ + _ ≤ _ + dt
        rw [hw]
        omega)]
      show _ ++ [(_ + _, _)] = _
      rw [hinvoked, hw]

/-- Witness for C13: a fresh resize handler debounced at 250 ms and a burst of
three calls. -/
theorem debounce_single_trailing_call_witness :
    (debounce 250 : Debounced String).timers = [] ∧
    (runCalls (debounce 250) [(10, "a"), (100, "b"), (249, "c")]).invoked =
      (debounce 250 : Debounced String).invoked ∧
    (∀ dt : Nat, dt < (debounce 250 : Debounced String).wait →
      (elapse (runCalls (debounce 250) [(10, "a"), (100, "b"), (249, "c")]) dt).invoked =
        (debounce 250 : Debounced String).invoked) ∧
    (∀ dt : Nat, (debounce 250 : Debounced String).wait ≤ dt →
      (elapse (runCalls (debounce 250) [(10, "a"), (100, "b"), (249, "c")]) dt).invoked =
        (debounce 250 : Debounced String).invoked ++
          [((runCalls (debounce 250) [(10, "a"), (100, "b"), (249, "c")]).now +
              (debounce 250 : Debounced String).wait,
            ([(10, "a"), (100, "b"), (249, "c")].getLast (by decide)).2)]) :=
  ⟨rfl, debounce_single_trailing_call (debounce 250) [(10, "a"), (100, "b"), (249, "c")] rfl
    (by decide) (by decide)⟩

end Scripts
